import Mathlib

/-!
# Reconciler: scheduler and patch engine

A shallow embedding of `pkg/scheduler/scheduler.go` and
`pkg/reconciler/kubernetes/kubeclient/patcher.go`.

Everything the Go code reaches through an interface (the worker factory, the
workers, the logger, the Kubernetes resource helper, the back-off clock) is an
*environment*: a record of response functions that may depend on everything
that happened before. The embedded functions thread a chronological trace of
events; every call to the environment appends one event holding the call's
arguments and its answer, so statements about "which calls were made, in which
order" are statements about the trace.

Goroutines are run under an explicit interleaving: a list of choices says
who makes the next step, the function that started the goroutines or one of
them, and a step of a goroutine is one call to the environment. Every
interleaving is completed by letting whatever is still pending run to its end,
so the embedded functions are total and a statement "for every list of
choices" is a statement about every schedule the Go runtime may pick.

Go `int` values are mathematical integers (`Int`); no arithmetic in the
embedded code can leave the 64-bit range except the loop counter of
`Patcher.Patch` when `Retries` is the largest `int`. For that one place the
loop is embedded a second time with Go's wrapping counter
(`Patcher.retryLoopInt64`, `Patcher.PatchInt64`); the two embeddings give the
same run whenever `Retries` is below the largest `int`.
-/

namespace Reconciler

/-! ## Scheduler: data model -/

/-- A Go `error` value as the scheduler sees it: the scheduler only formats
errors with `%s` and hands them on, so an error is its message. -/
abbrev Error := String

/-- Modelled from the spec: the type `keb.Components`, declared in package
`pkg/keb`. The spec lists a component as name, namespace, version,
profile and configuration values; the scheduler reads the name only, through
the field `Component`. -/
structure Components where
  Component : String
  Namespace : String
  Version : String
  Profile : String
  Configuration : List (String × String)
  deriving DecidableEq, Repr

/-- Modelled from the spec: the type `cluster.State`, declared in package
`pkg/cluster`. The scheduler reads the cluster name (`state.Cluster.Cluster`)
and the outcome of `state.Configuration.GetComponents()`, an ordered component
list or a decoding error. -/
structure State where
  Cluster : String
  GetComponents : Except Error (List Components)

deriving instance DecidableEq for Except

/-- A `Worker` handed out by the worker factory, known by an identifier. -/
structure Worker where
  id : Nat
  deriving DecidableEq, Repr

/-- What can be observed of one scheduler run, in chronological order. -/
inductive Event where
  /-- A call `rs.reconcile(component, state, schedulingID, installCRD, concurrent)`. -/
  | dispatch (component : Components) (installCRD : Bool) (concurrent : Bool)
  /-- A completed call `workerFactory.ForComponent(name)` with its answer. -/
  | forComponent (name : String) (result : Except Error Worker)
  /-- A completed call `worker.Reconcile(component, state, schedulingID, installCRD)`
  with its answer (`none` is Go's `nil`). -/
  | reconcile (worker : Worker) (component : Components) (schedulingID : String)
      (installCRD : Bool) (result : Option Error)
  /-- A line written with `logger.Errorf`. -/
  | errorf (msg : String)
  /-- A line written with `logger.Infof`. -/
  | infof (msg : String)
  /-- A line written with `logger.Debugf` or `logger.Debug`. -/
  | debugf (msg : String)
  /-- The statement `make(chan cluster.State, capacity)`. -/
  | makeQueue (capacity : Int)
  /-- A completed call `ants.NewPoolWithFunc(size, ...)` with its error. -/
  | newPool (size : Int) (result : Option Error)
  /-- The statement `go rs.inventoryWatch.Run(ctx, queue)`. -/
  | goInventoryWatch
  /-- The statement `go workersPool.Invoke(clusterState)` for the named cluster. -/
  | goInvoke (cluster : String)
  /-- A value sent on the `results` channel of `LocalScheduler.Run`. -/
  | send (result : Option Error)
  deriving DecidableEq, Repr

/-- The collaborators of the schedulers: `WorkerFactory.ForComponent`,
`Worker.Reconcile` and `ants.NewPoolWithFunc`. Each answer may depend on the
whole trace so far. -/
structure Env where
  forComponent : List Event → String → Except Error Worker
  reconcile : List Event → Worker → Components → State → String → Bool → Option Error
  newPool : List Event → Int → Option Error

/-- The two name lists of `reconciler.MothershipReconcilerConfig` the scheduler reads. -/
structure MothershipReconcilerConfig where
  CrdComponents : List String
  PreComponents : List String

/-- The fields of `RemoteScheduler` that are data; `inventoryWatch`,
`workerFactory` and `logger` are the environment. -/
structure RemoteScheduler where
  mothershipCfg : MothershipReconcilerConfig
  poolSize : Int

def defaultPoolSize : Int := 50

def concurrencyNotAllowed : Bool := false

def concurrencyAllowed : Bool := true

def doNotInstallCRD : Bool := false

def doInstallCRD : Bool := true

/-! ## RemoteScheduler -/

/-- The loop shared by `isCRDComponent` and `isPreComponent`:
`for _, c := range names { if component == c { return true } }; return false`. -/
def nameListed (component : String) : List String → Bool
  | [] => false
  | c :: rest => if component == c then true else nameListed component rest

def RemoteScheduler.isCRDComponent (rs : RemoteScheduler) (component : String) : Bool :=
  nameListed component rs.mothershipCfg.CrdComponents

def RemoteScheduler.isPreComponent (rs : RemoteScheduler) (component : String) : Bool :=
  nameListed component rs.mothershipCfg.PreComponents

/-- The first half of the closure `fn` in `RemoteScheduler.reconcile`: ask the
factory for a worker; on failure log and give up on this component. -/
def fnForComponent (env : Env) (component : Components) (tr : List Event) :
    List Event × Option Worker :=
  match env.forComponent tr component.Component with
  | .error err =>
    (tr ++ [.forComponent component.Component (.error err),
            .errorf ("Error creating worker for component: " ++ err)], none)
  | .ok worker => (tr ++ [.forComponent component.Component (.ok worker)], some worker)

/-- The second half of the closure `fn`: reconcile with the worker obtained,
logging an error if there is one. -/
def fnReconcile (env : Env) (installCRD : Bool) (component : Components) (state : State)
    (schedulingID : String) (worker : Worker) (tr : List Event) : List Event :=
  match env.reconcile tr worker component state schedulingID installCRD with
  | some err =>
    tr ++ [.reconcile worker component schedulingID installCRD (some err),
           .errorf ("Error while reconciling component " ++ component.Component ++ ": " ++ err)]
  | none => tr ++ [.reconcile worker component schedulingID installCRD none]

/-- The closure `fn` of `RemoteScheduler.reconcile`, run to its end. -/
def fn (env : Env) (installCRD : Bool) (component : Components) (state : State)
    (schedulingID : String) (tr : List Event) : List Event :=
  match fnForComponent env component tr with
  | (tr1, none) => tr1
  | (tr1, some worker) => fnReconcile env installCRD component state schedulingID worker tr1

/-- Where a goroutine started by `go fn(...)` stands. -/
inductive Stage where
  /-- Started, `ForComponent` not yet called. -/
  | created
  /-- `ForComponent` answered with this worker, `Reconcile` not yet called. -/
  | working (worker : Worker)
  /-- Ended after `ForComponent` failed. -/
  | failed
  /-- Ended after `Reconcile` returned. -/
  | finished
  deriving DecidableEq, Repr

/-- A goroutine running `fn(component, state, schedulingID)`. -/
structure Goroutine where
  component : Components
  installCRD : Bool
  stage : Stage

/-- One scheduling cycle in flight: the trace and the goroutines started so far. -/
structure Cycle where
  trace : List Event
  goroutines : List Goroutine

/-- The method `RemoteScheduler.reconcile`: run `fn` in place, or start a
goroutine for it. -/
def RemoteScheduler.reconcile (_rs : RemoteScheduler) (env : Env) (component : Components)
    (state : State) (schedulingID : String) (installCRD : Bool) (concurrent : Bool) (cy : Cycle) : Cycle :=
  let tr := cy.trace ++ [.dispatch component installCRD concurrent]
  if concurrent then
    { trace := tr, goroutines := cy.goroutines ++ [⟨component, installCRD, .created⟩] }
  else
    { trace := fn env installCRD component state schedulingID tr, goroutines := cy.goroutines }

/-- The first loop of `schedule` ("Reconcile CRD components first"). -/
def crdLoop (rs : RemoteScheduler) (env : Env) (state : State) (schedulingID : String) :
    List Components → Cycle → Cycle
  | [], cy => cy
  | component :: rest, cy =>
    if rs.isCRDComponent component.Component then
      crdLoop rs env state schedulingID rest
        (rs.reconcile env component state schedulingID doInstallCRD concurrencyNotAllowed cy)
    else crdLoop rs env state schedulingID rest cy

/-- The second loop of `schedule` ("Reconcile pre components"). -/
def preLoop (rs : RemoteScheduler) (env : Env) (state : State) (schedulingID : String) :
    List Components → Cycle → Cycle
  | [], cy => cy
  | component :: rest, cy =>
    if rs.isPreComponent component.Component then
      preLoop rs env state schedulingID rest
        (rs.reconcile env component state schedulingID doNotInstallCRD concurrencyNotAllowed cy)
    else preLoop rs env state schedulingID rest cy

/-- One iteration of the third loop of `schedule` ("Reconcile the rest"). -/
def restIteration (rs : RemoteScheduler) (env : Env) (state : State) (schedulingID : String)
    (component : Components) (cy : Cycle) : Cycle :=
  if rs.isPreComponent component.Component || rs.isCRDComponent component.Component then cy
  else rs.reconcile env component state schedulingID doNotInstallCRD concurrencyAllowed cy

/-- One step of the goroutine with index `k`: the next call of its `fn`. A
goroutine that has ended, or an index nobody has, changes nothing. -/
def goStep (env : Env) (state : State) (schedulingID : String) (k : Nat) (cy : Cycle) : Cycle :=
  match cy.goroutines[k]? with
  | none => cy
  | some g =>
    match g.stage with
    | .created =>
      match fnForComponent env g.component cy.trace with
      | (tr, none) => { trace := tr, goroutines := cy.goroutines.set k { g with stage := .failed } }
      | (tr, some worker) =>
        { trace := tr, goroutines := cy.goroutines.set k { g with stage := .working worker } }
    | .working worker =>
      { trace := fnReconcile env g.installCRD g.component state schedulingID worker cy.trace,
        goroutines := cy.goroutines.set k { g with stage := .finished } }
    | .failed => cy
    | .finished => cy

/-- The third loop of `schedule` running alongside the goroutines it starts.
`choices` is the interleaving: `0` lets the loop do its next iteration,
`k + 1` lets goroutine `k` do its next call. -/
def interleave (rs : RemoteScheduler) (env : Env) (state : State) (schedulingID : String) :
    List Nat → List Components → Cycle → List Components × Cycle
  | [], todo, cy => (todo, cy)
  | 0 :: choices, [], cy => interleave rs env state schedulingID choices [] cy
  | 0 :: choices, component :: todo, cy =>
    interleave rs env state schedulingID choices todo
      (restIteration rs env state schedulingID component cy)
  | (k + 1) :: choices, todo, cy =>
    interleave rs env state schedulingID choices todo (goStep env state schedulingID k cy)

/-- Choices that give each of the goroutines `0 .. n - 1` two steps. -/
def twoStepsEach : Nat → List Nat
  | 0 => []
  | n + 1 => twoStepsEach n ++ [n + 1, n + 1]

/-- Choices that let a loop over `n` items and up to `n` goroutines of two
calls each run to their end: what a fair Go runtime does with whatever an
interleaving left undone. -/
def runOut (n : Nat) : List Nat :=
  List.replicate n 0 ++ twoStepsEach n

/-- The method `RemoteScheduler.schedule`, together with the goroutines it
leaves behind, under the interleaving `choices` (completed by `runOut`).
`schedulingID` is the value of `uuid.NewString()`. -/
def RemoteScheduler.schedule (rs : RemoteScheduler) (env : Env) (state : State)
    (schedulingID : String) (choices : List Nat) (tr : List Event) : Cycle :=
  match state.GetComponents with
  | .error err =>
    { trace := tr ++ [.errorf ("Failed to get components for cluster " ++ state.Cluster
        ++ ": " ++ err)], goroutines := [] }
  | .ok components =>
    if components.length = 0 then
      { trace := tr ++ [.infof ("No components to reconcile for cluster " ++ state.Cluster)],
        goroutines := [] }
    else
      let cy1 := crdLoop rs env state schedulingID components { trace := tr, goroutines := [] }
      let cy2 := preLoop rs env state schedulingID components cy1
      (interleave rs env state schedulingID (choices ++ runOut components.length)
        components cy2).2

/-- The method `RemoteScheduler.validate`; the receiver is a pointer, so the
scheduler comes back with the error. -/
def RemoteScheduler.validate (rs : RemoteScheduler) : Option Error × RemoteScheduler :=
  if rs.poolSize < 0 then (some "Worker pool size cannot be < 0", rs)
  else if rs.poolSize == 0 then (none, { rs with poolSize := defaultPoolSize })
  else (none, rs)

/-- What one `select` of the dispatch loop receives. -/
inductive Select where
  /-- A cluster state taken from the queue. -/
  | item (clusterState : State)
  /-- The context is done. -/
  | done

/-- The dispatch loop of `RemoteScheduler.Run` fed with what its `select`
receives. A cluster state is handed to the pool in a goroutine of its own;
a done context ends the loop with `nil`. The result `none` stands for a loop
still waiting in `select`. -/
def dispatchLoop : List Select → List Event → Option (Option Error) × List Event
  | [], tr => (none, tr)
  | .item clusterState :: rest, tr => dispatchLoop rest (tr ++ [.goInvoke clusterState.Cluster])
  | .done :: _, tr =>
    (some none, tr ++ [.debugf "Stopping remote scheduler because parent context got closed"])

/-- The method `RemoteScheduler.Run`. The result holds what `Run` returned
(`none`: it has not returned), the scheduler as `validate` left it, and the
trace. What the goroutines started here do is not part of `Run`: the pool
runs `schedule`, embedded above. -/
def RemoteScheduler.Run (rs : RemoteScheduler) (env : Env) (selects : List Select)
    (tr : List Event) : Option (Option Error) × RemoteScheduler × List Event :=
  match rs.validate with
  | (some err, rs1) => (some (some err), rs1, tr)
  | (none, rs1) =>
    let tr1 := tr ++ [.makeQueue rs1.poolSize,
      .debugf ("Starting worker pool with capacity " ++ toString rs1.poolSize ++ " workers")]
    match env.newPool tr1 rs1.poolSize with
    | some err =>
      (some (some ("failed to create worker pool of remote-scheduler: " ++ err)), rs1,
        tr1 ++ [.newPool rs1.poolSize (some err)])
    | none =>
      let tr2 := tr1 ++ [.newPool rs1.poolSize none, .goInventoryWatch]
      ((dispatchLoop selects tr2).1, rs1, (dispatchLoop selects tr2).2)

/-! ## LocalScheduler -/

/-- Modelled from the spec: the field `KymaConfig` of `keb.Cluster`, declared
in package `pkg/keb`, as far as `localClusterState` reads it. -/
structure KymaConfig where
  Version : String
  Profile : String
  Components : List Components
  Administrators : List String

/-- Modelled from the spec: the type `keb.Cluster`, declared in package
`pkg/keb`, as far as `localClusterState` reads it. `Metadata` and
`RuntimeInput` are handles on the values to be marshalled. -/
structure KebCluster where
  Cluster : String
  Kubeconfig : String
  Metadata : String
  RuntimeInput : String
  KymaConfig : KymaConfig

/-- The functions `localClusterState` and `GetComponents` rely on:
`json.Marshal` on the four values marshalled, and the decoding of the
component list held by a configuration entity. The last one is modelled from
the spec: the configuration record yields an ordered list of component
descriptors, or fails to decode. -/
structure JsonLib where
  marshal : String → Except Error String
  marshalComponents : List Components → Except Error String
  marshalAdministrators : List String → Except Error String
  getComponents : String → Except Error (List Components)

/-- The data field of `LocalScheduler`; `workerFactory` and `logger` are the
environment. -/
structure LocalScheduler where
  cluster : KebCluster

/-- The function `localClusterState`. Of the state it builds, the cluster
name and the component list of the configuration entity are kept, which is
all a scheduler reads. -/
def localClusterState (json : JsonLib) (c : KebCluster) : Except Error State :=
  match json.marshal c.Metadata with
  | .error err => .error err
  | .ok _metadata =>
    match json.marshal c.RuntimeInput with
    | .error err => .error err
    | .ok _runtime =>
      match json.marshalComponents c.KymaConfig.Components with
      | .error err => .error err
      | .ok components =>
        match json.marshalAdministrators c.KymaConfig.Administrators with
        | .error err => .error err
        | .ok _administrators =>
          .ok { Cluster := c.Cluster, GetComponents := json.getComponents components }

/-- Where a goroutine started by `LocalScheduler.Run` stands. -/
inductive LocalStage where
  /-- Started, `Reconcile` not yet called. -/
  | started
  /-- `Reconcile` returned this error, not yet sent. -/
  | reconciled (err : Option Error)
  /-- The error was sent on `results` and `wg.Done` called. -/
  | sent (err : Option Error)
  deriving DecidableEq, Repr

/-- A goroutine of `LocalScheduler.Run`: its component, the worker it
captured, and where it stands. -/
structure LocalGoroutine where
  component : Components
  worker : Worker
  stage : LocalStage

/-- A goroutine that has sent its result. -/
def LocalGoroutine.isSent (g : LocalGoroutine) : Bool :=
  match g.stage with
  | .sent _ => true
  | _ => false

/-- One run of `LocalScheduler.Run` in flight: the trace, the components the
loop has not reached yet, the goroutines started, the buffer of the channel
`results`, and what `Run` returned if it has returned. -/
structure LocalRun where
  trace : List Event
  todo : List Components
  goroutines : List LocalGoroutine
  results : List (Option Error)
  returned : Option (Option Error)

/-- The last loop of `LocalScheduler.Run`: the first error in the channel
that is not `nil`, else `nil`. -/
def firstError : List (Option Error) → Option Error
  | [] => none
  | none :: rest => firstError rest
  | some err :: _ => some err

/-- One step of the body of `LocalScheduler.Run` after the component list is
there: the next iteration of the loop (ask the factory, return on failure,
else start the goroutine), or, the loop being through, `wg.Wait()` followed by
the draining of `results`. Waiting for goroutines still at work changes
nothing, nor does a step after `Run` has returned. -/
def localMainStep (env : Env) (r : LocalRun) : LocalRun :=
  match r.returned with
  | some _ => r
  | none =>
    match r.todo with
    | component :: rest =>
      match env.forComponent r.trace component.Component with
      | .error err =>
        { r with trace := r.trace ++ [.forComponent component.Component (.error err)],
                 returned := some (some ("failed to create a: " ++ err)) }
      | .ok worker =>
        { r with trace := r.trace ++ [.forComponent component.Component (.ok worker)],
                 todo := rest,
                 goroutines := r.goroutines ++ [⟨component, worker, .started⟩] }
    | [] =>
      if r.goroutines.all LocalGoroutine.isSent then
        { r with returned := some (firstError r.results) }
      else r

/-- One step of the goroutine with index `k`: the call of `Reconcile` with
`installCRD = true` (and the error line if it fails), then the sending of the
result. The channel has room for one result per component, so a send never
waits. -/
def localGoStep (env : Env) (state : State) (schedulingID : String) (k : Nat) (r : LocalRun) :
    LocalRun :=
  match r.goroutines[k]? with
  | none => r
  | some g =>
    match g.stage with
    | .started =>
      let err := env.reconcile r.trace g.worker g.component state schedulingID true
      { r with
        trace := fnReconcile env true g.component state schedulingID g.worker r.trace,
        goroutines := r.goroutines.set k { g with stage := .reconciled err } }
    | .reconciled err =>
      { r with trace := r.trace ++ [.send err],
               results := r.results ++ [err],
               goroutines := r.goroutines.set k { g with stage := .sent err } }
    | .sent _ => r

/-- The body of `LocalScheduler.Run` running alongside its goroutines under
an interleaving: `0` lets `Run` itself do its next step, `k + 1` lets
goroutine `k` do its next step. -/
def localInterleave (env : Env) (state : State) (schedulingID : String) :
    List Nat → LocalRun → LocalRun
  | [], r => r
  | 0 :: choices, r => localInterleave env state schedulingID choices (localMainStep env r)
  | (k + 1) :: choices, r =>
    localInterleave env state schedulingID choices (localGoStep env state schedulingID k r)

/-- The method `LocalScheduler.Run` under the interleaving `choices`,
completed so that the loop, every goroutine and the final wait get their
turn. `schedulingID` is the value of `uuid.NewString()`. -/
def LocalScheduler.Run (ls : LocalScheduler) (json : JsonLib) (env : Env)
    (schedulingID : String) (choices : List Nat) : LocalRun :=
  match localClusterState json ls.cluster with
  | .error err =>
    { trace := [], todo := [], goroutines := [], results := [],
      returned := some (some ("failed to convert to cluster state: " ++ err)) }
  | .ok clusterState =>
    match clusterState.GetComponents with
    | .error err =>
      { trace := [], todo := [], goroutines := [], results := [],
        returned := some (some ("failed to get components: " ++ err)) }
    | .ok components =>
      localInterleave env clusterState schedulingID
        (choices ++ (runOut components.length ++ [0]))
        { trace := [], todo := components, goroutines := [], results := [], returned := none }

/-! ## Patch engine: data model -/

namespace Kubeclient

/-- What the predicates on errors (`errors.IsConflict`, `errors.IsInvalid`,
`errors.IsNotFound`, `runtime.IsNotRegisteredError`,
`mergepatch.IsPreconditionFailed`) can tell about an error. An error built by
`fmt.Errorf` is `other`. -/
inductive Reason where
  | conflict
  | invalid
  | notFound
  | notRegistered
  | preconditionFailed
  | waitTimeout
  | other
  deriving DecidableEq, Repr

/-- A Go `error` value in the patch engine: what the predicates see, and its message. -/
structure Err where
  reason : Reason
  msg : String
  deriving DecidableEq, Repr

/-- The function `errors.IsConflict`; `none` is Go's `nil`. -/
def IsConflict : Option Err → Bool
  | some e => e.reason == .conflict
  | none => false

/-- The function `errors.IsInvalid`. -/
def IsInvalid : Option Err → Bool
  | some e => e.reason == .invalid
  | none => false

/-- The function `errors.IsNotFound`. -/
def IsNotFound : Option Err → Bool
  | some e => e.reason == .notFound
  | none => false

/-- The function `runtime.IsNotRegisteredError`. -/
def IsNotRegisteredError : Option Err → Bool
  | some e => e.reason == .notRegistered
  | none => false

/-- The function `mergepatch.IsPreconditionFailed`. -/
def IsPreconditionFailed : Option Err → Bool
  | some e => e.reason == .preconditionFailed
  | none => false

/-- A `runtime.Object`, known by a handle. -/
structure Object where
  handle : String
  deriving DecidableEq, Repr

/-- The two values of `types.PatchType` the engine uses. -/
inductive PatchType where
  | MergePatchType
  | StrategicMergePatchType
  deriving DecidableEq, Repr

/-- The two values of `metav1.DeletionPropagation` the engine uses. -/
inductive DeletionPropagation where
  | DeletePropagationForeground
  | DeletePropagationOrphan
  deriving DecidableEq, Repr

/-- The fields of `metav1.DeleteOptions` the engine sets. -/
structure DeleteOptions where
  GracePeriodSeconds : Option Int
  PropagationPolicy : Option DeletionPropagation
  deriving DecidableEq, Repr

/-- The source of patch meta information handed to
`strategicpatch.CreateThreeWayMergePatch`. -/
inductive LookupPatchMeta where
  /-- The value `strategicpatch.PatchMetaFromOpenAPI` built on a schema. -/
  | fromOpenAPI (schema : String)
  /-- The result of `strategicpatch.NewPatchMetaFromStruct`. -/
  | fromStruct (meta : String)
  deriving DecidableEq, Repr

/-- What the engine does to the world, in chronological order. Every call of
the resource helper holds its arguments and its answer. -/
inductive Call where
  /-- The call `Helper.Get(namespace, name)`. -/
  | get (ns name : String) (result : Except Err Object)
  /-- The call `Helper.Patch(namespace, name, patchType, patch, nil)`. -/
  | patch (ns name : String) (patchType : PatchType) (data : String)
      (result : Option Object × Option Err)
  /-- The call `Helper.Create(namespace, true, obj)`. -/
  | create (ns : String) (modify : Bool) (obj : Object) (result : Option Object × Option Err)
  /-- The call `Helper.DeleteWithOptions(namespace, name, &options)`. -/
  | deleteWithOptions (ns name : String) (options : DeleteOptions) (result : Option Err)
  /-- The call `BackOff.Sleep(d)`, `d` in nanoseconds. -/
  | sleep (d : Int)
  /-- A line written to `os.Stderr`. -/
  | stderr (msg : String)
  /-- The return of one call of `patchSimple`, with the error it returned. -/
  | attempt (err : Option Err)
  deriving DecidableEq, Repr

/-- The cluster API behind `resource.Helper`, and the wall clock as far as
`wait.PollImmediate` feels it. Each answer may depend on the whole trace so
far. -/
structure Cluster where
  get : List Call → String → String → Except Err Object
  patch : List Call → String → String → PatchType → String → Option Object × Option Err
  create : List Call → String → Bool → Object → Option Object × Option Err
  deleteWithOptions : List Call → String → String → DeleteOptions → Option Err
  /-- How many further times a poll with the given timeout (nanoseconds) gets
  to evaluate its condition after the first, immediate evaluation. -/
  pollsWithin : Int → Nat

/-- The library functions `patchSimple`, `deleteAndCreate` and
`addResourceVersion` call. They are functions of their arguments. -/
structure Lib where
  /-- The call `runtime.Encode(unstructured.UnstructuredJSONScheme, obj)`. -/
  encode : Object → Except Err String
  /-- The function `util.GetOriginalConfiguration`. -/
  getOriginalConfiguration : Object → Except Err String
  /-- The call `scheme.Scheme.New(groupVersionKind)`. -/
  schemeNew : String → Except Err Object
  /-- The function `jsonmergepatch.CreateThreeWayJSONMergePatch` (original,
  modified, current) under the three preconditions `patchSimple` passes. -/
  createThreeWayJSONMergePatch : String → String → String → Except Err String
  /-- The method `openapi.Resources.LookupResource`; `none` is Go's `nil`. -/
  lookupResource : String → String → Option String
  /-- The function `strategicpatch.NewPatchMetaFromStruct`. -/
  newPatchMetaFromStruct : Object → Except Err LookupPatchMeta
  /-- The function `strategicpatch.CreateThreeWayMergePatch` (original,
  modified, current, patch meta, overwrite). -/
  createThreeWayMergePatch : String → String → String → LookupPatchMeta → Bool → Except Err String
  /-- The call `unstructured.UnstructuredJSONScheme.Decode(data, nil, nil)`. -/
  decode : String → Except Err Object
  /-- The function `json.Unmarshal` into a `map[string]interface{}`. -/
  jsonUnmarshal : String → Except Err String
  /-- The function `meta.Accessor` on the unstructured object made of a patch map. -/
  accessor : String → Option Err
  /-- The method `SetResourceVersion` seen as a function of the patch map. -/
  setResourceVersion : String → String → String
  /-- The function `json.Marshal`. -/
  jsonMarshal : String → Except Err String

/-- The data fields of `Patcher`; `Helper` and `BackOff` are the `Cluster`.
`Mapping` is the `GroupVersionKind` of the mapping, `OpenapiSchema` a handle
on the resources (`none` is Go's `nil`), durations are in nanoseconds. -/
structure Patcher where
  Mapping : String
  Overwrite : Bool
  Force : Bool
  Cascade : Bool
  Timeout : Int
  GracePeriod : Int
  ResourceVersion : Option String
  Retries : Int
  OpenapiSchema : Option String
  deriving DecidableEq, Repr

/-- The constant `maxPatchRetry`. -/
def maxPatchRetry : Int := 5

/-- The constant `backOffPeriod`, one second in nanoseconds. -/
def backOffPeriod : Int := 1000000000

/-- The constant `triesBeforeBackOff`. -/
def triesBeforeBackOff : Int := 1

/-- The function `newPatcher`. -/
def newPatcher (mapping : String) : Patcher :=
  { Mapping := mapping, Overwrite := true, Force := false, Cascade := true, Timeout := 0,
    GracePeriod := -1, OpenapiSchema := none, ResourceVersion := none, Retries := 0 }

/-- What `Patch`, `patchSimple` and `deleteAndCreate` return: patch bytes,
object and error, each possibly `nil`. -/
structure Result where
  patch : Option String
  object : Option Object
  err : Option Err
  deriving DecidableEq, Repr

/-! ## Patch engine: functions -/

/-- The function `asDeleteOptions`. -/
def asDeleteOptions (cascade : Bool) (gracePeriod : Int) : DeleteOptions :=
  let options : DeleteOptions :=
    if gracePeriod ≥ 0 then { GracePeriodSeconds := some gracePeriod, PropagationPolicy := none }
    else { GracePeriodSeconds := none, PropagationPolicy := none }
  let policy :=
    if !cascade then DeletionPropagation.DeletePropagationOrphan
    else DeletionPropagation.DeletePropagationForeground
  { options with PropagationPolicy := some policy }

/-- The function `addResourceVersion`. -/
def addResourceVersion (lib : Lib) (patch : String) (rv : String) : Except Err String :=
  match lib.jsonUnmarshal patch with
  | .error err => .error err
  | .ok patchMap =>
    match lib.accessor patchMap with
    | some err => .error err
    | none => lib.jsonMarshal (lib.setResourceVersion patchMap rv)

/-- The `switch` of `patchSimple`: the patch type and the patch, or the error
`patchSimple` returns from inside the `switch`. The trace grows by the warning
written when the OpenAPI route fails. -/
def Patcher.computePatch (p : Patcher) (lib : Lib) (original modified current : String)
    (tr : List Call) : Except Err (PatchType × String) × List Call :=
  match lib.schemeNew p.Mapping with
  | .error err =>
    if IsNotRegisteredError (some err) then
      match lib.createThreeWayJSONMergePatch original modified current with
      | .error err2 =>
        if IsPreconditionFailed (some err2) then
          (.error { reason := .other,
                    msg := "At least one of apiVersion, kind and name was changed" }, tr)
        else (.error err2, tr)
      | .ok patch => (.ok (.MergePatchType, patch), tr)
    else (.error err, tr)
  | .ok versionedObject =>
    let viaOpenapi : Option String × List Call :=
      match p.OpenapiSchema with
      | none => (none, tr)
      | some resources =>
        match lib.lookupResource resources p.Mapping with
        | none => (none, tr)
        | some schema =>
          match lib.createThreeWayMergePatch original modified current (.fromOpenAPI schema)
              p.Overwrite with
          | .error err =>
            (none, tr ++ [.stderr ("warning: error calculating patch from openapi spec: "
              ++ err.msg ++ "\n")])
          | .ok openapiPatch => (some openapiPatch, tr)
    match viaOpenapi with
    | (some patch, tr1) => (.ok (.StrategicMergePatchType, patch), tr1)
    | (none, tr1) =>
      match lib.newPatchMetaFromStruct versionedObject with
      | .error err => (.error err, tr1)
      | .ok lookupPatchMeta =>
        match lib.createThreeWayMergePatch original modified current lookupPatchMeta
            p.Overwrite with
        | .error err => (.error err, tr1)
        | .ok patch => (.ok (.StrategicMergePatchType, patch), tr1)

/-- The body of `patchSimple`. -/
def Patcher.patchSimpleBody (p : Patcher) (lib : Lib) (env : Cluster) (obj : Object)
    (modified : String) (ns name : String) (tr : List Call) : Result × List Call :=
  match lib.encode obj with
  | .error err => (⟨none, none, some err⟩, tr)
  | .ok current =>
    match lib.getOriginalConfiguration obj with
    | .error err => (⟨none, none, some err⟩, tr)
    | .ok original =>
      match p.computePatch lib original modified current tr with
      | (.error err, tr1) => (⟨none, none, some err⟩, tr1)
      | (.ok (patchType, patch), tr1) =>
        if patch == "\x7b\x7d" then (⟨some patch, some obj, none⟩, tr1)
        else
          let withVersion : Except Err String :=
            match p.ResourceVersion with
            | some rv => addResourceVersion lib patch rv
            | none => .ok patch
          match withVersion with
          | .error err => (⟨none, none, some err⟩, tr1)
          | .ok patch1 =>
            let answer := env.patch tr1 ns name patchType patch1
            (⟨some patch1, answer.1, answer.2⟩,
              tr1 ++ [.patch ns name patchType patch1 answer])

/-- The method `patchSimple`: its body, and a mark in the trace that the
call returned, holding the error returned. -/
def Patcher.patchSimple (p : Patcher) (lib : Lib) (env : Cluster) (obj : Object)
    (modified : String) (ns name : String) (tr : List Call) : Result × List Call :=
  let r := p.patchSimpleBody lib env obj modified ns name tr
  (r.1, r.2 ++ [.attempt r.1.err])

/-- The method `Patcher.delete`. -/
def Patcher.delete (p : Patcher) (env : Cluster) (ns name : String) (tr : List Call) :
    Option Err × List Call :=
  let options := asDeleteOptions p.Cascade p.GracePeriod
  let err := env.deleteWithOptions tr ns name options
  (err, tr ++ [.deleteWithOptions ns name options err])

/-- The error `wait.ErrWaitTimeout`. -/
def ErrWaitTimeout : Err :=
  { reason := .waitTimeout, msg := "timed out waiting for the condition" }

/-- The condition `deleteAndCreate` polls: done when `Get` answers "not
found", failed when it answers another error, not yet done when it answers an
object. -/
def absent (env : Cluster) (ns name : String) (tr : List Call) :
    (Bool × Option Err) × List Call :=
  match env.get tr ns name with
  | .error err =>
    if !IsNotFound (some err) then ((false, some err), tr ++ [.get ns name (.error err)])
    else ((true, none), tr ++ [.get ns name (.error err)])
  | .ok obj => ((false, none), tr ++ [.get ns name (.ok obj)])

/-- The function `wait.PollImmediate` on the condition `absent`: evaluate the
condition; stop on an error or on "done"; give up with `ErrWaitTimeout` when
no evaluation is left before the timeout. The argument counts the evaluations
left. This renders a poll with a positive timeout; a timeout of 0 stands for
"no timeout" in the library, and the branch that gives up is then not what
the Go code does. -/
def pollAbsent (env : Cluster) (ns name : String) : Nat → List Call → Option Err × List Call
  | 0, tr => (some ErrWaitTimeout, tr)
  | n + 1, tr =>
    match absent env ns name tr with
    | ((_, some err), tr1) => (some err, tr1)
    | ((true, none), tr1) => (none, tr1)
    | ((false, none), tr1) => pollAbsent env ns name n tr1

/-- The error `deleteAndCreate` builds with `fmt.Errorf` when the creation and
the restoration both fail. -/
def bothFailed (err recreateErr : Err) : Err :=
  { reason := .other,
    msg := "An error occurred force-replacing the existing object with the newly provided one:\n\n"
      ++ err.msg
      ++ ".\n\nAdditionally, an error occurred attempting to restore the original object:\n\n"
      ++ recreateErr.msg }

/-- The method `deleteAndCreate`. -/
def Patcher.deleteAndCreate (p : Patcher) (lib : Lib) (env : Cluster) (original : Object)
    (modified : String) (ns name : String) (tr : List Call) : Result × List Call :=
  match p.delete env ns name tr with
  | (some err, tr1) => (⟨some modified, none, some err⟩, tr1)
  | (none, tr1) =>
    match pollAbsent env ns name (env.pollsWithin p.Timeout + 1) tr1 with
    | (some err, tr2) => (⟨some modified, none, some err⟩, tr2)
    | (none, tr2) =>
      match lib.decode modified with
      | .error err => (⟨some modified, none, some err⟩, tr2)
      | .ok versionedObject =>
        let created := env.create tr2 ns true versionedObject
        let tr3 := tr2 ++ [.create ns true versionedObject created]
        match created.2 with
        | none => (⟨some modified, created.1, none⟩, tr3)
        | some err =>
          let recreated := env.create tr3 ns true original
          let tr4 := tr3 ++ [.create ns true original recreated]
          match recreated.2 with
          | some recreateErr => (⟨some modified, created.1, some (bothFailed err recreateErr)⟩, tr4)
          | none => (⟨some modified, recreated.1, some err⟩, tr4)

/-- The variables the retry loop of `Patch` works on. -/
structure Attempt where
  patchBytes : Option String
  patchObject : Option Object
  err : Option Err
  current : Object
  trace : List Call
  deriving DecidableEq, Repr

/-- The `for` loop of `Patch`, from the value `i` of its counter on. The
first argument bounds the iterations left; `Patch` passes a bound the
condition `i <= p.Retries` never lets the loop reach. A failing `Get` leaves
through `.error`, which is the statement `return nil, nil, getErr`. The
counter is a mathematical integer: this is the Go loop as long as `i++` does
not wrap, which is the case whenever `Retries` is below the largest `int`
(see `Patcher.retryLoopInt64`). -/
def Patcher.retryLoop (p : Patcher) (lib : Lib) (env : Cluster) (modified : String)
    (ns name : String) : Nat → Int → Attempt → Except (Err × List Call) Attempt
  | 0, _, st => .ok st
  | fuel + 1, i, st =>
    if i ≤ p.Retries ∧ IsConflict st.err = true then
      let tr1 := if i > triesBeforeBackOff then st.trace ++ [.sleep backOffPeriod] else st.trace
      match env.get tr1 ns name with
      | .error getErr => .error (getErr, tr1 ++ [.get ns name (.error getErr)])
      | .ok current =>
        let r := p.patchSimple lib env current modified ns name
          (tr1 ++ [.get ns name (.ok current)])
        p.retryLoop lib env modified ns name fuel (i + 1)
          { patchBytes := r.1.patch, patchObject := r.1.object, err := r.1.err,
            current := current, trace := r.2 }
    else .ok st

/-- The assignment `if p.Retries == 0 { p.Retries = maxPatchRetry }`. -/
def Patcher.withDefaultRetries (p : Patcher) : Patcher :=
  if p.Retries == 0 then { p with Retries := maxPatchRetry } else p

/-- The first attempt and the retry loop of `Patch` (its lines up to the
end of the loop). -/
def Patcher.attempts (p : Patcher) (lib : Lib) (env : Cluster) (current : Object)
    (modified : String) (ns name : String) (tr : List Call) :
    Except (Err × List Call) Attempt :=
  let r := p.patchSimple lib env current modified ns name tr
  let p1 := p.withDefaultRetries
  p1.retryLoop lib env modified ns name p1.Retries.toNat 1
    { patchBytes := r.1.patch, patchObject := r.1.object, err := r.1.err,
      current := current, trace := r.2 }

/-- The method `Patch`. The receiver is a pointer, so the patcher comes back
with the result. -/
def Patcher.Patch (p : Patcher) (lib : Lib) (env : Cluster) (current : Object)
    (modified : String) (ns name : String) (tr : List Call) :
    Result × Patcher × List Call :=
  let p1 := p.withDefaultRetries
  match p.attempts lib env current modified ns name tr with
  | .error (getErr, tr1) => (⟨none, none, some getErr⟩, p1, tr1)
  | .ok st =>
    if st.err.isSome && (IsConflict st.err || IsInvalid st.err) && p1.Force then
      let r := p1.deleteAndCreate lib env st.current modified ns name st.trace
      (r.1, p1, r.2)
    else (⟨st.patchBytes, st.patchObject, st.err⟩, p1, st.trace)

/-- The result of an addition on Go's `int` (64 bits, two's complement):
a value beyond the largest `int` wraps around to the negative numbers. -/
def wrapInt64 (x : Int) : Int :=
  (x + 9223372036854775808) % 18446744073709551616 - 9223372036854775808

/-- The largest value of Go's `int`, `math.MaxInt64`. -/
def maxInt64 : Int := 9223372036854775807

/-- The `for` loop of `Patch` with the counter Go gives it: `i++` wraps. The
first argument is the number of evaluations of the loop condition granted;
`none` says that the loop is still running when they are used up. -/
def Patcher.retryLoopInt64 (p : Patcher) (lib : Lib) (env : Cluster) (modified : String)
    (ns name : String) : Nat → Int → Attempt → Option (Except (Err × List Call) Attempt)
  | 0, _, _ => none
  | steps + 1, i, st =>
    if i ≤ p.Retries ∧ IsConflict st.err = true then
      let tr1 := if i > triesBeforeBackOff then st.trace ++ [.sleep backOffPeriod] else st.trace
      match env.get tr1 ns name with
      | .error getErr => some (.error (getErr, tr1 ++ [.get ns name (.error getErr)]))
      | .ok current =>
        let r := p.patchSimple lib env current modified ns name
          (tr1 ++ [.get ns name (.ok current)])
        p.retryLoopInt64 lib env modified ns name steps (wrapInt64 (i + 1))
          { patchBytes := r.1.patch, patchObject := r.1.object, err := r.1.err,
            current := current, trace := r.2 }
    else some (.ok st)

/-- The method `Patch` with the wrapping counter, given a number of
evaluations of the loop condition: `none` says that `Patch` is still in its
retry loop when they are used up, `some` is what `Patch` returns. -/
def Patcher.PatchInt64 (p : Patcher) (lib : Lib) (env : Cluster) (current : Object)
    (modified : String) (ns name : String) (tr : List Call) (steps : Nat) :
    Option (Result × Patcher × List Call) :=
  let r := p.patchSimple lib env current modified ns name tr
  let p1 := p.withDefaultRetries
  match p1.retryLoopInt64 lib env modified ns name steps 1
      { patchBytes := r.1.patch, patchObject := r.1.object, err := r.1.err,
        current := current, trace := r.2 } with
  | none => none
  | some (.error (getErr, tr1)) => some (⟨none, none, some getErr⟩, p1, tr1)
  | some (.ok st) =>
    if st.err.isSome && (IsConflict st.err || IsInvalid st.err) && p1.Force then
      let r2 := p1.deleteAndCreate lib env st.current modified ns name st.trace
      some (r2.1, p1, r2.2)
    else some (⟨st.patchBytes, st.patchObject, st.err⟩, p1, st.trace)

end Kubeclient

/-! ## Reading a trace -/

/-- The arguments of a `dispatch` event. -/
def Event.asDispatch : Event → Option (Components × Bool × Bool)
  | .dispatch c installCRD concurrent => some (c, installCRD, concurrent)
  | _ => none

/-- The calls of `rs.reconcile` recorded in a trace, in order: component,
`installCRD`, `concurrent`. -/
def dispatches (tr : List Event) : List (Components × Bool × Bool) :=
  tr.filterMap Event.asDispatch

/-- A phase as the specification words it: the listed components are
reconciled one after the other, each call of `rs.reconcile` running its `fn`
to the end before the next component is looked at. -/
def syncPhase (env : Env) (state : State) (schedulingID : String) (installCRD : Bool) :
    List Components → List Event → List Event
  | [], tr => tr
  | c :: rest, tr =>
    syncPhase env state schedulingID installCRD rest
      (fn env installCRD c state schedulingID (tr ++ [.dispatch c installCRD false]))

/-- An event that only the third phase can produce: a concurrent dispatch, a
factory call or a reconcile call without CRD installation for a component
named in neither list, or an error line. -/
def Event.ofRestPhase (cfg : MothershipReconcilerConfig) : Event → Prop
  | .dispatch c installCRD concurrent =>
    installCRD = false ∧ concurrent = true ∧
      c.Component ∉ cfg.CrdComponents ∧ c.Component ∉ cfg.PreComponents
  | .forComponent name _ => name ∉ cfg.CrdComponents ∧ name ∉ cfg.PreComponents
  | .reconcile _ c _ installCRD _ =>
    installCRD = false ∧ c.Component ∉ cfg.CrdComponents ∧ c.Component ∉ cfg.PreComponents
  | .errorf _ => True
  | _ => False

/-- The name a `ForComponent` event was called with. -/
def Event.asFactoryCall : Event → Option String
  | .forComponent name _ => some name
  | _ => none

/-- The name and the worker of a `ForComponent` event that succeeded. -/
def Event.asFactorySuccess : Event → Option (String × Worker)
  | .forComponent name (.ok w) => some (name, w)
  | _ => none

/-- The component name and the worker of a `Reconcile` event. -/
def Event.asReconcileCall : Event → Option (String × Worker)
  | .reconcile w c _ _ _ => some (c.Component, w)
  | _ => none

/-- The names `ForComponent` was called with, in order. -/
def factoryCalls (tr : List Event) : List String := tr.filterMap Event.asFactoryCall

/-- The successful `ForComponent` calls, in order: name asked for, worker obtained. -/
def factorySuccesses (tr : List Event) : List (String × Worker) :=
  tr.filterMap Event.asFactorySuccess

/-- The `Reconcile` calls, in order: name of the component, worker called. -/
def reconcileCalls (tr : List Event) : List (String × Worker) :=
  tr.filterMap Event.asReconcileCall

/-- The factory call a goroutine still has to make. -/
def Goroutine.unstarted (g : Goroutine) : Option String :=
  match g.stage with
  | .created => some g.component.Component
  | _ => none

/-- The reconcile call a goroutine holding a worker still has to make. -/
def Goroutine.pending (g : Goroutine) : Option (String × Worker) :=
  match g.stage with
  | .working w => some (g.component.Component, w)
  | _ => none

/-- An upper bound on the calls a goroutine still has to make. -/
def Goroutine.callsLeft (g : Goroutine) : Nat :=
  match g.stage with
  | .created => 2
  | .working _ => 1
  | _ => 0

/-- The calls the goroutine with index `j` still has to make (none if there
is no such goroutine). -/
def callsLeftAt (cy : Cycle) (j : Nat) : Nat :=
  match cy.goroutines[j]? with
  | none => 0
  | some g => g.callsLeft

/-- A goroutine that has run its `fn` to the end. -/
def Goroutine.ended (g : Goroutine) : Prop :=
  g.stage = .failed ∨ g.stage = .finished

/-- What holds of a cycle at every moment: each successful factory call has
been followed by its reconcile call or is held by a goroutine about to make
it, and each dispatch has had its factory call or is a goroutine about to
make it. -/
def CycleInv (cy : Cycle) : Prop :=
  (factorySuccesses cy.trace).Perm
      (reconcileCalls cy.trace ++ cy.goroutines.filterMap Goroutine.pending)
  ∧ (factoryCalls cy.trace ++ cy.goroutines.filterMap Goroutine.unstarted).Perm
      ((dispatches cy.trace).map (fun d => d.1.Component))

/-- The `Reconcile` calls of a trace, in order: the component and the error
returned. -/
def reconcileOutcomes (tr : List Event) : List (Components × Option Error) :=
  tr.filterMap (fun e => match e with
    | .reconcile _ c _ _ res => some (c, res)
    | _ => none)

/-- An upper bound on the steps a goroutine of `LocalScheduler.Run` still
has to make. -/
def LocalGoroutine.stepsLeft (g : LocalGoroutine) : Nat :=
  match g.stage with
  | .started => 2
  | .reconciled _ => 1
  | .sent _ => 0

/-- The steps the goroutine with index `j` still has to make (none if there
is no such goroutine). -/
def localStepsLeftAt (r : LocalRun) (j : Nat) : Nat :=
  match r.goroutines[j]? with
  | none => 0
  | some g => g.stepsLeft

/-- The `Reconcile` call a goroutine of `LocalScheduler.Run` has made. -/
def LocalGoroutine.outcome (g : LocalGoroutine) : Option (Components × Option Error) :=
  match g.stage with
  | .started => none
  | .reconciled err => some (g.component, err)
  | .sent err => some (g.component, err)

/-- The result a goroutine of `LocalScheduler.Run` has sent. -/
def LocalGoroutine.delivered (g : LocalGoroutine) : Option (Option Error) :=
  match g.stage with
  | .sent err => some err
  | _ => none

/-- What holds of a run of `LocalScheduler.Run` at every moment, as long as
the factory does not fail: the goroutines started and the components still to
come make up the component list; the `Reconcile` calls made are those of the
goroutines past their call; the channel holds what the goroutines have sent;
and once `Run` has returned, the loop was through, every goroutine had sent,
and the value returned is the first error of the channel. -/
def LocalInv (components : List Components) (r : LocalRun) : Prop :=
  r.goroutines.map LocalGoroutine.component ++ r.todo = components
  ∧ (reconcileOutcomes r.trace).Perm (r.goroutines.filterMap LocalGoroutine.outcome)
  ∧ r.results.Perm (r.goroutines.filterMap LocalGoroutine.delivered)
  ∧ factoryCalls r.trace = r.goroutines.map (fun g => g.component.Component)
  ∧ ∀ res, r.returned = some res →
      r.todo = [] ∧ (∀ g ∈ r.goroutines, g.isSent = true) ∧ res = firstError r.results

/-- The `ForComponent` calls of a trace that failed, in order: the name asked
for and the error. -/
def factoryFailures (tr : List Event) : List (String × Error) :=
  tr.filterMap (fun e => match e with
    | .forComponent name (.error err) => some (name, err)
    | _ => none)

/-- What holds of a run of `LocalScheduler.Run` at every moment, whatever the
factory answers: the goroutines started and the components still to come make
up the component list; the `Reconcile` calls made are those of the goroutines
past their call; and either no factory call has failed, the factory was asked
once per goroutine, and `Run` has not returned before the loop was through, or
exactly one factory call has failed, it was the last one and the one for the
component heading the components still to come, and `Run` has returned the
error built from it. -/
def LocalInvF (components : List Components) (r : LocalRun) : Prop :=
  r.goroutines.map LocalGoroutine.component ++ r.todo = components
  ∧ (reconcileOutcomes r.trace).Perm (r.goroutines.filterMap LocalGoroutine.outcome)
  ∧ ((factoryFailures r.trace = []
        ∧ factoryCalls r.trace = r.goroutines.map (fun g => g.component.Component)
        ∧ ∀ res, r.returned = some res → r.todo = [])
      ∨ ∃ c rest err, r.todo = c :: rest
        ∧ factoryFailures r.trace = [(c.Component, err)]
        ∧ r.returned = some (some ("failed to create a: " ++ err))
        ∧ factoryCalls r.trace
            = r.goroutines.map (fun g => g.component.Component) ++ [c.Component])

/-- The components named in neither `CrdComponents` nor `PreComponents`, in list order. -/
def restOf (cfg : MothershipReconcilerConfig) (components : List Components) : List Components :=
  components.filter
    (fun c => decide (c.Component ∉ cfg.CrdComponents ∧ c.Component ∉ cfg.PreComponents))

/-- Every goroutine of the pool was started by the third phase. -/
def PoolOfRest (cfg : MothershipReconcilerConfig) (gs : List Goroutine) : Prop :=
  ∀ g ∈ gs, g.installCRD = false ∧
    g.component.Component ∉ cfg.CrdComponents ∧ g.component.Component ∉ cfg.PreComponents

/-! ## Concrete inputs -/

namespace Kubeclient

/-- The errors `patchSimple` returned, call after call. -/
def attemptsOf (tr : List Call) : List (Option Err) :=
  tr.filterMap (fun c => match c with
    | .attempt err => some err
    | _ => none)

/-- The durations the back-off clock was asked to sleep, in order. -/
def sleepsOf (tr : List Call) : List Int :=
  tr.filterMap (fun c => match c with
    | .sleep d => some d
    | _ => none)

/-- A call of the resource helper: `Get`, `Patch`, `Create` or `DeleteWithOptions`. -/
def Call.isHelperCall : Call → Bool
  | .get _ _ _ => true
  | .patch _ _ _ _ _ => true
  | .create _ _ _ _ => true
  | .deleteWithOptions _ _ _ _ => true
  | _ => false

/-- A call `Create` or `DeleteWithOptions`. -/
def Call.isDeleteOrCreate : Call → Bool
  | .create _ _ _ _ => true
  | .deleteWithOptions _ _ _ _ => true
  | _ => false

/-- A call `DeleteWithOptions`. -/
def Call.isDelete : Call → Bool
  | .deleteWithOptions _ _ _ _ => true
  | _ => false

/-- Library functions for an unregistered kind: the JSON merge patch of an
object against itself is empty, any other patch is the modified text. -/
def plainLib : Lib :=
  { encode := fun obj => .ok obj.handle,
    getOriginalConfiguration := fun obj => .ok obj.handle,
    schemeNew := fun _ => .error { reason := .notRegistered, msg := "not registered" },
    createThreeWayJSONMergePatch := fun _ modified current =>
      .ok (if modified == current then "\x7b\x7d" else modified),
    lookupResource := fun _ _ => none,
    newPatchMetaFromStruct := fun _ => .ok (.fromStruct "meta"),
    createThreeWayMergePatch := fun _ modified _ _ _ => .ok modified,
    decode := fun data => .ok { handle := data },
    jsonUnmarshal := fun data => .ok data,
    accessor := fun _ => none,
    setResourceVersion := fun patchMap rv => patchMap ++ rv,
    jsonMarshal := fun patchMap => .ok patchMap }

/-- The conflict error of the API server. -/
def conflictErr : Err := { reason := .conflict, msg := "the object has been modified" }

/-- A cluster on which every patch conflicts, the object is there until it is
deleted, and every creation fails. -/
def stubbornCluster : Cluster :=
  { get := fun tr _ _ =>
      if tr.any Call.isDelete then .error { reason := .notFound, msg := "not found" }
      else .ok { handle := "live" },
    patch := fun _ _ _ _ _ => (none, some conflictErr),
    create := fun _ _ _ obj => (none, some { reason := .other, msg := "cannot create " ++ obj.handle }),
    deleteWithOptions := fun _ _ _ _ => none,
    pollsWithin := fun _ => 3 }

/-- A cluster on which the first two patches conflict and the third succeeds. -/
def twoConflictsCluster : Cluster :=
  { get := fun _ _ _ => .ok { handle := "live" },
    patch := fun tr _ _ _ _ =>
      if (attemptsOf tr).length < 2 then (none, some conflictErr)
      else (some { handle := "patched" }, none),
    create := fun _ _ _ obj => (some obj, none),
    deleteWithOptions := fun _ _ _ _ => none,
    pollsWithin := fun _ => 3 }

/-- Library functions for an unregistered kind whose JSON merge patch is
always the modified text. -/
def echoLib : Lib :=
  { plainLib with createThreeWayJSONMergePatch := fun _ modified _ => .ok modified }

/-- A cluster on which every patch conflicts and the object never goes away. -/
def conflictCluster : Cluster :=
  { get := fun _ _ _ => .ok { handle := "live" },
    patch := fun _ _ _ _ _ => (none, some conflictErr),
    create := fun _ _ _ obj => (some obj, none),
    deleteWithOptions := fun _ _ _ _ => none,
    pollsWithin := fun _ => 3 }

/-- A cluster on which every patch conflicts, the object is there until it is
deleted, and a creation succeeds. -/
def replaceCluster : Cluster :=
  { get := fun tr _ _ =>
      if tr.any Call.isDelete then .error { reason := .notFound, msg := "not found" }
      else .ok { handle := "live" },
    patch := fun _ _ _ _ _ => (none, some conflictErr),
    create := fun _ _ _ obj => (some obj, none),
    deleteWithOptions := fun _ _ _ _ => none,
    pollsWithin := fun _ => 3 }

/-- A patcher with two retries that forces. -/
def forcingPatcher : Patcher :=
  { newPatcher "gvk" with Force := true, Retries := 2, Timeout := 5000000000 }

/-- The state after the three attempts `forcingPatcher` makes on
`replaceCluster`. -/
def conflictsOutcome : Attempt :=
  { patchBytes := some "desired", patchObject := none, err := some conflictErr,
    current := { handle := "live" },
    trace := [.patch "ns" "n" .MergePatchType "desired" (none, some conflictErr),
       .attempt (some conflictErr),
       .get "ns" "n" (.ok { handle := "live" }),
       .patch "ns" "n" .MergePatchType "desired" (none, some conflictErr),
       .attempt (some conflictErr),
       .sleep 1000000000,
       .get "ns" "n" (.ok { handle := "live" }),
       .patch "ns" "n" .MergePatchType "desired" (none, some conflictErr),
       .attempt (some conflictErr)] }

/-- A patcher asked for as many retries as a Go `int` can hold. -/
def maxIntPatcher : Patcher :=
  { newPatcher "gvk" with Retries := 9223372036854775807 }

/-- A cluster that answers every patch with "invalid". -/
def invalidCluster : Cluster :=
  { get := fun tr _ _ =>
      if tr.any Call.isDelete then .error { reason := .notFound, msg := "not found" }
      else .ok { handle := "live" },
    patch := fun _ _ _ _ _ => (none, some { reason := .invalid, msg := "field is immutable" }),
    create := fun _ _ _ obj => (some obj, none),
    deleteWithOptions := fun _ _ _ _ => none,
    pollsWithin := fun _ => 3 }

/-- The state after the one attempt `Patch` makes on `invalidCluster`. -/
def invalidOutcome : Attempt :=
  { patchBytes := some "desired", patchObject := none,
    err := some { reason := .invalid, msg := "field is immutable" },
    current := { handle := "live" },
    trace := [.patch "ns" "n" .MergePatchType "desired"
          (none, some { reason := .invalid, msg := "field is immutable" }),
       .attempt (some { reason := .invalid, msg := "field is immutable" })] }

end Kubeclient

/-- A JSON library that never fails and gives the component list back. -/
def scenarioJson (components : List Components) : JsonLib :=
  { marshal := fun x => .ok x,
    marshalComponents := fun _ => .ok "components",
    marshalAdministrators := fun _ => .ok "administrators",
    getComponents := fun _ => .ok components }

/-- The cluster of the specification's scenario, for `LocalScheduler`. -/
def scenarioLocal : LocalScheduler :=
  { cluster := { Cluster := "cluster-1", Kubeconfig := "", Metadata := "", RuntimeInput := "",
                 KymaConfig := { Version := "2.0", Profile := "", Components := [],
                                 Administrators := [] } } }

/-- A factory that knows every component, with workers that fail on `istio`
and on `logging`. -/
def localEnv : Env :=
  { forComponent := fun tr _ => .ok { id := tr.length },
    reconcile := fun _ _ c _ _ _ =>
      if c.Component == "istio" then some "istio failed"
      else if c.Component == "logging" then some "logging failed" else none,
    newPool := fun _ _ => none }

/-- A factory that has no worker for `monitoring`, with workers that fail on
`istio`. -/
def brokenFactoryEnv : Env :=
  { forComponent := fun tr name =>
      if name == "monitoring" then .error "no worker for monitoring"
      else .ok { id := tr.length },
    reconcile := fun _ _ c _ _ _ => if c.Component == "istio" then some "istio failed" else none,
    newPool := fun _ _ => none }

/-- A configuration that names `istio` in both lists. -/
def overlapScheduler : RemoteScheduler :=
  { mothershipCfg := { CrdComponents := ["istio"], PreComponents := ["istio"] }, poolSize := 0 }


/-- A component with the given name and nothing else of interest. -/
def component (name : String) : Components :=
  { Component := name, Namespace := "kyma-system", Version := "1.0.0", Profile := "",
    Configuration := [] }

/-- The configuration of the specification's scenario. -/
def scenarioScheduler : RemoteScheduler :=
  { mothershipCfg := { CrdComponents := ["cluster-essentials"], PreComponents := ["istio"] },
    poolSize := 0 }

/-- The component list of the specification's scenario. -/
def scenarioComponents : List Components :=
  [component "cluster-essentials", component "istio", component "monitoring", component "logging"]

def scenarioState : State :=
  { Cluster := "cluster-1", GetComponents := .ok scenarioComponents }

/-- A factory that knows every component but `logging`, with workers that
fail on `istio`. -/
def scenarioEnv : Env :=
  { forComponent := fun tr name =>
      if name == "logging" then .error "no worker" else .ok { id := tr.length },
    reconcile := fun _ _ c _ _ _ => if c.Component == "istio" then some "istio failed" else none,
    newPool := fun _ _ => none }

/-! ## Theorems: RemoteScheduler.schedule -/

theorem nameListed_iff (component : String) (names : List String) :
    nameListed component names = true ↔ component ∈ names := by
  induction names with
  | nil => simp [nameListed]
  | cons c rest ih =>
    by_cases h : component = c
    · simp [nameListed, h]
    · simp [nameListed, h, ih]

theorem dispatches_append (a b : List Event) :
    dispatches (a ++ b) = dispatches a ++ dispatches b := by
  simp [dispatches]

theorem fnForComponent_dispatches (env : Env) (c : Components) (tr : List Event) :
    dispatches (fnForComponent env c tr).1 = dispatches tr := by
  unfold fnForComponent
  split <;> simp [dispatches, Event.asDispatch]

theorem fnReconcile_dispatches (env : Env) (i : Bool) (c : Components) (st : State)
    (sid : String) (w : Worker) (tr : List Event) :
    dispatches (fnReconcile env i c st sid w tr) = dispatches tr := by
  unfold fnReconcile
  split <;> simp [dispatches, Event.asDispatch]

theorem fn_dispatches (env : Env) (i : Bool) (c : Components) (st : State)
    (sid : String) (tr : List Event) :
    dispatches (fn env i c st sid tr) = dispatches tr := by
  unfold fn
  split
  · next tr1 h => rw [← fnForComponent_dispatches env c tr, h]
  · next tr1 w h =>
    rw [fnReconcile_dispatches, ← fnForComponent_dispatches env c tr, h]

theorem syncPhase_dispatches (env : Env) (st : State) (sid : String) (i : Bool)
    (cs : List Components) (tr : List Event) :
    dispatches (syncPhase env st sid i cs tr)
      = dispatches tr ++ cs.map (fun c => (c, i, false)) := by
  induction cs generalizing tr with
  | nil => simp [syncPhase]
  | cons c rest ih =>
    simp [syncPhase, ih, fn_dispatches, dispatches_append]
    simp [dispatches, Event.asDispatch]

theorem crdLoop_eq (rs : RemoteScheduler) (env : Env) (st : State) (sid : String)
    (cs : List Components) (cy : Cycle) :
    crdLoop rs env st sid cs cy
      = { trace := syncPhase env st sid true
            (cs.filter (fun c => decide (c.Component ∈ rs.mothershipCfg.CrdComponents))) cy.trace,
          goroutines := cy.goroutines } := by
  induction cs generalizing cy with
  | nil => simp [crdLoop, syncPhase]
  | cons c rest ih =>
    by_cases h : c.Component ∈ rs.mothershipCfg.CrdComponents
    · have h1 : rs.isCRDComponent c.Component = true := (nameListed_iff _ _).2 h
      simp [crdLoop, h1, ih, h, syncPhase, RemoteScheduler.reconcile, doInstallCRD,
        concurrencyNotAllowed]
    · have h1 : ¬ rs.isCRDComponent c.Component = true := fun hh => h ((nameListed_iff _ _).1 hh)
      simp [crdLoop, h1, ih, h]

theorem preLoop_eq (rs : RemoteScheduler) (env : Env) (st : State) (sid : String)
    (cs : List Components) (cy : Cycle) :
    preLoop rs env st sid cs cy
      = { trace := syncPhase env st sid false
            (cs.filter (fun c => decide (c.Component ∈ rs.mothershipCfg.PreComponents))) cy.trace,
          goroutines := cy.goroutines } := by
  induction cs generalizing cy with
  | nil => simp [preLoop, syncPhase]
  | cons c rest ih =>
    by_cases h : c.Component ∈ rs.mothershipCfg.PreComponents
    · have h1 : rs.isPreComponent c.Component = true := (nameListed_iff _ _).2 h
      simp [preLoop, h1, ih, h, syncPhase, RemoteScheduler.reconcile, doNotInstallCRD,
        concurrencyNotAllowed]
    · have h1 : ¬ rs.isPreComponent c.Component = true := fun hh => h ((nameListed_iff _ _).1 hh)
      simp [preLoop, h1, ih, h]

theorem restIteration_eq (rs : RemoteScheduler) (env : Env) (st : State) (sid : String)
    (c : Components) (cy : Cycle) :
    restIteration rs env st sid c cy
      = if c.Component ∉ rs.mothershipCfg.CrdComponents ∧ c.Component ∉ rs.mothershipCfg.PreComponents
        then { trace := cy.trace ++ [.dispatch c false true],
               goroutines := cy.goroutines ++ [⟨c, false, .created⟩] }
        else cy := by
  have hc := nameListed_iff c.Component rs.mothershipCfg.CrdComponents
  have hp := nameListed_iff c.Component rs.mothershipCfg.PreComponents
  unfold restIteration RemoteScheduler.isPreComponent RemoteScheduler.isCRDComponent
  by_cases h1 : c.Component ∈ rs.mothershipCfg.CrdComponents
  · simp [h1, hc.2 h1]
  · by_cases h2 : c.Component ∈ rs.mothershipCfg.PreComponents
    · simp [h2, hp.2 h2]
    · have h1f : nameListed c.Component rs.mothershipCfg.CrdComponents = false := by
        cases hh : nameListed c.Component rs.mothershipCfg.CrdComponents
        · rfl
        · exact absurd (hc.1 hh) h1
      have h2f : nameListed c.Component rs.mothershipCfg.PreComponents = false := by
        cases hh : nameListed c.Component rs.mothershipCfg.PreComponents
        · rfl
        · exact absurd (hp.1 hh) h2
      simp [h1, h2, h1f, h2f, RemoteScheduler.reconcile, doNotInstallCRD, concurrencyAllowed]

theorem poolOfRest_set (cfg : MothershipReconcilerConfig) (gs : List Goroutine) (k : Nat)
    (g : Goroutine) (s : Stage) (hk : gs[k]? = some g) (h : PoolOfRest cfg gs) :
    PoolOfRest cfg (gs.set k { g with stage := s }) := by
  intro x hx
  rcases List.mem_or_eq_of_mem_set hx with hx | hx
  · exact h x hx
  · subst hx
    exact h g (List.getElem?_mem hk)

/-- The three things a goroutine step can be: nothing, the factory call, the
reconcile call. -/
theorem goStep_cases (env : Env) (st : State) (sid : String) (k : Nat) (cy : Cycle) :
    goStep env st sid k cy = cy
    ∨ (∃ g, cy.goroutines[k]? = some g ∧ g.stage = .created ∧
        goStep env st sid k cy =
          { trace := (fnForComponent env g.component cy.trace).1,
            goroutines := cy.goroutines.set k
              { g with stage := match (fnForComponent env g.component cy.trace).2 with
                                | none => .failed
                                | some w => .working w } })
    ∨ (∃ g w, cy.goroutines[k]? = some g ∧ g.stage = .working w ∧
        goStep env st sid k cy =
          { trace := fnReconcile env g.installCRD g.component st sid w cy.trace,
            goroutines := cy.goroutines.set k { g with stage := .finished } }) := by
  cases hk : cy.goroutines[k]? with
  | none => left; simp [goStep, hk]
  | some g =>
    cases hs : g.stage with
    | created =>
      right; left
      refine ⟨g, rfl, hs, ?_⟩
      simp only [goStep, hk, hs]
      cases hf : fnForComponent env g.component cy.trace with
      | mk tr ow => cases ow <;> simp
    | working w =>
      right; right
      exact ⟨g, w, rfl, hs, by simp only [goStep, hk, hs]⟩
    | failed => left; simp only [goStep, hk, hs]
    | finished => left; simp only [goStep, hk, hs]

theorem fnForComponent_rest (cfg : MothershipReconcilerConfig) (env : Env) (c : Components)
    (tr : List Event) (hc : c.Component ∉ cfg.CrdComponents ∧ c.Component ∉ cfg.PreComponents) :
    ∃ C, (fnForComponent env c tr).1 = tr ++ C ∧ (∀ e ∈ C, e.ofRestPhase cfg)
      ∧ dispatches C = [] := by
  unfold fnForComponent
  cases hf : env.forComponent tr c.Component with
  | error err =>
    refine ⟨_, rfl, ?_, by simp [dispatches, Event.asDispatch]⟩
    intro e he
    simp at he
    rcases he with he | he <;> subst he <;> simp [Event.ofRestPhase, hc]
  | ok w =>
    refine ⟨_, rfl, ?_, by simp [dispatches, Event.asDispatch]⟩
    intro e he
    simp at he
    subst he
    simp [Event.ofRestPhase, hc]

theorem fnReconcile_rest (cfg : MothershipReconcilerConfig) (env : Env) (c : Components)
    (st : State) (sid : String) (w : Worker) (tr : List Event) (i : Bool) (hi : i = false)
    (hc : c.Component ∉ cfg.CrdComponents ∧ c.Component ∉ cfg.PreComponents) :
    ∃ C, fnReconcile env i c st sid w tr = tr ++ C ∧ (∀ e ∈ C, e.ofRestPhase cfg)
      ∧ dispatches C = [] := by
  subst hi
  unfold fnReconcile
  cases hf : env.reconcile tr w c st sid false with
  | some err =>
    refine ⟨_, rfl, ?_, by simp [dispatches, Event.asDispatch]⟩
    intro e he
    simp at he
    rcases he with he | he <;> subst he <;> simp [Event.ofRestPhase, hc]
  | none =>
    refine ⟨_, rfl, ?_, by simp [dispatches, Event.asDispatch]⟩
    intro e he
    simp at he
    subst he
    simp [Event.ofRestPhase, hc]

theorem goStep_rest (cfg : MothershipReconcilerConfig) (env : Env) (st : State) (sid : String)
    (k : Nat) (cy : Cycle) (h : PoolOfRest cfg cy.goroutines) :
    ∃ C, (goStep env st sid k cy).trace = cy.trace ++ C ∧ (∀ e ∈ C, e.ofRestPhase cfg)
      ∧ dispatches C = [] ∧ PoolOfRest cfg (goStep env st sid k cy).goroutines := by
  rcases goStep_cases env st sid k cy with h0 | ⟨g, hk, _, h1⟩ | ⟨g, w, hk, _, h2⟩
  · rw [h0]; exact ⟨[], by simp, by simp, rfl, h⟩
  · have hg := h g (List.getElem?_mem hk)
    obtain ⟨C, hC, hr, hd⟩ := fnForComponent_rest cfg env g.component cy.trace hg.2
    rw [h1]
    exact ⟨C, hC, hr, hd, poolOfRest_set cfg _ k g _ hk h⟩
  · have hg := h g (List.getElem?_mem hk)
    obtain ⟨C, hC, hr, hd⟩ :=
      fnReconcile_rest cfg env g.component st sid w cy.trace g.installCRD hg.1 hg.2
    rw [h2]
    exact ⟨C, hC, hr, hd, poolOfRest_set cfg _ k g _ hk h⟩

theorem interleave_rest (rs : RemoteScheduler) (env : Env) (st : State) (sid : String)
    (choices : List Nat) (todo : List Components) (cy : Cycle)
    (h : PoolOfRest rs.mothershipCfg cy.goroutines) :
    ∃ C, (interleave rs env st sid choices todo cy).2.trace = cy.trace ++ C
      ∧ (∀ e ∈ C, e.ofRestPhase rs.mothershipCfg)
      ∧ dispatches C
          ++ (restOf rs.mothershipCfg (interleave rs env st sid choices todo cy).1).map
              (fun c => (c, false, true))
          = (restOf rs.mothershipCfg todo).map (fun c => (c, false, true))
      ∧ (interleave rs env st sid choices todo cy).1 = todo.drop (choices.count 0) := by
  induction choices generalizing todo cy with
  | nil => exact ⟨[], by simp [interleave], by simp, by simp [interleave, dispatches], by simp [interleave]⟩
  | cons ch rest ih =>
    cases ch with
    | zero =>
      cases todo with
      | nil =>
        obtain ⟨C, h1, h2, h3, h4⟩ := ih [] cy h
        exact ⟨C, by simpa [interleave] using h1, h2, by simpa [interleave] using h3,
          by simp [interleave, h4]⟩
      | cons c todo =>
        simp only [interleave, List.count_cons_self, List.drop_succ_cons]
        rw [restIteration_eq]
        by_cases hc : c.Component ∉ rs.mothershipCfg.CrdComponents
            ∧ c.Component ∉ rs.mothershipCfg.PreComponents
        · rw [if_pos hc]
          have hpool : PoolOfRest rs.mothershipCfg (cy.goroutines ++ [⟨c, false, .created⟩]) := by
            intro g hg
            rcases List.mem_append.1 hg with hg | hg
            · exact h g hg
            · simp at hg; subst hg; exact ⟨rfl, hc⟩
          obtain ⟨C, h1, h2, h3, h4⟩ := ih todo
            { trace := cy.trace ++ [.dispatch c false true],
              goroutines := cy.goroutines ++ [⟨c, false, .created⟩] } hpool
          refine ⟨.dispatch c false true :: C, by simpa using h1, ?_, ?_, h4⟩
          · intro e he
            rcases List.mem_cons.1 he with he | he
            · subst he; simp [Event.ofRestPhase, hc]
            · exact h2 e he
          · have : dispatches (Event.dispatch c false true :: C) = (c, false, true) :: dispatches C := by
              simp [dispatches, Event.asDispatch]
            rw [this, List.cons_append, h3]
            simp [restOf, hc]
        · rw [if_neg hc]
          obtain ⟨C, h1, h2, h3, h4⟩ := ih todo cy h
          refine ⟨C, h1, h2, ?_, h4⟩
          rw [h3]
          simp [restOf, hc]
    | succ k =>
      obtain ⟨C0, g1, g2, g3, g4⟩ := goStep_rest rs.mothershipCfg env st sid k cy h
      obtain ⟨C, h1, h2, h3, h4⟩ := ih todo (goStep env st sid k cy) g4
      refine ⟨C0 ++ C, ?_, ?_, ?_, ?_⟩
      · simp only [interleave]; rw [h1, g1, List.append_assoc]
      · intro e he
        rcases List.mem_append.1 he with he | he
        · exact g2 e he
        · exact h2 e he
      · simp only [interleave]; rw [dispatches_append, g3, List.nil_append, h3]
      · simp only [interleave]; rw [h4]; simp

theorem count_zero_runOut (n : Nat) : n ≤ (runOut n).count 0 := by
  simp [runOut, List.count_append, List.count_replicate_self]

/-- The shape of the trace of one cycle over a non-empty component list. -/
theorem schedule_phases (rs : RemoteScheduler) (env : Env) (state : State)
    (schedulingID : String) (choices : List Nat) (tr : List Event)
    (components : List Components) (hget : state.GetComponents = .ok components)
    (hne : components ≠ []) :
    dispatches (rs.schedule env state schedulingID choices tr).trace
      = dispatches tr
        ++ ((components.filter
              (fun c => decide (c.Component ∈ rs.mothershipCfg.CrdComponents))).map
              (fun c => (c, true, false))
          ++ (components.filter
              (fun c => decide (c.Component ∈ rs.mothershipCfg.PreComponents))).map
              (fun c => (c, false, false))
          ++ (components.filter
              (fun c => decide (c.Component ∉ rs.mothershipCfg.CrdComponents
                ∧ c.Component ∉ rs.mothershipCfg.PreComponents))).map
              (fun c => (c, false, true)))
    ∧ ∃ C, (rs.schedule env state schedulingID choices tr).trace
        = syncPhase env state schedulingID false
            (components.filter (fun c => decide (c.Component ∈ rs.mothershipCfg.PreComponents)))
            (syncPhase env state schedulingID true
              (components.filter (fun c => decide (c.Component ∈ rs.mothershipCfg.CrdComponents)))
              tr) ++ C
        ∧ ∀ e ∈ C, e.ofRestPhase rs.mothershipCfg := by
  have hlen : components.length ≠ 0 := fun h => hne (List.length_eq_zero.1 h)
  obtain ⟨C, h1, h2, h3, h4⟩ := interleave_rest rs env state schedulingID
    (choices ++ runOut components.length) components
    (preLoop rs env state schedulingID components
      (crdLoop rs env state schedulingID components { trace := tr, goroutines := [] }))
    (by rw [preLoop_eq, crdLoop_eq]; intro g hg; simp at hg)
  have hdrop : (interleave rs env state schedulingID (choices ++ runOut components.length)
      components (preLoop rs env state schedulingID components
        (crdLoop rs env state schedulingID components { trace := tr, goroutines := [] }))).1
      = [] := by
    rw [h4]
    apply List.drop_eq_nil_of_le
    have := count_zero_runOut components.length
    rw [List.count_append]
    omega
  rw [hdrop] at h3
  simp only [restOf, List.filter_nil, List.map_nil, List.append_nil] at h3
  have htr : (rs.schedule env state schedulingID choices tr).trace
      = syncPhase env state schedulingID false
          (components.filter (fun c => decide (c.Component ∈ rs.mothershipCfg.PreComponents)))
          (syncPhase env state schedulingID true
            (components.filter (fun c => decide (c.Component ∈ rs.mothershipCfg.CrdComponents)))
            tr) ++ C := by
    simp only [RemoteScheduler.schedule, hget, hlen, if_false]
    rw [h1, preLoop_eq, crdLoop_eq]
  refine ⟨?_, C, htr, h2⟩
  rw [htr, dispatches_append, syncPhase_dispatches, syncPhase_dispatches, h3]
  simp [List.append_assoc]

/-- C1. Whatever the two name lists, the environment and the interleaving
of the goroutines, one cycle of `schedule` over a non-empty component list
calls `rs.reconcile` for the components named in `CrdComponents` (list order,
`installCRD = true`, not concurrent), then for those named in `PreComponents`
(list order, `installCRD = false`, not concurrent), then for those named in
neither (list order, `installCRD = false`, concurrent). The trace starts with
the CRD phase run call after call to its end, continues with the Pre phase run
the same way, and only then holds events of the third phase. -/
theorem schedule_dispatch_sequence (rs : RemoteScheduler) (env : Env) (state : State)
    (schedulingID : String) (choices : List Nat) (tr : List Event)
    (components : List Components) (hget : state.GetComponents = .ok components)
    (hne : components ≠ []) :
    dispatches (rs.schedule env state schedulingID choices tr).trace
      = dispatches tr
        ++ ((components.filter
              (fun c => decide (c.Component ∈ rs.mothershipCfg.CrdComponents))).map
              (fun c => (c, true, false))
          ++ (components.filter
              (fun c => decide (c.Component ∈ rs.mothershipCfg.PreComponents))).map
              (fun c => (c, false, false))
          ++ (components.filter
              (fun c => decide (c.Component ∉ rs.mothershipCfg.CrdComponents
                ∧ c.Component ∉ rs.mothershipCfg.PreComponents))).map
              (fun c => (c, false, true)))
    ∧ ∃ C, (rs.schedule env state schedulingID choices tr).trace
        = syncPhase env state schedulingID false
            (components.filter (fun c => decide (c.Component ∈ rs.mothershipCfg.PreComponents)))
            (syncPhase env state schedulingID true
              (components.filter (fun c => decide (c.Component ∈ rs.mothershipCfg.CrdComponents)))
              tr) ++ C
        ∧ ∀ e ∈ C, e.ofRestPhase rs.mothershipCfg :=
  schedule_phases rs env state schedulingID choices tr components hget hne

/-- The specification's scenario: `cluster-essentials` alone with CRDs, then
`istio` alone, then `monitoring` and `logging` as concurrent dispatches. -/
theorem schedule_dispatch_sequence_witness :
    scenarioState.GetComponents = .ok scenarioComponents ∧ scenarioComponents ≠ []
    ∧ dispatches (scenarioScheduler.schedule scenarioEnv scenarioState "id" [2, 1, 0] []).trace
      = [(component "cluster-essentials", true, false), (component "istio", false, false),
         (component "monitoring", false, true), (component "logging", false, true)] :=
  ⟨rfl, by decide,
    (schedule_dispatch_sequence scenarioScheduler scenarioEnv scenarioState "id" [2, 1, 0] []
      scenarioComponents rfl (by decide)).1.trans (by decide)⟩

theorem schedule_dispatches_all (rs : RemoteScheduler) (env : Env) (state : State)
    (schedulingID : String) (choices : List Nat) (tr : List Event)
    (components : List Components) (hget : state.GetComponents = .ok components) :
    dispatches (rs.schedule env state schedulingID choices tr).trace
      = dispatches tr
        ++ ((components.filter
              (fun c => decide (c.Component ∈ rs.mothershipCfg.CrdComponents))).map
              (fun c => (c, true, false))
          ++ (components.filter
              (fun c => decide (c.Component ∈ rs.mothershipCfg.PreComponents))).map
              (fun c => (c, false, false))
          ++ (components.filter
              (fun c => decide (c.Component ∉ rs.mothershipCfg.CrdComponents
                ∧ c.Component ∉ rs.mothershipCfg.PreComponents))).map
              (fun c => (c, false, true))) := by
  cases components with
  | nil => simp [RemoteScheduler.schedule, hget, dispatches, Event.asDispatch]
  | cons c cs =>
    exact (schedule_phases rs env state schedulingID choices tr (c :: cs) hget (by simp)).1

theorem count_tagged (l : List Components) (p : Components → Bool) (i k i2 k2 : Bool)
    (c : Components) :
    ((l.filter p).map (fun x => (x, i, k))).count (c, i2, k2)
      = if p c = true ∧ i = i2 ∧ k = k2 then l.count c else 0 := by
  induction l with
  | nil => simp
  | cons x xs ih =>
    by_cases hx : p x = true
    · rw [List.filter_cons_of_pos hx, List.map_cons, List.count_cons, ih, List.count_cons]
      by_cases hxc : x = c
      · subst hxc
        by_cases hi : i = i2 <;> by_cases hk : k = k2 <;> simp [hx, hi, hk]
      · have h1 : ¬ ((x, i, k) = (c, i2, k2)) := by
          intro h; exact hxc (Prod.mk.inj h).1
        simp [hxc, h1]
    · rw [List.filter_cons_of_neg hx, ih, List.count_cons]
      by_cases hxc : x = c
      · subst hxc; simp [hx]
      · simp [hxc]

theorem count_fst_tagged (l : List Components) (p : Components → Bool) (i k : Bool)
    (c : Components) :
    (((l.filter p).map (fun x => (x, i, k))).map Prod.fst).count c
      = if p c = true then l.count c else 0 := by
  induction l with
  | nil => simp
  | cons x xs ih =>
    by_cases hx : p x = true
    · rw [List.filter_cons_of_pos hx, List.map_cons, List.map_cons, List.count_cons, ih,
        List.count_cons]
      by_cases hxc : x = c
      · subst hxc; simp [hx]
      · simp [hxc]
    · rw [List.filter_cons_of_neg hx, ih, List.count_cons]
      by_cases hxc : x = c
      · subst hxc; simp [hx]
      · simp [hxc]

/-- C2, refuted as stated. With `istio` named in both lists, the one-entry
component list `[istio]` leads to two calls of `rs.reconcile` for that entry:
one in the CRD phase and one in the Pre phase. -/
theorem schedule_exactly_once_counterexample :
    dispatches (overlapScheduler.schedule scenarioEnv
        { Cluster := "cluster-1", GetComponents := .ok [component "istio"] } "id" [] []).trace
      = [(component "istio", true, false), (component "istio", false, false)]
    ∧ ((dispatches (overlapScheduler.schedule scenarioEnv
        { Cluster := "cluster-1", GetComponents := .ok [component "istio"] } "id" [] []).trace).map
          Prod.fst).count (component "istio") ≠ 1 := by
  decide

/-- C2, amended. In one cycle every entry of the component list is handed
to `rs.reconcile` once for each membership test its name passes: once with
`installCRD = true` if the name is in `CrdComponents`, once more without CRD
installation if it is in `PreComponents`, and once as a concurrent dispatch if
it is in neither. So a component is dispatched as often as it occurs in the
list, and twice as often when its name is in both lists. -/
theorem schedule_dispatch_count (rs : RemoteScheduler) (env : Env) (cluster : String)
    (schedulingID : String) (choices : List Nat) (components : List Components)
    (c : Components) :
    (dispatches (rs.schedule env { Cluster := cluster, GetComponents := .ok components }
        schedulingID choices []).trace).count (c, true, false)
      = (if c.Component ∈ rs.mothershipCfg.CrdComponents then components.count c else 0)
    ∧ (dispatches (rs.schedule env { Cluster := cluster, GetComponents := .ok components }
        schedulingID choices []).trace).count (c, false, false)
      = (if c.Component ∈ rs.mothershipCfg.PreComponents then components.count c else 0)
    ∧ (dispatches (rs.schedule env { Cluster := cluster, GetComponents := .ok components }
        schedulingID choices []).trace).count (c, false, true)
      = (if c.Component ∉ rs.mothershipCfg.CrdComponents
            ∧ c.Component ∉ rs.mothershipCfg.PreComponents then components.count c else 0)
    ∧ (dispatches (rs.schedule env { Cluster := cluster, GetComponents := .ok components }
        schedulingID choices []).trace).count (c, true, true) = 0
    ∧ ((dispatches (rs.schedule env { Cluster := cluster, GetComponents := .ok components }
        schedulingID choices []).trace).map Prod.fst).count c
      = components.count c * (if c.Component ∈ rs.mothershipCfg.CrdComponents
            ∧ c.Component ∈ rs.mothershipCfg.PreComponents then 2 else 1) := by
  rw [schedule_dispatches_all rs env { Cluster := cluster, GetComponents := .ok components }
    schedulingID choices [] components rfl]
  simp only [dispatches, List.filterMap_nil, List.nil_append, List.count_append, List.map_append,
    count_tagged, count_fst_tagged]
  by_cases h1 : c.Component ∈ rs.mothershipCfg.CrdComponents <;>
    by_cases h2 : c.Component ∈ rs.mothershipCfg.PreComponents <;> simp [h1, h2]
  omega

/-! ### Failure isolation -/

theorem set_getElem?_self {α : Type} (gs : List α) (k : Nat) (g : α) (hk : gs[k]? = some g) :
    gs.set k g = gs := by
  induction gs generalizing k with
  | nil => simp
  | cons x xs ih =>
    cases k with
    | zero => simp at hk; simp [hk]
    | succ k => simp at hk; simp [ih k hk]

theorem filterMap_set_same {α β : Type} (f : α → Option β) (gs : List α) (k : Nat) (g g2 : α)
    (hk : gs[k]? = some g) (h : f g2 = f g) :
    (gs.set k g2).filterMap f = gs.filterMap f := by
  induction gs generalizing k with
  | nil => simp
  | cons x xs ih =>
    cases k with
    | zero =>
      simp at hk
      subst hk
      simp [List.filterMap_cons, h]
    | succ k =>
      simp at hk
      simp [List.filterMap_cons, ih k hk]

theorem filterMap_set_gain {α β : Type} (f : α → Option β) (gs : List α) (k : Nat) (g g2 : α)
    (hk : gs[k]? = some g) (h : f g = none) :
    ((gs.set k g2).filterMap f).Perm ((f g2).toList ++ gs.filterMap f) := by
  induction gs generalizing k with
  | nil => simp at hk
  | cons x xs ih =>
    cases k with
    | zero =>
      simp at hk
      subst hk
      cases h2 : f g2 <;> simp [List.filterMap_cons, h, h2]
    | succ k =>
      simp at hk
      have := ih k hk
      cases hx : f x with
      | none => simpa [List.filterMap_cons, hx] using this
      | some y =>
        simp only [List.set_cons_succ, List.filterMap_cons, hx]
        exact (List.Perm.cons y this).trans List.perm_middle.symm

theorem filterMap_set_loss {α β : Type} (f : α → Option β) (gs : List α) (k : Nat) (g g2 : α)
    (hk : gs[k]? = some g) (h : f g2 = none) :
    (gs.filterMap f).Perm ((f g).toList ++ (gs.set k g2).filterMap f) := by
  have hlt : k < gs.length := by
    rcases List.getElem?_eq_some.1 hk with ⟨h1, _⟩
    exact h1
  have h1 : (gs.set k g2)[k]? = some g2 := by simp [hlt]
  have := filterMap_set_gain f (gs.set k g2) k g2 g h1 h
  have hback : (gs.set k g2).set k g = gs := by
    rw [List.set_set]
    exact set_getElem?_self gs k g hk
  rwa [hback] at this

theorem perm_gain_both {α : Type} {a u d : List α} (x : α) (h : (a ++ u).Perm d) :
    (a ++ [x] ++ u).Perm (d ++ [x]) := by
  rw [List.append_assoc, List.singleton_append]
  exact List.perm_middle.trans ((h.cons x).trans (List.perm_append_singleton x d).symm)

theorem perm_gain_mid {α : Type} {f r q : List α} (x : α) (h : f.Perm (r ++ q)) :
    (f ++ [x]).Perm (r ++ [x] ++ q) := by
  rw [List.append_assoc, List.singleton_append]
  exact (List.perm_append_singleton x f).trans ((h.cons x).trans List.perm_middle.symm)

theorem perm_gain_end {α : Type} {a u d : List α} (x : α) (h : (a ++ u).Perm d) :
    (a ++ (u ++ [x])).Perm (d ++ [x]) := by
  rw [← List.append_assoc]
  exact h.append_right [x]

theorem perm_move {α : Type} {a u u2 d : List α} (x : α) (h : (a ++ u).Perm d)
    (hu : u.Perm (x :: u2)) : (a ++ [x] ++ u2).Perm d := by
  rw [List.append_assoc, List.singleton_append]
  exact (hu.symm.append_left a).trans h

theorem perm_gain_opt {α : Type} {f r q q2 o : List α} (h : f.Perm (r ++ q))
    (hq : q2.Perm (o ++ q)) : (f ++ o).Perm (r ++ q2) := by
  refine (h.append_right o).trans ?_
  rw [List.append_assoc]
  exact (List.perm_append_comm.trans hq.symm).append_left r

theorem perm_pay {α : Type} {f r q q2 : List α} (x : α) (h : f.Perm (r ++ q))
    (hq : q.Perm (x :: q2)) : f.Perm (r ++ [x] ++ q2) := by
  rw [List.append_assoc, List.singleton_append]
  exact h.trans (hq.append_left r)

theorem fnForComponent_calls (env : Env) (c : Components) (tr : List Event) :
    factoryCalls (fnForComponent env c tr).1 = factoryCalls tr ++ [c.Component]
    ∧ reconcileCalls (fnForComponent env c tr).1 = reconcileCalls tr
    ∧ factorySuccesses (fnForComponent env c tr).1
        = factorySuccesses tr
          ++ ((fnForComponent env c tr).2.map (fun w => (c.Component, w))).toList := by
  unfold fnForComponent
  cases env.forComponent tr c.Component <;>
    simp [factoryCalls, reconcileCalls, factorySuccesses, Event.asFactoryCall,
      Event.asReconcileCall, Event.asFactorySuccess]

theorem fnReconcile_calls (env : Env) (i : Bool) (c : Components) (st : State) (sid : String)
    (w : Worker) (tr : List Event) :
    factoryCalls (fnReconcile env i c st sid w tr) = factoryCalls tr
    ∧ reconcileCalls (fnReconcile env i c st sid w tr) = reconcileCalls tr ++ [(c.Component, w)]
    ∧ factorySuccesses (fnReconcile env i c st sid w tr) = factorySuccesses tr := by
  unfold fnReconcile
  cases env.reconcile tr w c st sid i <;>
    simp [factoryCalls, reconcileCalls, factorySuccesses, Event.asFactoryCall,
      Event.asReconcileCall, Event.asFactorySuccess]

theorem dispatch_calls (c : Components) (i k : Bool) (tr : List Event) :
    factoryCalls (tr ++ [.dispatch c i k]) = factoryCalls tr
    ∧ reconcileCalls (tr ++ [.dispatch c i k]) = reconcileCalls tr
    ∧ factorySuccesses (tr ++ [.dispatch c i k]) = factorySuccesses tr
    ∧ dispatches (tr ++ [.dispatch c i k]) = dispatches tr ++ [(c, i, k)] := by
  simp [factoryCalls, reconcileCalls, factorySuccesses, dispatches, Event.asFactoryCall,
    Event.asReconcileCall, Event.asFactorySuccess, Event.asDispatch]

theorem reconcile_sync_inv (rs : RemoteScheduler) (env : Env) (c : Components) (st : State)
    (sid : String) (i : Bool) (cy : Cycle) (h : CycleInv cy) :
    CycleInv (rs.reconcile env c st sid i false cy) := by
  obtain ⟨h1, h2⟩ := h
  obtain ⟨d1, d2, d3, d4⟩ := dispatch_calls c i false cy.trace
  obtain ⟨a1, a2, a3⟩ := fnForComponent_calls env c (cy.trace ++ [.dispatch c i false])
  have ad := fnForComponent_dispatches env c (cy.trace ++ [.dispatch c i false])
  simp only [RemoteScheduler.reconcile, Bool.false_eq_true, if_false, fn]
  cases hf : fnForComponent env c (cy.trace ++ [.dispatch c i false]) with
  | mk tr1 ow =>
    rw [hf] at a1 a2 a3 ad
    simp only at a1 a2 a3 ad
    cases ow with
    | none =>
      simp only [CycleInv]
      rw [a1, a2, a3, ad, d1, d2, d3, d4]
      refine ⟨by simpa using h1, ?_⟩
      simp only [List.map_append, List.map_cons, List.map_nil]
      exact perm_gain_both c.Component h2
    | some w =>
      obtain ⟨b1, b2, b3⟩ := fnReconcile_calls env i c st sid w tr1
      have bd := fnReconcile_dispatches env i c st sid w tr1
      simp only [CycleInv]
      rw [b1, b2, b3, bd, a1, a2, a3, ad, d1, d2, d3, d4]
      constructor
      · simp only [Option.map_some', Option.toList_some]
        exact perm_gain_mid (c.Component, w) h1
      · simp only [List.map_append, List.map_cons, List.map_nil]
        exact perm_gain_both c.Component h2

theorem restIteration_inv (rs : RemoteScheduler) (env : Env) (st : State) (sid : String)
    (c : Components) (cy : Cycle) (h : CycleInv cy) :
    CycleInv (restIteration rs env st sid c cy) := by
  rw [restIteration_eq]
  split
  · obtain ⟨h1, h2⟩ := h
    obtain ⟨d1, d2, d3, d4⟩ := dispatch_calls c false true cy.trace
    simp only [CycleInv]
    rw [d1, d2, d3, d4]
    constructor
    · simpa [Goroutine.pending] using h1
    · simp only [List.filterMap_append, List.map_append, List.map_cons, List.map_nil]
      simpa [Goroutine.unstarted] using perm_gain_end c.Component h2
  · exact h

theorem goStep_inv (env : Env) (st : State) (sid : String) (k : Nat) (cy : Cycle)
    (h : CycleInv cy) : CycleInv (goStep env st sid k cy) := by
  rcases goStep_cases env st sid k cy with h0 | ⟨g, hk, hs, h1⟩ | ⟨g, w, hk, hs, h2⟩
  · rw [h0]; exact h
  · obtain ⟨i1, i2⟩ := h
    obtain ⟨a1, a2, a3⟩ := fnForComponent_calls env g.component cy.trace
    have ad := fnForComponent_dispatches env g.component cy.trace
    rw [h1]
    simp only [CycleInv]
    rw [a1, a2, a3, ad]
    constructor
    · apply perm_gain_opt i1
      have := filterMap_set_gain Goroutine.pending cy.goroutines k g
        { g with stage := match (fnForComponent env g.component cy.trace).2 with
                          | none => .failed
                          | some w => .working w } hk (by simp [Goroutine.pending, hs])
      cases hw : (fnForComponent env g.component cy.trace).2 <;>
        simpa [hw, Goroutine.pending] using this
    · apply perm_move g.component.Component i2
      have := filterMap_set_loss Goroutine.unstarted cy.goroutines k g
        { g with stage := match (fnForComponent env g.component cy.trace).2 with
                          | none => .failed
                          | some w => .working w } hk
        (by cases (fnForComponent env g.component cy.trace).2 <;> simp [Goroutine.unstarted])
      simpa [Goroutine.unstarted, hs] using this
  · obtain ⟨i1, i2⟩ := h
    obtain ⟨b1, b2, b3⟩ := fnReconcile_calls env g.installCRD g.component st sid w cy.trace
    have bd := fnReconcile_dispatches env g.installCRD g.component st sid w cy.trace
    rw [h2]
    simp only [CycleInv]
    rw [b1, b2, b3, bd]
    constructor
    · apply perm_pay (g.component.Component, w) i1
      have := filterMap_set_loss Goroutine.pending cy.goroutines k g
        { g with stage := .finished } hk (by simp [Goroutine.pending])
      simpa [Goroutine.pending, hs] using this
    · rw [filterMap_set_same Goroutine.unstarted cy.goroutines k g { g with stage := .finished }
        hk (by simp [Goroutine.unstarted, hs])]
      exact i2

theorem crdLoop_inv (rs : RemoteScheduler) (env : Env) (st : State) (sid : String)
    (cs : List Components) (cy : Cycle) (h : CycleInv cy) :
    CycleInv (crdLoop rs env st sid cs cy) := by
  induction cs generalizing cy with
  | nil => simpa [crdLoop] using h
  | cons c rest ih =>
    simp only [crdLoop]
    split
    · exact ih _ (reconcile_sync_inv rs env c st sid _ cy h)
    · exact ih _ h

theorem preLoop_inv (rs : RemoteScheduler) (env : Env) (st : State) (sid : String)
    (cs : List Components) (cy : Cycle) (h : CycleInv cy) :
    CycleInv (preLoop rs env st sid cs cy) := by
  induction cs generalizing cy with
  | nil => simpa [preLoop] using h
  | cons c rest ih =>
    simp only [preLoop]
    split
    · exact ih _ (reconcile_sync_inv rs env c st sid _ cy h)
    · exact ih _ h

theorem interleave_inv (rs : RemoteScheduler) (env : Env) (st : State) (sid : String)
    (choices : List Nat) (todo : List Components) (cy : Cycle) (h : CycleInv cy) :
    CycleInv (interleave rs env st sid choices todo cy).2 := by
  induction choices generalizing todo cy with
  | nil => simpa [interleave] using h
  | cons ch rest ih =>
    cases ch with
    | zero =>
      cases todo with
      | nil => simpa [interleave] using ih [] cy h
      | cons c todo =>
        simp only [interleave]
        exact ih todo _ (restIteration_inv rs env st sid c cy h)
    | succ k =>
      simp only [interleave]
      exact ih todo _ (goStep_inv env st sid k cy h)

/-! ### Every goroutine comes to its end -/

theorem interleave_append (rs : RemoteScheduler) (env : Env) (st : State) (sid : String)
    (a b : List Nat) (todo : List Components) (cy : Cycle) :
    interleave rs env st sid (a ++ b) todo cy
      = interleave rs env st sid b (interleave rs env st sid a todo cy).1
          (interleave rs env st sid a todo cy).2 := by
  induction a generalizing todo cy with
  | nil => simp [interleave]
  | cons ch rest ih =>
    cases ch with
    | zero =>
      cases todo with
      | nil => simpa [interleave] using ih [] cy
      | cons c todo => simpa [interleave] using ih todo _
    | succ k => simpa [interleave] using ih todo _

theorem goStep_length (env : Env) (st : State) (sid : String) (k : Nat) (cy : Cycle) :
    (goStep env st sid k cy).goroutines.length = cy.goroutines.length := by
  rcases goStep_cases env st sid k cy with h0 | ⟨g, _, _, h1⟩ | ⟨g, w, _, _, h2⟩
  · rw [h0]
  · rw [h1]; simp
  · rw [h2]; simp

theorem restIteration_length (rs : RemoteScheduler) (env : Env) (st : State) (sid : String)
    (c : Components) (cy : Cycle) :
    (restIteration rs env st sid c cy).goroutines.length ≤ cy.goroutines.length + 1 := by
  rw [restIteration_eq]
  split <;> simp

theorem interleave_length (rs : RemoteScheduler) (env : Env) (st : State) (sid : String)
    (choices : List Nat) (todo : List Components) (cy : Cycle) :
    (interleave rs env st sid choices todo cy).2.goroutines.length
        + (interleave rs env st sid choices todo cy).1.length
      ≤ cy.goroutines.length + todo.length := by
  induction choices generalizing todo cy with
  | nil => simp [interleave]
  | cons ch rest ih =>
    cases ch with
    | zero =>
      cases todo with
      | nil => simpa [interleave] using ih [] cy
      | cons c todo =>
        simp only [interleave, List.length_cons]
        have h1 := ih todo (restIteration rs env st sid c cy)
        have h2 := restIteration_length rs env st sid c cy
        omega
    | succ k =>
      simp only [interleave]
      have h1 := ih todo (goStep env st sid k cy)
      rw [goStep_length] at h1
      exact h1

theorem goStep_callsLeft_other (env : Env) (st : State) (sid : String) (k j : Nat) (cy : Cycle)
    (hjk : j ≠ k) : callsLeftAt (goStep env st sid k cy) j = callsLeftAt cy j := by
  rcases goStep_cases env st sid k cy with h0 | ⟨g, _, _, h1⟩ | ⟨g, w, _, _, h2⟩
  · rw [h0]
  · rw [h1]; simp [callsLeftAt, List.getElem?_set_ne (Ne.symm hjk)]
  · rw [h2]; simp [callsLeftAt, List.getElem?_set_ne (Ne.symm hjk)]

theorem goStep_callsLeft_self (env : Env) (st : State) (sid : String) (k : Nat) (cy : Cycle) :
    callsLeftAt (goStep env st sid k cy) k ≤ callsLeftAt cy k - 1 := by
  rcases goStep_cases env st sid k cy with h0 | ⟨g, hk, hs, h1⟩ | ⟨g, w, hk, hs, h2⟩
  · rw [h0]
    unfold callsLeftAt
    cases hk : cy.goroutines[k]? with
    | none => simp
    | some g =>
      have : goStep env st sid k cy = cy := h0
      cases hs : g.stage with
      | created =>
        exfalso
        have hlen := goStep_length env st sid k cy
        simp only [goStep, hk, hs] at this
        cases hf : fnForComponent env g.component cy.trace with
        | mk tr ow =>
          rw [hf] at this
          cases ow with
          | none =>
            simp only at this
            have h2 := congrArg (fun c => c.goroutines[k]?) this
            have hlt : k < cy.goroutines.length := (List.getElem?_eq_some.1 hk).1
            simp [hk, hlt] at h2
            have := congrArg Goroutine.stage h2
            simp [hs] at this
          | some w =>
            simp only at this
            have h2 := congrArg (fun c => c.goroutines[k]?) this
            have hlt : k < cy.goroutines.length := (List.getElem?_eq_some.1 hk).1
            simp [hk, hlt] at h2
            have := congrArg Goroutine.stage h2
            simp [hs] at this
      | working w =>
        exfalso
        simp only [goStep, hk, hs] at this
        have h2 := congrArg (fun c => c.goroutines[k]?) this
        have hlt : k < cy.goroutines.length := (List.getElem?_eq_some.1 hk).1
        simp [hk, hlt] at h2
        have := congrArg Goroutine.stage h2
        simp [hs] at this
      | failed => simp [Goroutine.callsLeft, hs]
      | finished => simp [Goroutine.callsLeft, hs]
  · have hlt : k < cy.goroutines.length := (List.getElem?_eq_some.1 hk).1
    rw [h1]
    cases hw : (fnForComponent env g.component cy.trace).2 <;>
      simp [callsLeftAt, hk, hlt, Goroutine.callsLeft, hs, hw]
  · have hlt : k < cy.goroutines.length := (List.getElem?_eq_some.1 hk).1
    rw [h2]
    simp [callsLeftAt, hk, hlt, Goroutine.callsLeft, hs]

theorem goStep_callsLeft_le (env : Env) (st : State) (sid : String) (k j : Nat) (cy : Cycle) :
    callsLeftAt (goStep env st sid k cy) j ≤ callsLeftAt cy j := by
  by_cases h : j = k
  · subst h
    have := goStep_callsLeft_self env st sid j cy
    omega
  · rw [goStep_callsLeft_other env st sid k j cy h]

theorem twoStepsEach_drains (rs : RemoteScheduler) (env : Env) (st : State) (sid : String)
    (n : Nat) (cy : Cycle) :
    (interleave rs env st sid (twoStepsEach n) [] cy).1 = []
    ∧ (interleave rs env st sid (twoStepsEach n) [] cy).2.goroutines.length
        = cy.goroutines.length
    ∧ (∀ j, callsLeftAt (interleave rs env st sid (twoStepsEach n) [] cy).2 j ≤ callsLeftAt cy j)
    ∧ ∀ j, j < n → callsLeftAt (interleave rs env st sid (twoStepsEach n) [] cy).2 j = 0 := by
  induction n with
  | zero => simp [twoStepsEach, interleave]
  | succ n ih =>
    obtain ⟨h1, h2, h3, h4⟩ := ih
    simp only [twoStepsEach, interleave_append, h1, interleave]
    refine ⟨trivial, ?_, ?_, ?_⟩
    · rw [goStep_length, goStep_length, h2]
    · intro j
      exact ((goStep_callsLeft_le env st sid n j _).trans
        (goStep_callsLeft_le env st sid n j _)).trans (h3 j)
    · intro j hj
      by_cases hjn : j = n
      · subst hjn
        have a := goStep_callsLeft_self env st sid j
          (goStep env st sid j (interleave rs env st sid (twoStepsEach j) [] cy).2)
        have b := goStep_callsLeft_self env st sid j
          (interleave rs env st sid (twoStepsEach j) [] cy).2
        have c : callsLeftAt (interleave rs env st sid (twoStepsEach j) [] cy).2 j ≤ 2 := by
          unfold callsLeftAt
          split
          · omega
          · next g _ => unfold Goroutine.callsLeft; split <;> omega
        omega
      · have hlt : j < n := by omega
        have a := (goStep_callsLeft_le env st sid n j
          (goStep env st sid n (interleave rs env st sid (twoStepsEach n) [] cy).2)).trans
          (goStep_callsLeft_le env st sid n j _)
        have b := h4 j hlt
        omega

theorem interleave_zeros (rs : RemoteScheduler) (env : Env) (st : State) (sid : String)
    (choices : List Nat) (todo : List Components) (cy : Cycle)
    (h : todo.length ≤ choices.count 0) :
    (interleave rs env st sid choices todo cy).1 = [] := by
  induction choices generalizing todo cy with
  | nil =>
    simp at h
    simp [interleave, h]
  | cons ch rest ih =>
    cases ch with
    | zero =>
      cases todo with
      | nil => simp only [interleave]; exact ih [] cy (by simp)
      | cons c todo =>
        simp only [interleave]
        apply ih
        simp at h
        exact h
    | succ k =>
      simp only [interleave]
      apply ih
      simpa using h

/-- After the interleaving and its completion nothing is left to do: the loop
is through and every goroutine has ended. -/
theorem interleave_runOut_ended (rs : RemoteScheduler) (env : Env) (st : State) (sid : String)
    (choices : List Nat) (components : List Components) (cy : Cycle)
    (hcy : cy.goroutines = []) :
    ∀ g ∈ (interleave rs env st sid (choices ++ runOut components.length)
        components cy).2.goroutines, g.ended := by
  have hsplit : choices ++ runOut components.length
      = (choices ++ List.replicate components.length 0) ++ twoStepsEach components.length := by
    simp [runOut]
  rw [hsplit, interleave_append]
  have htodo : (interleave rs env st sid (choices ++ List.replicate components.length 0)
      components cy).1 = [] := by
    apply interleave_zeros
    simp [List.count_append, List.count_replicate_self]
  have hlen := interleave_length rs env st sid
    (choices ++ List.replicate components.length 0) components cy
  rw [htodo, hcy] at hlen
  simp only [List.length_nil, Nat.add_zero, Nat.zero_add] at hlen
  rw [htodo]
  obtain ⟨_, h2, _, h4⟩ := twoStepsEach_drains rs env st sid components.length
    (interleave rs env st sid (choices ++ List.replicate components.length 0) components cy).2
  intro g hg
  obtain ⟨j, hj, hgj⟩ := List.getElem_of_mem hg
  have hjn : j < components.length := by omega
  have h0 := h4 j hjn
  unfold callsLeftAt at h0
  rw [List.getElem?_eq_getElem hj, hgj] at h0
  simp only at h0
  unfold Goroutine.callsLeft at h0
  unfold Goroutine.ended
  cases hs : g.stage <;> simp [hs] at h0 ⊢

theorem ended_filterMap_nil (gs : List Goroutine) (h : ∀ g ∈ gs, g.ended) :
    gs.filterMap Goroutine.pending = [] ∧ gs.filterMap Goroutine.unstarted = [] := by
  induction gs with
  | nil => simp
  | cons g rest ih =>
    obtain ⟨i1, i2⟩ := ih (fun x hx => h x (List.mem_cons_of_mem _ hx))
    have hg := h g (List.mem_cons_self _ _)
    unfold Goroutine.ended at hg
    rcases hg with hg | hg <;>
      simp [List.filterMap_cons, Goroutine.pending, Goroutine.unstarted, hg, i1, i2]

/-- C9. Whatever the factory and the workers answer, and however the
goroutines interleave, one cycle of `schedule` calls `ForComponent` once for
every dispatch of the cycle (the names asked for are, up to the order of the
concurrent calls, those of the CRD components, the Pre components and the
remaining components: a list that does not depend on any answer), calls
`Reconcile` exactly for the workers that `ForComponent` handed out, each with
the name it was asked for, and comes to an end with every goroutine ended.
`schedule` has no error to return: its result is the cycle alone. -/
theorem schedule_isolates_failures (rs : RemoteScheduler) (env : Env) (cluster : String)
    (schedulingID : String) (choices : List Nat) (components : List Components) :
    (factoryCalls (rs.schedule env { Cluster := cluster, GetComponents := .ok components }
        schedulingID choices []).trace).Perm
      (((components.filter
            (fun c => decide (c.Component ∈ rs.mothershipCfg.CrdComponents)))
        ++ (components.filter
            (fun c => decide (c.Component ∈ rs.mothershipCfg.PreComponents)))
        ++ (components.filter
            (fun c => decide (c.Component ∉ rs.mothershipCfg.CrdComponents
              ∧ c.Component ∉ rs.mothershipCfg.PreComponents)))).map (fun c => c.Component))
    ∧ (reconcileCalls (rs.schedule env { Cluster := cluster, GetComponents := .ok components }
        schedulingID choices []).trace).Perm
      (factorySuccesses (rs.schedule env { Cluster := cluster, GetComponents := .ok components }
        schedulingID choices []).trace)
    ∧ ∀ g ∈ (rs.schedule env { Cluster := cluster, GetComponents := .ok components }
        schedulingID choices []).goroutines, g.ended := by
  have hd := schedule_dispatches_all rs env { Cluster := cluster, GetComponents := .ok components }
    schedulingID choices [] components rfl
  by_cases hlen : components.length = 0
  · have hnil : components = [] := List.length_eq_zero.1 hlen
    subst hnil
    simp [RemoteScheduler.schedule, factoryCalls, reconcileCalls, factorySuccesses,
      Event.asFactoryCall, Event.asReconcileCall, Event.asFactorySuccess]
  · have hinv : CycleInv (rs.schedule env { Cluster := cluster, GetComponents := .ok components }
        schedulingID choices []) := by
      simp only [RemoteScheduler.schedule, hlen, if_false]
      apply interleave_inv
      apply preLoop_inv
      apply crdLoop_inv
      simp [CycleInv, factoryCalls, reconcileCalls, factorySuccesses, dispatches]
    have hend : ∀ g ∈ (rs.schedule env { Cluster := cluster, GetComponents := .ok components }
        schedulingID choices []).goroutines, g.ended := by
      simp only [RemoteScheduler.schedule, hlen, if_false]
      apply interleave_runOut_ended
      rw [preLoop_eq, crdLoop_eq]
    obtain ⟨e1, e2⟩ := ended_filterMap_nil _ hend
    obtain ⟨i1, i2⟩ := hinv
    rw [e1, List.append_nil] at i1
    rw [e2, List.append_nil, hd] at i2
    refine ⟨?_, i1.symm, hend⟩
    simpa [dispatches, Function.comp_def] using i2

/-! ## Theorems: RemoteScheduler.validate and Run -/

theorem dispatchLoop_extends (selects : List Select) (tr : List Event) :
    ∃ ext, (dispatchLoop selects tr).2 = tr ++ ext := by
  induction selects generalizing tr with
  | nil => exact ⟨[], by simp [dispatchLoop]⟩
  | cons x rest ih =>
    cases x with
    | item st =>
      obtain ⟨ext, h⟩ := ih (tr ++ [.goInvoke st.Cluster])
      exact ⟨.goInvoke st.Cluster :: ext, by simp [dispatchLoop, h]⟩
    | done =>
      exact ⟨[.debugf "Stopping remote scheduler because parent context got closed"],
        by simp only [dispatchLoop]⟩

theorem run_after_validate (rs rs1 : RemoteScheduler) (env : Env) (selects : List Select)
    (tr : List Event) (hv : rs.validate = (none, rs1)) :
    (rs.Run env selects tr).2.1 = rs1
    ∧ ∃ rest, (rs.Run env selects tr).2.2
        = tr ++ .makeQueue rs1.poolSize
            :: .debugf ("Starting worker pool with capacity " ++ toString rs1.poolSize
                ++ " workers")
            :: .newPool rs1.poolSize (env.newPool (tr ++ [.makeQueue rs1.poolSize,
                .debugf ("Starting worker pool with capacity " ++ toString rs1.poolSize
                  ++ " workers")]) rs1.poolSize) :: rest := by
  simp only [RemoteScheduler.Run, hv]
  cases he : env.newPool (tr ++ [.makeQueue rs1.poolSize,
      .debugf ("Starting worker pool with capacity " ++ toString rs1.poolSize ++ " workers")])
      rs1.poolSize with
  | some err => exact ⟨rfl, [], by simp⟩
  | none =>
    obtain ⟨ext, h⟩ := dispatchLoop_extends selects
      (tr ++ [.makeQueue rs1.poolSize,
        .debugf ("Starting worker pool with capacity " ++ toString rs1.poolSize ++ " workers")]
        ++ [.newPool rs1.poolSize none, .goInventoryWatch])
    refine ⟨rfl, .goInventoryWatch :: ext, ?_⟩
    simp only [List.append_assoc, List.cons_append, List.nil_append] at h
    simp only [List.append_assoc, List.cons_append, List.nil_append]
    exact h

/-- C8. For every pool size `P`: `validate` fails exactly when `P < 0`;
then `Run` returns that very error with no event added to the trace (no queue,
no pool, no inventory watch, no dispatch) and the pool size as it was. With
`P = 0` validation succeeds and the pool size becomes 50, which is the
capacity `Run` makes the queue and the pool with; with `P > 0` validation
succeeds and the pool size stays `P`, again the capacity used. -/
theorem validate_pool_size (cfg : MothershipReconcilerConfig) (P : Int) (env : Env)
    (selects : List Select) (tr : List Event) :
    ((RemoteScheduler.validate { mothershipCfg := cfg, poolSize := P }).1.isSome = true ↔ P < 0)
    ∧ (P < 0 →
        RemoteScheduler.Run { mothershipCfg := cfg, poolSize := P } env selects tr
          = (some (RemoteScheduler.validate { mothershipCfg := cfg, poolSize := P }).1,
              { mothershipCfg := cfg, poolSize := P }, tr))
    ∧ (P = 0 →
        RemoteScheduler.validate { mothershipCfg := cfg, poolSize := P }
          = (none, { mothershipCfg := cfg, poolSize := 50 })
        ∧ (RemoteScheduler.Run { mothershipCfg := cfg, poolSize := P } env selects tr).2.1.poolSize
          = 50
        ∧ ∃ msg rest,
          (RemoteScheduler.Run { mothershipCfg := cfg, poolSize := P } env selects tr).2.2
            = tr ++ .makeQueue 50 :: .debugf msg
                :: .newPool 50 (env.newPool (tr ++ [.makeQueue 50, .debugf msg]) 50) :: rest)
    ∧ (0 < P →
        RemoteScheduler.validate { mothershipCfg := cfg, poolSize := P }
          = (none, { mothershipCfg := cfg, poolSize := P })
        ∧ (RemoteScheduler.Run { mothershipCfg := cfg, poolSize := P } env selects tr).2.1.poolSize
          = P
        ∧ ∃ msg rest,
          (RemoteScheduler.Run { mothershipCfg := cfg, poolSize := P } env selects tr).2.2
            = tr ++ .makeQueue P :: .debugf msg
                :: .newPool P (env.newPool (tr ++ [.makeQueue P, .debugf msg]) P) :: rest) := by
  refine ⟨?_, ?_, ?_, ?_⟩
  · unfold RemoteScheduler.validate
    by_cases h : P < 0
    · simp [h]
    · by_cases h0 : P = 0 <;> simp [h, h0]
  · intro h
    simp [RemoteScheduler.Run, RemoteScheduler.validate, h]
  · intro h
    subst h
    have hv : RemoteScheduler.validate { mothershipCfg := cfg, poolSize := 0 }
        = (none, { mothershipCfg := cfg, poolSize := 50 }) := by
      simp [RemoteScheduler.validate, defaultPoolSize]
    obtain ⟨r1, rest, r2⟩ := run_after_validate _ _ env selects tr hv
    exact ⟨hv, by rw [r1], _, rest, r2⟩
  · intro h
    have h1 : ¬ P < 0 := by omega
    have h2 : ¬ P = 0 := by omega
    have hv : RemoteScheduler.validate { mothershipCfg := cfg, poolSize := P }
        = (none, { mothershipCfg := cfg, poolSize := P }) := by
      simp [RemoteScheduler.validate, h1, h2]
    obtain ⟨r1, rest, r2⟩ := run_after_validate _ _ env selects tr hv
    exact ⟨hv, by rw [r1], _, rest, r2⟩

/-! ## Theorems: LocalScheduler.Run -/

/-- The three things a goroutine step of `LocalScheduler.Run` can be:
nothing (no such goroutine, or one that has sent), the reconcile call, the
send. -/
theorem localGoStep_cases (env : Env) (st : State) (sid : String) (k : Nat) (r : LocalRun) :
    (localGoStep env st sid k r = r
      ∧ (r.goroutines[k]? = none ∨ ∃ g e, r.goroutines[k]? = some g ∧ g.stage = .sent e))
    ∨ (∃ g, r.goroutines[k]? = some g ∧ g.stage = .started ∧
        localGoStep env st sid k r =
          { r with
            trace := fnReconcile env true g.component st sid g.worker r.trace,
            goroutines := r.goroutines.set k
              { g with stage := (LocalStage.reconciled
                  (env.reconcile r.trace g.worker g.component st sid true)) } })
    ∨ (∃ g err, r.goroutines[k]? = some g ∧ g.stage = .reconciled err ∧
        localGoStep env st sid k r =
          { r with trace := r.trace ++ [.send err],
                   results := r.results ++ [err],
                   goroutines := r.goroutines.set k { g with stage := .sent err } }) := by
  cases hk : r.goroutines[k]? with
  | none => left; exact ⟨by simp [localGoStep, hk], Or.inl rfl⟩
  | some g =>
    cases hs : g.stage with
    | started => right; left; exact ⟨g, rfl, hs, by simp only [localGoStep, hk, hs]⟩
    | reconciled err =>
      right; right; exact ⟨g, err, rfl, hs, by simp only [localGoStep, hk, hs]⟩
    | sent e => left; exact ⟨by simp only [localGoStep, hk, hs], Or.inr ⟨g, e, rfl, hs⟩⟩

theorem reconcileOutcomes_append (a b : List Event) :
    reconcileOutcomes (a ++ b) = reconcileOutcomes a ++ reconcileOutcomes b := by
  simp [reconcileOutcomes]

theorem fnReconcile_outcomes (env : Env) (i : Bool) (c : Components) (st : State) (sid : String)
    (w : Worker) (tr : List Event) :
    reconcileOutcomes (fnReconcile env i c st sid w tr)
      = reconcileOutcomes tr ++ [(c, env.reconcile tr w c st sid i)] := by
  unfold fnReconcile
  cases h : env.reconcile tr w c st sid i <;> simp [reconcileOutcomes]

theorem localGoStep_inv (env : Env) (st : State) (sid : String) (k : Nat)
    (components : List Components) (r : LocalRun) (h : LocalInv components r) :
    LocalInv components (localGoStep env st sid k r) := by
  rcases localGoStep_cases env st sid k r with ⟨h0, _⟩ | ⟨g, hk, hs, h1⟩ | ⟨g, err, hk, hs, h2⟩
  · rw [h0]; exact h
  · obtain ⟨i1, i2, i3, i4, i5⟩ := h
    have hnot : ∀ res, r.returned = some res → False := by
      intro res hres
      have := (i5 res hres).2.1 g (List.getElem?_mem hk)
      simp [LocalGoroutine.isSent, hs] at this
    rw [h1]
    refine ⟨?_, ?_, ?_, ?_, ?_⟩
    · simp only [List.map_set]
      rw [set_getElem?_self _ k _ (by simp [List.getElem?_map, hk])]
      exact i1
    · simp only
      rw [fnReconcile_outcomes]
      have hg := filterMap_set_gain LocalGoroutine.outcome r.goroutines k g
        { g with stage := (LocalStage.reconciled
            (env.reconcile r.trace g.worker g.component st sid true)) }
        hk (by simp [LocalGoroutine.outcome, hs])
      have := perm_gain_opt (r := []) (by simpa using i2) hg
      simpa [LocalGoroutine.outcome] using this
    · simp only
      rw [filterMap_set_same LocalGoroutine.delivered r.goroutines k g _ hk
        (by simp [LocalGoroutine.delivered, hs])]
      exact i3
    · simp only [(fnReconcile_calls env true g.component st sid g.worker r.trace).1,
        List.map_set]
      rw [set_getElem?_self _ k _ (by simp [List.getElem?_map, hk])]
      exact i4
    · intro res hres
      exact absurd (hnot res hres) id
  · obtain ⟨i1, i2, i3, i4, i5⟩ := h
    have hnot : ∀ res, r.returned = some res → False := by
      intro res hres
      have := (i5 res hres).2.1 g (List.getElem?_mem hk)
      simp [LocalGoroutine.isSent, hs] at this
    rw [h2]
    refine ⟨?_, ?_, ?_, ?_, ?_⟩
    · simp only [List.map_set]
      rw [set_getElem?_self _ k _ (by simp [List.getElem?_map, hk])]
      exact i1
    · simp only
      rw [filterMap_set_same LocalGoroutine.outcome r.goroutines k g _ hk
        (by simp [LocalGoroutine.outcome, hs])]
      simpa [reconcileOutcomes] using i2
    · simp only
      have hg := filterMap_set_gain LocalGoroutine.delivered r.goroutines k g
        { g with stage := .sent err } hk (by simp [LocalGoroutine.delivered, hs])
      have := perm_gain_opt (r := []) (by simpa using i3) hg
      simpa [LocalGoroutine.delivered] using this
    · simp only [List.map_set]
      rw [set_getElem?_self _ k _ (by simp [List.getElem?_map, hk])]
      simpa [factoryCalls, Event.asFactoryCall] using i4
    · intro res hres
      exact absurd (hnot res hres) id

theorem localMainStep_inv (env : Env) (components : List Components) (r : LocalRun)
    (hfac : ∀ tr name, ∃ w, env.forComponent tr name = .ok w)
    (h : LocalInv components r) : LocalInv components (localMainStep env r) := by
  obtain ⟨i1, i2, i3, i4, i5⟩ := h
  unfold localMainStep
  cases hret : r.returned with
  | some res => exact ⟨i1, i2, i3, i4, i5⟩
  | none =>
    simp only
    cases htodo : r.todo with
    | nil =>
      simp only
      split
      · next hall =>
        refine ⟨by simpa [htodo] using i1, i2, i3, i4, ?_⟩
        intro res hres
        simp only [Option.some.injEq] at hres
        refine ⟨rfl, ?_, hres.symm⟩
        intro g hg
        exact List.all_eq_true.1 hall g hg
      · refine ⟨by simpa [htodo] using i1, i2, i3, i4, ?_⟩
        intro res hres
        rw [hret] at hres
        cases hres
    | cons c rest =>
      simp only
      obtain ⟨w, hw⟩ := hfac r.trace c.Component
      rw [hw]
      refine ⟨?_, ?_, ?_, ?_, ?_⟩
      · simp only [List.map_append, List.map_cons, List.map_nil, List.append_assoc,
          List.singleton_append]
        rw [← i1, htodo]
      · simpa [reconcileOutcomes, LocalGoroutine.outcome] using i2
      · simpa [LocalGoroutine.delivered] using i3
      · simp only [List.map_append, List.map_cons, List.map_nil]
        rw [← i4]
        simp [factoryCalls, Event.asFactoryCall]
      · intro res hres
        simp at hres

theorem localInterleave_inv (env : Env) (st : State) (sid : String)
    (components : List Components)
    (hfac : ∀ tr name, ∃ w, env.forComponent tr name = .ok w)
    (choices : List Nat) (r : LocalRun) (h : LocalInv components r) :
    LocalInv components (localInterleave env st sid choices r) := by
  induction choices generalizing r with
  | nil => simpa [localInterleave] using h
  | cons ch rest ih =>
    cases ch with
    | zero => simp only [localInterleave]; exact ih _ (localMainStep_inv env components r hfac h)
    | succ k => simp only [localInterleave]; exact ih _ (localGoStep_inv env st sid k components r h)

/-! ### `Run` returns -/

theorem localInterleave_append (env : Env) (st : State) (sid : String) (a b : List Nat)
    (r : LocalRun) :
    localInterleave env st sid (a ++ b) r
      = localInterleave env st sid b (localInterleave env st sid a r) := by
  induction a generalizing r with
  | nil => simp [localInterleave]
  | cons ch rest ih =>
    cases ch with
    | zero => simpa [localInterleave] using ih _
    | succ k => simpa [localInterleave] using ih _

theorem localGoStep_frame (env : Env) (st : State) (sid : String) (k : Nat) (r : LocalRun) :
    (localGoStep env st sid k r).todo = r.todo
    ∧ (localGoStep env st sid k r).returned = r.returned
    ∧ (localGoStep env st sid k r).goroutines.length = r.goroutines.length := by
  rcases localGoStep_cases env st sid k r with ⟨h0, _⟩ | ⟨g, _, _, h1⟩ | ⟨g, err, _, _, h2⟩
  · rw [h0]; exact ⟨rfl, rfl, rfl⟩
  · rw [h1]; exact ⟨rfl, rfl, by simp⟩
  · rw [h2]; exact ⟨rfl, rfl, by simp⟩

theorem localGoStep_stepsLeft_other (env : Env) (st : State) (sid : String) (k j : Nat)
    (r : LocalRun) (hjk : j ≠ k) :
    localStepsLeftAt (localGoStep env st sid k r) j = localStepsLeftAt r j := by
  rcases localGoStep_cases env st sid k r with ⟨h0, _⟩ | ⟨g, _, _, h1⟩ | ⟨g, err, _, _, h2⟩
  · rw [h0]
  · rw [h1]; simp [localStepsLeftAt, List.getElem?_set_ne (Ne.symm hjk)]
  · rw [h2]; simp [localStepsLeftAt, List.getElem?_set_ne (Ne.symm hjk)]

theorem localGoStep_stepsLeft_self (env : Env) (st : State) (sid : String) (k : Nat)
    (r : LocalRun) :
    localStepsLeftAt (localGoStep env st sid k r) k ≤ localStepsLeftAt r k - 1 := by
  rcases localGoStep_cases env st sid k r with
    ⟨h0, hk | ⟨g, e, hk, hs⟩⟩ | ⟨g, hk, hs, h1⟩ | ⟨g, err, hk, hs, h2⟩
  · rw [h0]; simp [localStepsLeftAt, hk]
  · rw [h0]; simp [localStepsLeftAt, hk, LocalGoroutine.stepsLeft, hs]
  · have hlt : k < r.goroutines.length := (List.getElem?_eq_some.1 hk).1
    rw [h1]
    simp [localStepsLeftAt, hk, hlt, LocalGoroutine.stepsLeft, hs]
  · have hlt : k < r.goroutines.length := (List.getElem?_eq_some.1 hk).1
    rw [h2]
    simp [localStepsLeftAt, hk, hlt, LocalGoroutine.stepsLeft, hs]

theorem localGoStep_stepsLeft_le (env : Env) (st : State) (sid : String) (k j : Nat)
    (r : LocalRun) :
    localStepsLeftAt (localGoStep env st sid k r) j ≤ localStepsLeftAt r j := by
  by_cases h : j = k
  · subst h
    have := localGoStep_stepsLeft_self env st sid j r
    omega
  · rw [localGoStep_stepsLeft_other env st sid k j r h]

theorem local_twoStepsEach (env : Env) (st : State) (sid : String) (n : Nat) (r : LocalRun) :
    (localInterleave env st sid (twoStepsEach n) r).todo = r.todo
    ∧ (localInterleave env st sid (twoStepsEach n) r).returned = r.returned
    ∧ (localInterleave env st sid (twoStepsEach n) r).goroutines.length = r.goroutines.length
    ∧ (∀ j, localStepsLeftAt (localInterleave env st sid (twoStepsEach n) r) j
        ≤ localStepsLeftAt r j)
    ∧ ∀ j, j < n → localStepsLeftAt (localInterleave env st sid (twoStepsEach n) r) j = 0 := by
  induction n with
  | zero => simp [twoStepsEach, localInterleave]
  | succ n ih =>
    obtain ⟨h1, h2, h3, h4, h5⟩ := ih
    simp only [twoStepsEach, localInterleave_append, localInterleave]
    obtain ⟨a1, a2, a3⟩ := localGoStep_frame env st sid n
      (localInterleave env st sid (twoStepsEach n) r)
    obtain ⟨b1, b2, b3⟩ := localGoStep_frame env st sid n
      (localGoStep env st sid n (localInterleave env st sid (twoStepsEach n) r))
    refine ⟨by rw [b1, a1, h1], by rw [b2, a2, h2], by rw [b3, a3, h3], ?_, ?_⟩
    · intro j
      exact ((localGoStep_stepsLeft_le env st sid n j _).trans
        (localGoStep_stepsLeft_le env st sid n j _)).trans (h4 j)
    · intro j hj
      by_cases hjn : j = n
      · subst hjn
        have a := localGoStep_stepsLeft_self env st sid j
          (localGoStep env st sid j (localInterleave env st sid (twoStepsEach j) r))
        have b := localGoStep_stepsLeft_self env st sid j
          (localInterleave env st sid (twoStepsEach j) r)
        have c : localStepsLeftAt (localInterleave env st sid (twoStepsEach j) r) j ≤ 2 := by
          unfold localStepsLeftAt
          split
          · omega
          · next g _ => unfold LocalGoroutine.stepsLeft; split <;> omega
        omega
      · have hlt : j < n := by omega
        have a := (localGoStep_stepsLeft_le env st sid n j
          (localGoStep env st sid n (localInterleave env st sid (twoStepsEach n) r))).trans
          (localGoStep_stepsLeft_le env st sid n j _)
        have b := h5 j hlt
        omega

theorem localMainStep_todo (env : Env) (components : List Components) (r : LocalRun)
    (hfac : ∀ tr name, ∃ w, env.forComponent tr name = .ok w) (h : LocalInv components r) :
    (localMainStep env r).todo.length ≤ r.todo.length - 1 := by
  obtain ⟨_, _, _, _, i5⟩ := h
  unfold localMainStep
  cases hret : r.returned with
  | some res =>
    simp only
    rw [(i5 res hret).1]
    simp
  | none =>
    simp only
    cases htodo : r.todo with
    | nil => simp only; split <;> simp [htodo]
    | cons c rest =>
      simp only
      obtain ⟨w, hw⟩ := hfac r.trace c.Component
      rw [hw]
      simp

theorem local_zeros (env : Env) (st : State) (sid : String) (components : List Components)
    (hfac : ∀ tr name, ∃ w, env.forComponent tr name = .ok w)
    (choices : List Nat) (r : LocalRun) (h : LocalInv components r)
    (hlen : r.todo.length ≤ choices.count 0) :
    (localInterleave env st sid choices r).todo = [] := by
  induction choices generalizing r with
  | nil =>
    simp at hlen
    simpa [localInterleave] using hlen
  | cons ch rest ih =>
    cases ch with
    | zero =>
      simp only [localInterleave]
      apply ih _ (localMainStep_inv env components r hfac h)
      have := localMainStep_todo env components r hfac h
      simp at hlen
      omega
    | succ k =>
      simp only [localInterleave]
      apply ih _ (localGoStep_inv env st sid k components r h)
      rw [(localGoStep_frame env st sid k r).1]
      simpa using hlen

/-- After the interleaving and its completion `Run` has returned. -/
theorem local_returns (env : Env) (st : State) (sid : String) (components : List Components)
    (hfac : ∀ tr name, ∃ w, env.forComponent tr name = .ok w) (choices : List Nat) :
    ∃ res, (localInterleave env st sid (choices ++ (runOut components.length ++ [0]))
      { trace := [], todo := components, goroutines := [], results := [], returned := none }
      ).returned = some res := by
  have hinit : LocalInv components
      { trace := [], todo := components, goroutines := [], results := [], returned := none } := by
    refine ⟨by simp, by simp [reconcileOutcomes], by simp, by simp [factoryCalls], ?_⟩
    intro res hres
    cases hres
  have hsplit : choices ++ (runOut components.length ++ [0])
      = (choices ++ List.replicate components.length 0)
        ++ (twoStepsEach components.length ++ [0]) := by
    simp [runOut]
  rw [hsplit, localInterleave_append, localInterleave_append]
  have hinv1 := localInterleave_inv env st sid components hfac
    (choices ++ List.replicate components.length 0) _ hinit
  have htodo := local_zeros env st sid components hfac
    (choices ++ List.replicate components.length 0) _ hinit
    (by simp [List.count_append, List.count_replicate_self])
  obtain ⟨t1, t2, t3, _, t5⟩ := local_twoStepsEach env st sid components.length
    (localInterleave env st sid (choices ++ List.replicate components.length 0)
      { trace := [], todo := components, goroutines := [], results := [], returned := none })
  have hlen : (localInterleave env st sid (choices ++ List.replicate components.length 0)
      { trace := [], todo := components, goroutines := [], results := [], returned := none }
      ).goroutines.length = components.length := by
    have := congrArg List.length hinv1.1
    rw [htodo] at this
    simpa using this
  simp only [localInterleave]
  unfold localMainStep
  split
  · next res hres => exact ⟨res, hres⟩
  · next hnone =>
    rw [t1, htodo]
    simp only
    have hall : (localInterleave env st sid (twoStepsEach components.length)
        (localInterleave env st sid (choices ++ List.replicate components.length 0)
          { trace := [], todo := components, goroutines := [], results := [],
            returned := none })).goroutines.all LocalGoroutine.isSent = true := by
      rw [List.all_eq_true]
      intro g hg
      obtain ⟨j, hj, hgj⟩ := List.getElem_of_mem hg
      have hjn : j < components.length := by omega
      have h0 := t5 j hjn
      unfold localStepsLeftAt at h0
      rw [List.getElem?_eq_getElem hj, hgj] at h0
      simp only at h0
      unfold LocalGoroutine.stepsLeft at h0
      unfold LocalGoroutine.isSent
      cases hs : g.stage <;> simp [hs] at h0 ⊢
    rw [if_pos hall]
    exact ⟨_, rfl⟩

theorem firstError_none (l : List (Option Error)) :
    firstError l = none ↔ ∀ e ∈ l, e = none := by
  induction l with
  | nil => simp [firstError]
  | cons x xs ih =>
    cases x with
    | none => simp [firstError, ih]
    | some err => simp [firstError]

theorem firstError_mem (l : List (Option Error)) (err : Error) (h : firstError l = some err) :
    some err ∈ l := by
  induction l with
  | nil => simp [firstError] at h
  | cons x xs ih =>
    cases x with
    | none => simp only [firstError] at h; exact List.mem_cons_of_mem _ (ih h)
    | some e2 =>
      simp only [firstError, Option.some.injEq] at h
      subst h
      exact List.mem_cons_self _ _

theorem sent_outcomes (gs : List LocalGoroutine) (h : ∀ g ∈ gs, g.isSent = true) :
    (gs.filterMap LocalGoroutine.outcome).map Prod.fst = gs.map LocalGoroutine.component
    ∧ (gs.filterMap LocalGoroutine.outcome).map Prod.snd
        = gs.filterMap LocalGoroutine.delivered := by
  induction gs with
  | nil => simp
  | cons g rest ih =>
    obtain ⟨i1, i2⟩ := ih (fun x hx => h x (List.mem_cons_of_mem _ hx))
    have hg := h g (List.mem_cons_self _ _)
    unfold LocalGoroutine.isSent at hg
    cases hs : g.stage with
    | started => simp [hs] at hg
    | reconciled e => simp [hs] at hg
    | sent e =>
      simp [List.filterMap_cons, LocalGoroutine.outcome, LocalGoroutine.delivered, hs, i1, i2]

/-- C10. Take a cluster whose state and component list decode and a
factory that never fails. Then, whatever the interleaving of the goroutines,
`LocalScheduler.Run` asks the factory once per component in list order, calls
`Reconcile` once per component, and returns; the channel holds exactly the
errors those calls returned, and the value returned is the first of them that
is not `nil`: it is `nil` if and only if every `Reconcile` call returned
`nil`, and otherwise it is an error one of the `Reconcile` calls returned. For
an empty component list the factory is never asked and the value returned is
`nil`. -/
theorem LocalScheduler_Run_result (ls : LocalScheduler) (json : JsonLib) (env : Env)
    (schedulingID : String) (choices : List Nat) (state : State)
    (components : List Components)
    (hstate : localClusterState json ls.cluster = .ok state)
    (hcomps : state.GetComponents = .ok components)
    (hfac : ∀ tr name, ∃ w, env.forComponent tr name = .ok w) :
    factoryCalls (ls.Run json env schedulingID choices).trace
      = components.map (fun c => c.Component)
    ∧ ((reconcileOutcomes (ls.Run json env schedulingID choices).trace).map Prod.fst).Perm
        components
    ∧ (ls.Run json env schedulingID choices).results.Perm
        ((reconcileOutcomes (ls.Run json env schedulingID choices).trace).map Prod.snd)
    ∧ (∃ res, (ls.Run json env schedulingID choices).returned = some res
        ∧ res = firstError (ls.Run json env schedulingID choices).results
        ∧ (res = none
            ↔ ∀ o ∈ reconcileOutcomes (ls.Run json env schedulingID choices).trace, o.2 = none)
        ∧ ∀ err, res = some err →
            ∃ o ∈ reconcileOutcomes (ls.Run json env schedulingID choices).trace,
              o.2 = some err)
    ∧ (components = [] →
        factoryCalls (ls.Run json env schedulingID choices).trace = []
        ∧ (ls.Run json env schedulingID choices).returned = some none) := by
  have hinit : LocalInv components
      { trace := [], todo := components, goroutines := [], results := [], returned := none } := by
    refine ⟨by simp, by simp [reconcileOutcomes], by simp, by simp [factoryCalls], ?_⟩
    intro res hres
    cases hres
  have hrun : ls.Run json env schedulingID choices
      = localInterleave env state schedulingID (choices ++ (runOut components.length ++ [0]))
          { trace := [], todo := components, goroutines := [], results := [],
            returned := none } := by
    simp only [LocalScheduler.Run, hstate, hcomps]
  obtain ⟨res, hres⟩ := local_returns env state schedulingID components hfac choices
  obtain ⟨i1, i2, i3, i4, i5⟩ := localInterleave_inv env state schedulingID components hfac
    (choices ++ (runOut components.length ++ [0])) _ hinit
  rw [← hrun] at hres i1 i2 i3 i4 i5
  obtain ⟨j1, j2, j3⟩ := i5 res hres
  obtain ⟨s1, s2⟩ := sent_outcomes _ j2
  rw [j1, List.append_nil] at i1
  have hfc : factoryCalls (ls.Run json env schedulingID choices).trace
      = components.map (fun c => c.Component) := by
    rw [i4, ← i1, List.map_map]
    rfl
  have hperm1 : ((reconcileOutcomes (ls.Run json env schedulingID choices).trace).map
      Prod.fst).Perm components := by
    have := i2.map Prod.fst
    rw [s1, i1] at this
    exact this
  have hperm2 : (ls.Run json env schedulingID choices).results.Perm
      ((reconcileOutcomes (ls.Run json env schedulingID choices).trace).map Prod.snd) := by
    have := i2.map Prod.snd
    rw [s2] at this
    exact i3.trans this.symm
  have hresult : res = none
        ↔ ∀ o ∈ reconcileOutcomes (ls.Run json env schedulingID choices).trace, o.2 = none := by
    rw [j3, firstError_none]
    constructor
    · intro h o ho
      exact h o.2 (hperm2.mem_iff.2 (List.mem_map_of_mem _ ho))
    · intro h e he
      obtain ⟨o, ho, hoe⟩ := List.mem_map.1 (hperm2.mem_iff.1 he)
      rw [← hoe]
      exact h o ho
  refine ⟨hfc, hperm1, hperm2, ⟨res, hres, j3, hresult, ?_⟩, ?_⟩
  · intro err herr
    rw [j3] at herr
    obtain ⟨o, ho, hoe⟩ := List.mem_map.1 (hperm2.mem_iff.1 (firstError_mem _ err herr))
    exact ⟨o, ho, hoe⟩
  · intro hnil
    subst hnil
    refine ⟨by rw [hfc]; rfl, ?_⟩
    have hempty : reconcileOutcomes (ls.Run json env schedulingID choices).trace = [] := by
      have := hperm1.length_eq
      simpa using this
    rw [hres]
    congr 1
    rw [hresult, hempty]
    intro o ho
    cases ho

/-- The specification's scenario run locally, with `logging` reconciled
first, then `istio`: the error returned is the one of `logging`. -/
theorem LocalScheduler_Run_result_witness :
    (scenarioLocal.Run (scenarioJson scenarioComponents) localEnv "id"
        [0, 0, 0, 0, 4, 4, 2, 2]).returned = some (some "logging failed")
    ∧ ∃ o ∈ reconcileOutcomes (scenarioLocal.Run (scenarioJson scenarioComponents) localEnv "id"
        [0, 0, 0, 0, 4, 4, 2, 2]).trace, o.2 = some "logging failed" := by
  obtain ⟨_, _, _, ⟨res, h1, _, _, h4⟩, _⟩ := LocalScheduler_Run_result scenarioLocal
    (scenarioJson scenarioComponents) localEnv "id" [0, 0, 0, 0, 4, 4, 2, 2]
    { Cluster := "cluster-1", GetComponents := .ok scenarioComponents } scenarioComponents
    rfl rfl (fun tr _ => ⟨{ id := tr.length }, rfl⟩)
  have hret : (scenarioLocal.Run (scenarioJson scenarioComponents) localEnv "id"
      [0, 0, 0, 0, 4, 4, 2, 2]).returned = some (some "logging failed") := by decide
  rw [hret] at h1
  cases h1
  exact ⟨rfl, h4 "logging failed" rfl⟩

/-! ### A failing factory -/

theorem factoryFailures_append (a b : List Event) :
    factoryFailures (a ++ b) = factoryFailures a ++ factoryFailures b := by
  simp [factoryFailures]

theorem fnReconcile_failures (env : Env) (i : Bool) (c : Components) (st : State) (sid : String)
    (w : Worker) (tr : List Event) :
    factoryFailures (fnReconcile env i c st sid w tr) = factoryFailures tr := by
  unfold fnReconcile
  cases env.reconcile tr w c st sid i <;> simp [factoryFailures]

theorem localGoStep_invF (env : Env) (st : State) (sid : String) (k : Nat)
    (components : List Components) (r : LocalRun) (h : LocalInvF components r) :
    LocalInvF components (localGoStep env st sid k r) := by
  rcases localGoStep_cases env st sid k r with ⟨h0, _⟩ | ⟨g, hk, hs, h1⟩ | ⟨g, err, hk, hs, h2⟩
  · rw [h0]; exact h
  · obtain ⟨i1, i2, i3⟩ := h
    have hmapc : (r.goroutines.set k { g with stage := (LocalStage.reconciled
        (env.reconcile r.trace g.worker g.component st sid true)) }).map LocalGoroutine.component
        = r.goroutines.map LocalGoroutine.component := by
      simp only [List.map_set]
      exact set_getElem?_self _ k _ (by simp [List.getElem?_map, hk])
    have hmapn : (r.goroutines.set k { g with stage := (LocalStage.reconciled
        (env.reconcile r.trace g.worker g.component st sid true)) }).map
          (fun g => g.component.Component)
        = r.goroutines.map (fun g => g.component.Component) := by
      simp only [List.map_set]
      exact set_getElem?_self _ k _ (by simp [List.getElem?_map, hk])
    rw [h1]
    refine ⟨?_, ?_, ?_⟩
    · simp only
      rw [hmapc]
      exact i1
    · simp only
      rw [fnReconcile_outcomes]
      have hg := filterMap_set_gain LocalGoroutine.outcome r.goroutines k g
        { g with stage := (LocalStage.reconciled
            (env.reconcile r.trace g.worker g.component st sid true)) }
        hk (by simp [LocalGoroutine.outcome, hs])
      have := perm_gain_opt (r := []) (by simpa using i2) hg
      simpa [LocalGoroutine.outcome] using this
    · simp only
      rw [fnReconcile_failures, (fnReconcile_calls env true g.component st sid g.worker
        r.trace).1, hmapn]
      exact i3
  · obtain ⟨i1, i2, i3⟩ := h
    have hmapc : (r.goroutines.set k { g with stage := .sent err }).map LocalGoroutine.component
        = r.goroutines.map LocalGoroutine.component := by
      simp only [List.map_set]
      exact set_getElem?_self _ k _ (by simp [List.getElem?_map, hk])
    have hmapn : (r.goroutines.set k { g with stage := .sent err }).map
          (fun g => g.component.Component)
        = r.goroutines.map (fun g => g.component.Component) := by
      simp only [List.map_set]
      exact set_getElem?_self _ k _ (by simp [List.getElem?_map, hk])
    have hf : factoryFailures (r.trace ++ [Event.send err]) = factoryFailures r.trace := by
      simp [factoryFailures]
    have hc : factoryCalls (r.trace ++ [Event.send err]) = factoryCalls r.trace := by
      simp [factoryCalls, Event.asFactoryCall]
    rw [h2]
    refine ⟨?_, ?_, ?_⟩
    · simp only
      rw [hmapc]
      exact i1
    · simp only
      rw [filterMap_set_same LocalGoroutine.outcome r.goroutines k g _ hk
        (by simp [LocalGoroutine.outcome, hs])]
      simpa [reconcileOutcomes] using i2
    · simp only
      rw [hf, hc, hmapn]
      exact i3

theorem localMainStep_invF (env : Env) (components : List Components) (r : LocalRun)
    (h : LocalInvF components r) : LocalInvF components (localMainStep env r) := by
  obtain ⟨i1, i2, i3⟩ := h
  unfold localMainStep
  cases hret : r.returned with
  | some res => exact ⟨i1, i2, i3⟩
  | none =>
    simp only
    rcases i3 with ⟨f1, f2, f3⟩ | ⟨c, rest, err, _, _, hr, _⟩
    · cases htodo : r.todo with
      | nil =>
        simp only
        split
        · exact ⟨by simpa [htodo] using i1, i2, Or.inl ⟨f1, f2, fun _ _ => rfl⟩⟩
        · refine ⟨by simpa [htodo] using i1, i2, Or.inl ⟨f1, f2, ?_⟩⟩
          intro res hres
          rw [hret] at hres
          cases hres
      | cons c rest =>
        simp only
        cases hw : env.forComponent r.trace c.Component with
        | error err =>
          refine ⟨by simpa [htodo] using i1, by simpa [reconcileOutcomes] using i2, ?_⟩
          right
          refine ⟨c, rest, err, rfl, ?_, rfl, ?_⟩
          · simp only [factoryFailures_append, f1]
            simp [factoryFailures]
          · simp only
            rw [← f2]
            simp [factoryCalls, Event.asFactoryCall]
        | ok w =>
          refine ⟨?_, ?_, ?_⟩
          · simp only [List.map_append, List.map_cons, List.map_nil, List.append_assoc,
              List.singleton_append]
            rw [← i1, htodo]
          · simpa [reconcileOutcomes, LocalGoroutine.outcome] using i2
          · left
            refine ⟨?_, ?_, ?_⟩
            · simp only [factoryFailures_append, f1]
              simp [factoryFailures]
            · simp only [List.map_append, List.map_cons, List.map_nil]
              rw [← f2]
              simp [factoryCalls, Event.asFactoryCall]
            · intro res hres
              simp at hres
    · rw [hret] at hr
      cases hr

theorem localInterleave_invF (env : Env) (st : State) (sid : String)
    (components : List Components) (choices : List Nat) (r : LocalRun)
    (h : LocalInvF components r) :
    LocalInvF components (localInterleave env st sid choices r) := by
  induction choices generalizing r with
  | nil => simpa [localInterleave] using h
  | cons ch rest ih =>
    cases ch with
    | zero => simp only [localInterleave]; exact ih _ (localMainStep_invF env components r h)
    | succ k =>
      simp only [localInterleave]; exact ih _ (localGoStep_invF env st sid k components r h)

theorem outcomes_sublist (gs : List LocalGoroutine) :
    ((gs.filterMap LocalGoroutine.outcome).map Prod.fst).Sublist
      (gs.map LocalGoroutine.component) := by
  induction gs with
  | nil => simp
  | cons g rest ih =>
    cases hs : g.stage with
    | started =>
      simp only [List.filterMap_cons, LocalGoroutine.outcome, hs, List.map_cons]
      exact ih.cons _
    | reconciled e =>
      simp only [List.filterMap_cons, LocalGoroutine.outcome, hs, List.map_cons]
      exact ih.cons₂ _
    | sent e =>
      simp only [List.filterMap_cons, LocalGoroutine.outcome, hs, List.map_cons]
      exact ih.cons₂ _

theorem mem_factoryFailures (tr : List Event) (name : String) (err : Error)
    (h : Event.forComponent name (.error err) ∈ tr) : (name, err) ∈ factoryFailures tr := by
  unfold factoryFailures
  exact List.mem_filterMap.2 ⟨_, h, rfl⟩

/-- C11. Take a cluster whose state and component list decode, and a run
of `LocalScheduler.Run` in which a call `ForComponent(name)` fails with `err`.
Then the component list splits into the components before, a component `c`
named `name`, and the components after it, such that: `Run` has returned the
error "failed to create a: " followed by the message of `err`; the factory
was asked once for each component before `c`, in list order, then for `c`,
and never again; the failing call is the only one that failed; and every
`Reconcile` call was made for a component before `c`, at most once for each
of these entries. So neither `c` nor a component after it got a `Reconcile`
call or, the failing call apart, a `ForComponent` call. -/
theorem LocalScheduler_Run_factory_failure (ls : LocalScheduler) (json : JsonLib) (env : Env)
    (schedulingID : String) (choices : List Nat) (state : State)
    (components : List Components) (name : String) (err : Error)
    (hstate : localClusterState json ls.cluster = .ok state)
    (hcomps : state.GetComponents = .ok components)
    (hfail : Event.forComponent name (.error err)
      ∈ (ls.Run json env schedulingID choices).trace) :
    ∃ earlier c later, components = earlier ++ c :: later ∧ c.Component = name
      ∧ (ls.Run json env schedulingID choices).returned
          = some (some ("failed to create a: " ++ err))
      ∧ factoryCalls (ls.Run json env schedulingID choices).trace
          = earlier.map (fun x => x.Component) ++ [name]
      ∧ factoryFailures (ls.Run json env schedulingID choices).trace = [(name, err)]
      ∧ ((reconcileOutcomes (ls.Run json env schedulingID choices).trace).map
          Prod.fst).Subperm earlier := by
  have hinit : LocalInvF components
      { trace := [], todo := components, goroutines := [], results := [], returned := none } := by
    refine ⟨by simp, by simp [reconcileOutcomes], Or.inl ⟨by simp [factoryFailures],
      by simp [factoryCalls], ?_⟩⟩
    intro res hres
    cases hres
  have hrun : ls.Run json env schedulingID choices
      = localInterleave env state schedulingID (choices ++ (runOut components.length ++ [0]))
          { trace := [], todo := components, goroutines := [], results := [],
            returned := none } := by
    simp only [LocalScheduler.Run, hstate, hcomps]
  obtain ⟨i1, i2, i3⟩ := localInterleave_invF env state schedulingID components
    (choices ++ (runOut components.length ++ [0])) _ hinit
  rw [← hrun] at i1 i2 i3
  have hmem := mem_factoryFailures _ name err hfail
  rcases i3 with ⟨f1, _, _⟩ | ⟨c, rest, err2, htodo, hf, hret, hcalls⟩
  · rw [f1] at hmem
    cases hmem
  · rw [hf] at hmem
    simp only [List.mem_singleton, Prod.mk.injEq] at hmem
    obtain ⟨hn, he⟩ := hmem
    subst he
    refine ⟨(ls.Run json env schedulingID choices).goroutines.map LocalGoroutine.component,
      c, rest, ?_, hn.symm, hret, ?_, ?_, ?_⟩
    · rw [← i1, htodo]
    · rw [hcalls, List.map_map, hn]
      rfl
    · rw [hf, hn]
    · exact (i2.map Prod.fst).subperm.trans (outcomes_sublist _).subperm

/-- The specification's scenario run locally with a factory that has no
worker for `monitoring`: `Run` returns the factory's error, the factory was
asked for the first three components only, and `logging` is never reached. -/
theorem LocalScheduler_Run_factory_failure_witness :
    ∃ earlier c later, scenarioComponents = earlier ++ c :: later ∧ c.Component = "monitoring"
      ∧ (scenarioLocal.Run (scenarioJson scenarioComponents) brokenFactoryEnv "id"
          [0, 1, 0, 0, 0]).returned
          = some (some ("failed to create a: " ++ "no worker for monitoring"))
      ∧ factoryCalls (scenarioLocal.Run (scenarioJson scenarioComponents) brokenFactoryEnv "id"
          [0, 1, 0, 0, 0]).trace = earlier.map (fun x => x.Component) ++ ["monitoring"]
      ∧ factoryFailures (scenarioLocal.Run (scenarioJson scenarioComponents) brokenFactoryEnv
          "id" [0, 1, 0, 0, 0]).trace = [("monitoring", "no worker for monitoring")]
      ∧ ((reconcileOutcomes (scenarioLocal.Run (scenarioJson scenarioComponents)
          brokenFactoryEnv "id" [0, 1, 0, 0, 0]).trace).map Prod.fst).Subperm earlier :=
  LocalScheduler_Run_factory_failure scenarioLocal (scenarioJson scenarioComponents)
    brokenFactoryEnv "id" [0, 1, 0, 0, 0]
    { Cluster := "cluster-1", GetComponents := .ok scenarioComponents } scenarioComponents
    "monitoring" "no worker for monitoring" rfl rfl (by decide)

theorem localGoStep_failures (env : Env) (st : State) (sid : String) (k : Nat) (r : LocalRun) :
    factoryFailures (localGoStep env st sid k r).trace = factoryFailures r.trace := by
  rcases localGoStep_cases env st sid k r with ⟨h0, _⟩ | ⟨g, _, _, h1⟩ | ⟨g, err, _, _, h2⟩
  · rw [h0]
  · rw [h1]; exact fnReconcile_failures env true g.component st sid g.worker r.trace
  · rw [h2]; simp [factoryFailures]

/-- A component the factory has no worker for is reached, unless the factory
fails before: whatever the interleaving, once the loop has had as many steps
as components are left, a factory call has failed. -/
theorem local_failure_reached (env : Env) (st : State) (sid : String)
    (components : List Components) (bad : String)
    (hbad : ∀ tr, ∃ err, env.forComponent tr bad = .error err)
    (choices : List Nat) (r : LocalRun) (h : LocalInvF components r)
    (hq : factoryFailures r.trace ≠ []
      ∨ ((∃ x ∈ r.todo, x.Component = bad) ∧ r.todo.length ≤ choices.count 0)) :
    factoryFailures (localInterleave env st sid choices r).trace ≠ [] := by
  induction choices generalizing r with
  | nil =>
    simp only [localInterleave]
    rcases hq with hq | ⟨⟨x, hx, _⟩, hlen⟩
    · exact hq
    · simp at hlen
      rw [hlen] at hx
      cases hx
  | cons ch rest ih =>
    cases ch with
    | succ k =>
      simp only [localInterleave]
      apply ih _ (localGoStep_invF env st sid k components r h)
      rw [localGoStep_failures, (localGoStep_frame env st sid k r).1]
      rcases hq with hq | ⟨hx, hlen⟩
      · exact Or.inl hq
      · exact Or.inr ⟨hx, by simpa using hlen⟩
    | zero =>
      simp only [localInterleave]
      apply ih _ (localMainStep_invF env components r h)
      obtain ⟨_, _, i3⟩ := h
      rcases i3 with ⟨f1, _, f3⟩ | ⟨c, rest2, err, _, hf, hr, _⟩
      · rcases hq with hq | ⟨⟨x, hx, hxb⟩, hlen⟩
        · exact absurd f1 hq
        · unfold localMainStep
          cases hret : r.returned with
          | some res =>
            rw [f3 res hret] at hx
            cases hx
          | none =>
            simp only
            cases htodo : r.todo with
            | nil => rw [htodo] at hx; cases hx
            | cons c rest2 =>
              simp only
              cases hw : env.forComponent r.trace c.Component with
              | error err =>
                left
                simp [factoryFailures]
              | ok w =>
                right
                rw [htodo] at hx hlen
                simp only [List.length_cons, List.count_cons_self] at hlen
                refine ⟨?_, by simp only; omega⟩
                rcases List.mem_cons.1 hx with hxc | hxr
                · subst hxc
                  obtain ⟨err, herr⟩ := hbad r.trace
                  rw [hxb, herr] at hw
                  cases hw
                · exact ⟨x, hxr, hxb⟩
      · left
        have : localMainStep env r = r := by
          unfold localMainStep
          rw [hr]
        rw [this, hf]
        simp

/-- When the factory has no worker for one of the components, a run of
`LocalScheduler.Run` does meet a failing factory call. -/
theorem LocalScheduler_Run_meets_failure (ls : LocalScheduler) (json : JsonLib) (env : Env)
    (schedulingID : String) (choices : List Nat) (state : State)
    (components : List Components) (bad : Components)
    (hstate : localClusterState json ls.cluster = .ok state)
    (hcomps : state.GetComponents = .ok components)
    (hmem : bad ∈ components)
    (hbad : ∀ tr, ∃ err, env.forComponent tr bad.Component = .error err) :
    ∃ name err, Event.forComponent name (.error err)
      ∈ (ls.Run json env schedulingID choices).trace := by
  have hinit : LocalInvF components
      { trace := [], todo := components, goroutines := [], results := [], returned := none } := by
    refine ⟨by simp, by simp [reconcileOutcomes], Or.inl ⟨by simp [factoryFailures],
      by simp [factoryCalls], ?_⟩⟩
    intro res hres
    cases hres
  have hrun : ls.Run json env schedulingID choices
      = localInterleave env state schedulingID (choices ++ (runOut components.length ++ [0]))
          { trace := [], todo := components, goroutines := [], results := [],
            returned := none } := by
    simp only [LocalScheduler.Run, hstate, hcomps]
  have hne := local_failure_reached env state schedulingID components bad.Component hbad
    (choices ++ (runOut components.length ++ [0])) _ hinit
    (Or.inr ⟨⟨bad, hmem, rfl⟩, by
      simp only [List.count_append]
      have := count_zero_runOut components.length
      omega⟩)
  rw [← hrun] at hne
  obtain ⟨x, hx⟩ := List.exists_mem_of_ne_nil _ hne
  unfold factoryFailures at hx
  obtain ⟨e, he, hmatch⟩ := List.mem_filterMap.1 hx
  cases e with
  | forComponent name result =>
    cases result with
    | error err => exact ⟨name, err, he⟩
    | ok w => simp at hmatch
  | _ => simp at hmatch

/-! ## Theorems: Patcher -/

namespace Kubeclient

theorem attemptsOf_append (a b : List Call) :
    attemptsOf (a ++ b) = attemptsOf a ++ attemptsOf b := by
  simp [attemptsOf]

theorem sleepsOf_append (a b : List Call) : sleepsOf (a ++ b) = sleepsOf a ++ sleepsOf b := by
  simp [sleepsOf]

/-- Computing a patch touches the trace only to write warnings. -/
theorem computePatch_trace (p : Patcher) (lib : Lib) (original modified current : String)
    (tr : List Call) :
    ∃ ext, (p.computePatch lib original modified current tr).2 = tr ++ ext
      ∧ ∀ c ∈ ext, ∃ msg, c = .stderr msg := by
  have hnil : ∃ ext : List Call, tr = tr ++ ext ∧ ∀ c ∈ ext, ∃ msg, c = Call.stderr msg :=
    ⟨[], by simp, by simp⟩
  unfold Patcher.computePatch
  cases lib.schemeNew p.Mapping with
  | error err =>
    simp only
    split
    · cases lib.createThreeWayJSONMergePatch original modified current with
      | error err2 => simp only; split <;> exact hnil
      | ok patch => exact hnil
    · exact hnil
  | ok versionedObject =>
    simp only
    cases p.OpenapiSchema with
    | none =>
      simp only
      cases lib.newPatchMetaFromStruct versionedObject with
      | error err => exact hnil
      | ok meta =>
        simp only
        cases lib.createThreeWayMergePatch original modified current meta p.Overwrite <;>
          exact hnil
    | some resources =>
      simp only
      cases lib.lookupResource resources p.Mapping with
      | none =>
        simp only
        cases lib.newPatchMetaFromStruct versionedObject with
        | error err => exact hnil
        | ok meta =>
          simp only
          cases lib.createThreeWayMergePatch original modified current meta p.Overwrite <;>
            exact hnil
      | some schema =>
        simp only
        cases lib.createThreeWayMergePatch original modified current (.fromOpenAPI schema)
            p.Overwrite with
        | ok openapiPatch => exact hnil
        | error err =>
          simp only
          have hone : ∃ ext : List Call,
              tr ++ [Call.stderr ("warning: error calculating patch from openapi spec: "
                ++ err.msg ++ "\n")] = tr ++ ext ∧ ∀ c ∈ ext, ∃ msg, c = Call.stderr msg :=
            ⟨_, rfl, by simp⟩
          cases lib.newPatchMetaFromStruct versionedObject with
          | error err => exact hone
          | ok meta =>
            simp only
            cases lib.createThreeWayMergePatch original modified current meta p.Overwrite <;>
              exact hone

/-- A warning or a call of `Helper.Patch`: what one patch attempt may add to
the trace. -/
theorem patching_only (ext : List Call)
    (h : ∀ c ∈ ext, (∃ msg, c = .stderr msg) ∨ ∃ ns name pt data res, c = .patch ns name pt data res) :
    attemptsOf ext = [] ∧ sleepsOf ext = [] ∧ ∀ c ∈ ext, c.isDeleteOrCreate = false := by
  induction ext with
  | nil => simp [attemptsOf, sleepsOf]
  | cons x xs ih =>
    obtain ⟨i1, i2, i3⟩ := ih (fun c hc => h c (List.mem_cons_of_mem _ hc))
    rcases h x (List.mem_cons_self _ _) with ⟨msg, hx⟩ | ⟨ns, name, pt, data, res, hx⟩
    · subst hx
      refine ⟨?_, ?_, ?_⟩
      · simpa [attemptsOf] using i1
      · simpa [sleepsOf] using i2
      · intro c hc
        rcases List.mem_cons.1 hc with hc | hc
        · subst hc; rfl
        · exact i3 c hc
    · subst hx
      refine ⟨?_, ?_, ?_⟩
      · simpa [attemptsOf] using i1
      · simpa [sleepsOf] using i2
      · intro c hc
        rcases List.mem_cons.1 hc with hc | hc
        · subst hc; rfl
        · exact i3 c hc

theorem patchSimpleBody_trace (p : Patcher) (lib : Lib) (env : Cluster) (obj : Object)
    (modified ns name : String) (tr : List Call) :
    ∃ ext, (p.patchSimpleBody lib env obj modified ns name tr).2 = tr ++ ext
      ∧ ∀ c ∈ ext, (∃ msg, c = .stderr msg)
          ∨ ∃ ns name pt data res, c = .patch ns name pt data res := by
  have hnil : ∃ ext : List Call, tr = tr ++ ext ∧ ∀ c ∈ ext, (∃ msg, c = Call.stderr msg)
      ∨ ∃ ns name pt data res, c = Call.patch ns name pt data res := ⟨[], by simp, by simp⟩
  unfold Patcher.patchSimpleBody
  cases lib.encode obj with
  | error err => exact hnil
  | ok current =>
    simp only
    cases lib.getOriginalConfiguration obj with
    | error err => exact hnil
    | ok original =>
      simp only
      obtain ⟨ext, h1, h2⟩ := computePatch_trace p lib original modified current tr
      have hext : ∃ ext2 : List Call, tr ++ ext = tr ++ ext2
          ∧ ∀ c ∈ ext2, (∃ msg, c = Call.stderr msg)
            ∨ ∃ ns name pt data res, c = Call.patch ns name pt data res :=
        ⟨ext, rfl, fun c hc => Or.inl (h2 c hc)⟩
      cases hcp : p.computePatch lib original modified current tr with
      | mk res tr1 =>
        rw [hcp] at h1
        simp only at h1
        subst h1
        cases res with
        | error err => exact hext
        | ok tp =>
          obtain ⟨patchType, patch⟩ := tp
          simp only
          split
          · exact hext
          · split
            · exact hext
            · next patch1 _ =>
              refine ⟨ext ++ [.patch ns name patchType patch1
                (env.patch (tr ++ ext) ns name patchType patch1)], by simp, ?_⟩
              intro c hc
              rcases List.mem_append.1 hc with hc | hc
              · exact Or.inl (h2 c hc)
              · simp at hc
                exact Or.inr ⟨_, _, _, _, _, hc⟩

/-- What one call of `patchSimple` adds to the trace: no sleep, no deletion,
no creation, and one mark holding the error it returned. -/
theorem patchSimple_trace (p : Patcher) (lib : Lib) (env : Cluster) (obj : Object)
    (modified ns name : String) (tr : List Call) :
    ∃ ext, (p.patchSimple lib env obj modified ns name tr).2 = tr ++ ext
      ∧ attemptsOf ext = [(p.patchSimple lib env obj modified ns name tr).1.err]
      ∧ sleepsOf ext = []
      ∧ ∀ c ∈ ext, c.isDeleteOrCreate = false := by
  obtain ⟨ext, h1, h2⟩ := patchSimpleBody_trace p lib env obj modified ns name tr
  obtain ⟨a1, a2, a3⟩ := patching_only ext h2
  refine ⟨ext ++ [.attempt (p.patchSimpleBody lib env obj modified ns name tr).1.err], ?_, ?_,
    ?_, ?_⟩
  · simp [Patcher.patchSimple, h1]
  · rw [attemptsOf_append, a1]; simp [attemptsOf, Patcher.patchSimple]
  · rw [sleepsOf_append, a2]; simp [sleepsOf]
  · intro c hc
    rcases List.mem_append.1 hc with hc | hc
    · exact a3 c hc
    · simp at hc; subst hc; rfl

/-- The result of `patchSimple` does not depend on `Retries`. -/
theorem patchSimple_withDefaultRetries (p : Patcher) (lib : Lib) (env : Cluster) (obj : Object)
    (modified ns name : String) (tr : List Call) :
    p.withDefaultRetries.patchSimple lib env obj modified ns name tr
      = p.patchSimple lib env obj modified ns name tr := by
  unfold Patcher.withDefaultRetries
  split
  · rfl
  · rfl

/-- The retry loop, iteration by iteration. When it runs through: every
attempt but the last returned a conflict, the error held at the end is the
error of the last attempt, and every iteration but the one with counter 1
slept once. When a `Get` fails: every attempt so far returned a conflict. -/
theorem retryLoop_spec (p : Patcher) (lib : Lib) (env : Cluster) (modified ns name : String)
    (fuel : Nat) : ∀ (i : Int) (st : Attempt), 1 ≤ i →
    (∀ st2, p.retryLoop lib env modified ns name fuel i st = .ok st2 →
      ∃ ext, st2.trace = st.trace ++ ext
        ∧ sleepsOf ext = List.replicate
            ((attemptsOf ext).length - (if i ≤ 1 then 1 else 0)) backOffPeriod
        ∧ (∀ c ∈ ext, c.isDeleteOrCreate = false)
        ∧ (st.err :: attemptsOf ext).getLast? = some st2.err
        ∧ (∀ e ∈ (st.err :: attemptsOf ext).dropLast, IsConflict e = true))
    ∧ (∀ e tr2, p.retryLoop lib env modified ns name fuel i st = .error (e, tr2) →
      ∃ ext, tr2 = st.trace ++ ext
        ∧ (∀ c ∈ ext, c.isDeleteOrCreate = false)
        ∧ ∀ x ∈ st.err :: attemptsOf ext, IsConflict x = true) := by
  induction fuel with
  | zero =>
    intro i st _
    constructor
    · intro st2 h
      simp only [Patcher.retryLoop, Except.ok.injEq] at h
      subst h
      exact ⟨[], by simp, by simp [sleepsOf, attemptsOf], by simp, by simp [attemptsOf],
        by simp [attemptsOf]⟩
    · intro e tr2 h
      simp [Patcher.retryLoop] at h
  | succ fuel ih =>
    intro i st hi
    by_cases hcond : i ≤ p.Retries ∧ IsConflict st.err = true
    · have htr1 : (if i > triesBeforeBackOff then st.trace ++ [Call.sleep backOffPeriod]
          else st.trace)
          = st.trace ++ (if i > 1 then [Call.sleep backOffPeriod] else []) := by
        unfold triesBeforeBackOff
        split <;> simp
      cases hget : env.get (st.trace ++ (if i > 1 then [Call.sleep backOffPeriod] else []))
          ns name with
      | error getErr =>
        constructor
        · intro st2 h
          simp [Patcher.retryLoop, hcond, htr1, hget] at h
        · intro e tr2 h
          simp only [Patcher.retryLoop, hcond, htr1, hget, and_self, if_true, Except.error.injEq,
            Prod.mk.injEq] at h
          refine ⟨(if i > 1 then [Call.sleep backOffPeriod] else [])
            ++ [.get ns name (.error getErr)], ?_, ?_, ?_⟩
          · rw [← h.2]; simp
          · intro c hc
            rcases List.mem_append.1 hc with hc | hc
            · split at hc
              · simp at hc; subst hc; rfl
              · simp at hc
            · simp at hc; subst hc; rfl
          · intro x hx
            have : attemptsOf ((if i > 1 then [Call.sleep backOffPeriod] else [])
                ++ [.get ns name (.error getErr)]) = [] := by
              split <;> simp [attemptsOf]
            rw [this] at hx
            simp at hx
            subst hx
            exact hcond.2
      | ok current =>
        obtain ⟨extp, p1, p2, p3, p4⟩ := patchSimple_trace p lib env current modified ns name
          (st.trace ++ (if i > 1 then [Call.sleep backOffPeriod] else [])
            ++ [.get ns name (.ok current)])
        have hi2 : (1 : Int) ≤ i + 1 := by omega
        obtain ⟨ihok, iherr⟩ := ih (i + 1)
          { patchBytes := (p.patchSimple lib env current modified ns name
              (st.trace ++ (if i > 1 then [Call.sleep backOffPeriod] else [])
                ++ [.get ns name (.ok current)])).1.patch,
            patchObject := (p.patchSimple lib env current modified ns name
              (st.trace ++ (if i > 1 then [Call.sleep backOffPeriod] else [])
                ++ [.get ns name (.ok current)])).1.object,
            err := (p.patchSimple lib env current modified ns name
              (st.trace ++ (if i > 1 then [Call.sleep backOffPeriod] else [])
                ++ [.get ns name (.ok current)])).1.err,
            current := current,
            trace := (p.patchSimple lib env current modified ns name
              (st.trace ++ (if i > 1 then [Call.sleep backOffPeriod] else [])
                ++ [.get ns name (.ok current)])).2 } hi2
        have hstep : ∀ ext2 : List Call,
            attemptsOf ((if i > 1 then [Call.sleep backOffPeriod] else [])
                ++ [.get ns name (.ok current)] ++ extp ++ ext2)
              = (p.patchSimple lib env current modified ns name
                  (st.trace ++ (if i > 1 then [Call.sleep backOffPeriod] else [])
                    ++ [.get ns name (.ok current)])).1.err :: attemptsOf ext2 := by
          intro ext2
          rw [attemptsOf_append, attemptsOf_append, p2]
          split <;> simp [attemptsOf]
        have hdc : ∀ ext2 : List Call, (∀ c ∈ ext2, c.isDeleteOrCreate = false) →
            ∀ c ∈ (if i > 1 then [Call.sleep backOffPeriod] else [])
                ++ [.get ns name (.ok current)] ++ extp ++ ext2, c.isDeleteOrCreate = false := by
          intro ext2 h2 c hc
          rcases List.mem_append.1 hc with hc | hc
          · rcases List.mem_append.1 hc with hc | hc
            · rcases List.mem_append.1 hc with hc | hc
              · split at hc
                · simp at hc; subst hc; rfl
                · simp at hc
              · simp at hc; subst hc; rfl
            · exact p4 c hc
          · exact h2 c hc
        constructor
        · intro st2 h
          simp only [Patcher.retryLoop, hcond, htr1, hget, and_self, if_true] at h
          obtain ⟨ext2, e1, e2, e3, e4, e5⟩ := ihok st2 h
          simp only at e1 e4 e5
          refine ⟨(if i > 1 then [Call.sleep backOffPeriod] else [])
            ++ [.get ns name (.ok current)] ++ extp ++ ext2, ?_, ?_, hdc ext2 e3, ?_, ?_⟩
          · rw [e1, p1]; simp
          · rw [hstep, sleepsOf_append, sleepsOf_append, sleepsOf_append, p3, e2]
            have hn : ¬ (i + 1 ≤ 1) := by omega
            simp only [hn, if_false, Nat.sub_zero, List.length_cons]
            by_cases h1 : i > 1
            · have h1b : ¬ i ≤ 1 := by omega
              simp [h1, h1b, sleepsOf, List.replicate_succ]
            · have h1b : i ≤ 1 := by omega
              simp [h1, h1b, sleepsOf]
          · rw [hstep, List.getLast?_cons_cons]
            exact e4
          · rw [hstep]
            intro e he
            rw [List.dropLast_cons₂] at he
            rcases List.mem_cons.1 he with he | he
            · subst he; exact hcond.2
            · exact e5 e he
        · intro e tr2 h
          simp only [Patcher.retryLoop, hcond, htr1, hget, and_self, if_true] at h
          obtain ⟨ext2, e1, e2, e3⟩ := iherr e tr2 h
          simp only at e1 e3
          refine ⟨(if i > 1 then [Call.sleep backOffPeriod] else [])
            ++ [.get ns name (.ok current)] ++ extp ++ ext2, ?_, hdc ext2 e2, ?_⟩
          · rw [e1, p1]; simp
          · rw [hstep]
            intro x hx
            rcases List.mem_cons.1 hx with hx | hx
            · subst hx; exact hcond.2
            · exact e3 x hx
    · constructor
      · intro st2 h
        simp only [Patcher.retryLoop, hcond, if_false, Except.ok.injEq] at h
        subst h
        exact ⟨[], by simp, by simp [sleepsOf, attemptsOf], by simp, by simp [attemptsOf],
          by simp [attemptsOf]⟩
      · intro e tr2 h
        simp [Patcher.retryLoop, hcond] at h

theorem absent_trace (env : Cluster) (ns name : String) (tr : List Call) :
    (absent env ns name tr).2 = tr ++ [.get ns name (env.get tr ns name)] := by
  unfold absent
  cases env.get tr ns name with
  | error err => simp only; split <;> rfl
  | ok obj => rfl

theorem pollAbsent_trace (env : Cluster) (ns name : String) (n : Nat) (tr : List Call) :
    ∃ ext, (pollAbsent env ns name n tr).2 = tr ++ ext
      ∧ ∀ c ∈ ext, ∃ r, c = .get ns name r := by
  induction n generalizing tr with
  | zero => exact ⟨[], by simp [pollAbsent], by simp⟩
  | succ n ih =>
    have ha := absent_trace env ns name tr
    unfold pollAbsent
    cases hab : absent env ns name tr with
    | mk be tr1 =>
      rw [hab] at ha
      simp only at ha
      subst ha
      obtain ⟨b, e⟩ := be
      cases e with
      | some err => exact ⟨[.get ns name (env.get tr ns name)], by simp, by simp⟩
      | none =>
        cases b with
        | true => exact ⟨[.get ns name (env.get tr ns name)], by simp, by simp⟩
        | false =>
          simp only
          obtain ⟨ext, h1, h2⟩ := ih (tr ++ [.get ns name (env.get tr ns name)])
          refine ⟨.get ns name (env.get tr ns name) :: ext, by simp [h1], ?_⟩
          intro c hc
          rcases List.mem_cons.1 hc with hc | hc
          · exact ⟨_, hc⟩
          · exact h2 c hc

theorem delete_eq (p : Patcher) (env : Cluster) (ns name : String) (tr : List Call) :
    p.delete env ns name tr
      = (env.deleteWithOptions tr ns name (asDeleteOptions p.Cascade p.GracePeriod),
          tr ++ [.deleteWithOptions ns name (asDeleteOptions p.Cascade p.GracePeriod)
            (env.deleteWithOptions tr ns name (asDeleteOptions p.Cascade p.GracePeriod))]) := rfl

/-- What `deleteAndCreate` adds to the trace starts with the deletion and
holds, after it, only calls of `Get` and `Create`. -/
theorem deleteAndCreate_trace (p : Patcher) (lib : Lib) (env : Cluster) (original : Object)
    (modified ns name : String) (tr : List Call) :
    ∃ ext, (p.deleteAndCreate lib env original modified ns name tr).2
        = tr ++ .deleteWithOptions ns name (asDeleteOptions p.Cascade p.GracePeriod)
            (env.deleteWithOptions tr ns name (asDeleteOptions p.Cascade p.GracePeriod)) :: ext
      ∧ ∀ c ∈ ext, (∃ r, c = .get ns name r) ∨ ∃ o r, c = .create ns true o r := by
  unfold Patcher.deleteAndCreate
  rw [delete_eq]
  cases hd : env.deleteWithOptions tr ns name (asDeleteOptions p.Cascade p.GracePeriod) with
  | some err => exact ⟨[], by simp, by simp⟩
  | none =>
    simp only
    obtain ⟨extp, h1, h2⟩ := pollAbsent_trace env ns name (env.pollsWithin p.Timeout + 1)
      (tr ++ [.deleteWithOptions ns name (asDeleteOptions p.Cascade p.GracePeriod) none])
    cases hp : pollAbsent env ns name (env.pollsWithin p.Timeout + 1)
      (tr ++ [.deleteWithOptions ns name (asDeleteOptions p.Cascade p.GracePeriod) none]) with
    | mk perr tr2 =>
      rw [hp] at h1
      simp only at h1
      subst h1
      have hbase : ∀ c ∈ extp, (∃ r, c = Call.get ns name r)
          ∨ ∃ o r, c = Call.create ns true o r := fun c hc => Or.inl (h2 c hc)
      cases perr with
      | some err => exact ⟨extp, by simp, hbase⟩
      | none =>
        simp only
        cases lib.decode modified with
        | error err => exact ⟨extp, by simp, hbase⟩
        | ok versionedObject =>
          simp only
          generalize env.create _ ns true versionedObject = c1
          generalize env.create _ ns true original = c2
          have hone : ∀ c ∈ extp ++ [Call.create ns true versionedObject c1],
              (∃ r, c = Call.get ns name r) ∨ ∃ o r, c = Call.create ns true o r := by
            intro c hc
            rcases List.mem_append.1 hc with hc | hc
            · exact hbase c hc
            · simp at hc; exact Or.inr ⟨_, _, hc⟩
          have htwo : ∀ c ∈ extp ++ [Call.create ns true versionedObject c1,
              Call.create ns true original c2],
              (∃ r, c = Call.get ns name r) ∨ ∃ o r, c = Call.create ns true o r := by
            intro c hc
            rcases List.mem_append.1 hc with hc | hc
            · exact hbase c hc
            · simp at hc
              rcases hc with hc | hc
              · exact Or.inr ⟨_, _, hc⟩
              · exact Or.inr ⟨_, _, hc⟩
          cases c1.2 with
          | none => exact ⟨_, by simp, hone⟩
          | some err =>
            simp only
            cases c2.2 with
            | none => exact ⟨_, by simp, htwo⟩
            | some err2 => exact ⟨_, by simp, htwo⟩

theorem deleteAndCreate_quiet (p : Patcher) (lib : Lib) (env : Cluster) (original : Object)
    (modified ns name : String) (tr : List Call) :
    attemptsOf (p.deleteAndCreate lib env original modified ns name tr).2 = attemptsOf tr
    ∧ sleepsOf (p.deleteAndCreate lib env original modified ns name tr).2 = sleepsOf tr := by
  obtain ⟨ext, h1, h2⟩ := deleteAndCreate_trace p lib env original modified ns name tr
  have hq : attemptsOf ext = [] ∧ sleepsOf ext = [] := by
    clear h1
    induction ext with
    | nil => simp [attemptsOf, sleepsOf]
    | cons x xs ih =>
      obtain ⟨i1, i2⟩ := ih (fun c hc => h2 c (List.mem_cons_of_mem _ hc))
      rcases h2 x (List.mem_cons_self _ _) with ⟨r, hx⟩ | ⟨o, r, hx⟩
      · subst hx
        exact ⟨by simpa [attemptsOf] using i1, by simpa [sleepsOf] using i2⟩
      · subst hx
        exact ⟨by simpa [attemptsOf] using i1, by simpa [sleepsOf] using i2⟩
  rw [h1]
  constructor
  · rw [attemptsOf_append]
    have : attemptsOf (Call.deleteWithOptions ns name (asDeleteOptions p.Cascade p.GracePeriod)
        (env.deleteWithOptions tr ns name (asDeleteOptions p.Cascade p.GracePeriod)) :: ext)
        = attemptsOf ext := by simp [attemptsOf]
    rw [this, hq.1, List.append_nil]
  · rw [sleepsOf_append]
    have : sleepsOf (Call.deleteWithOptions ns name (asDeleteOptions p.Cascade p.GracePeriod)
        (env.deleteWithOptions tr ns name (asDeleteOptions p.Cascade p.GracePeriod)) :: ext)
        = sleepsOf ext := by simp [sleepsOf]
    rw [this, hq.2, List.append_nil]

/-- The loop does nothing when the error at hand is no conflict. -/
theorem retryLoop_no_conflict (p : Patcher) (lib : Lib) (env : Cluster)
    (modified ns name : String) (fuel : Nat) (i : Int) (st : Attempt)
    (h : IsConflict st.err = false) :
    p.retryLoop lib env modified ns name fuel i st = .ok st := by
  cases fuel with
  | zero => rfl
  | succ fuel => simp [Patcher.retryLoop, h]

/-- The bound `Patch` passes to the loop is never what ends it: a larger
bound gives the same run. -/
theorem retryLoop_fuel (p : Patcher) (lib : Lib) (env : Cluster) (modified ns name : String)
    (fuel extra : Nat) : ∀ (i : Int) (st : Attempt), p.Retries + 1 ≤ i + fuel →
    p.retryLoop lib env modified ns name (fuel + extra) i st
      = p.retryLoop lib env modified ns name fuel i st := by
  induction fuel with
  | zero =>
    intro i st h
    cases extra with
    | zero => rfl
    | succ extra =>
      have : ¬ i ≤ p.Retries := by omega
      simp [Patcher.retryLoop, this]
  | succ fuel ih =>
    intro i st h
    have hsucc : fuel + 1 + extra = (fuel + extra) + 1 := by omega
    rw [hsucc]
    simp only [Patcher.retryLoop]
    split
    · cases env.get (if i > triesBeforeBackOff then st.trace ++ [Call.sleep backOffPeriod]
          else st.trace) ns name with
      | error getErr => rfl
      | ok current =>
        simp only
        exact ih (i + 1) _ (by push_cast at h ⊢; omega)
    · rfl

/-- The bound `attempts` passes, `Retries` itself, is enough: any larger
bound gives the same run of the loop. -/
theorem retryLoop_bound_enough (p : Patcher) (lib : Lib) (env : Cluster)
    (modified ns name : String) (extra : Nat) (st : Attempt) :
    p.retryLoop lib env modified ns name (p.Retries.toNat + extra) 1 st
      = p.retryLoop lib env modified ns name p.Retries.toNat 1 st :=
  retryLoop_fuel p lib env modified ns name p.Retries.toNat extra 1 st (by omega)

/-- C4. When the three-way merge computed on the first attempt is the empty
patch, whatever the resource version override, `Patch` returns that patch,
the object it was given and no error, and what it adds to the trace holds no
call of the resource helper (no `Get`, `Patch`, `Create` or
`DeleteWithOptions`) and no sleep. -/
theorem Patch_empty_patch (p : Patcher) (lib : Lib) (env : Cluster) (current : Object)
    (modified ns name : String) (tr : List Call) (cur orig : String) (patchType : PatchType)
    (henc : lib.encode current = .ok cur)
    (horig : lib.getOriginalConfiguration current = .ok orig)
    (hpatch : (p.computePatch lib orig modified cur tr).1 = .ok (patchType, "\x7b\x7d")) :
    (p.Patch lib env current modified ns name tr).1
      = { patch := some "\x7b\x7d", object := some current, err := none }
    ∧ ∃ ext, (p.Patch lib env current modified ns name tr).2.2 = tr ++ ext
      ∧ (∀ c ∈ ext, c.isHelperCall = false) ∧ sleepsOf ext = [] := by
  obtain ⟨extc, c1, c2⟩ := computePatch_trace p lib orig modified cur tr
  have hbody : p.patchSimpleBody lib env current modified ns name tr
      = ({ patch := some "\x7b\x7d", object := some current, err := none }, tr ++ extc) := by
    unfold Patcher.patchSimpleBody
    simp only [henc, horig]
    cases hcp : p.computePatch lib orig modified cur tr with
    | mk res tr1 =>
      rw [hcp] at hpatch c1
      simp only at hpatch c1
      subst hpatch c1
      simp
  have hsimple : p.patchSimple lib env current modified ns name tr
      = ({ patch := some "\x7b\x7d", object := some current, err := none },
          tr ++ extc ++ [.attempt none]) := by
    simp [Patcher.patchSimple, hbody]
  have hatt : p.attempts lib env current modified ns name tr
      = .ok { patchBytes := some "\x7b\x7d", patchObject := some current, err := none,
              current := current, trace := tr ++ extc ++ [.attempt none] } := by
    simp only [Patcher.attempts, hsimple]
    exact retryLoop_no_conflict _ lib env modified ns name _ 1 _ rfl
  have hP : p.Patch lib env current modified ns name tr
      = ({ patch := some "\x7b\x7d", object := some current, err := none },
          p.withDefaultRetries, tr ++ extc ++ [.attempt none]) := by
    simp [Patcher.Patch, hatt]
  rw [hP]
  refine ⟨rfl, extc ++ [.attempt none], by simp, ?_, ?_⟩
  · intro c hc
    rcases List.mem_append.1 hc with hc | hc
    · obtain ⟨msg, hm⟩ := c2 c hc
      subst hm; rfl
    · simp at hc; subst hc; rfl
  · rw [sleepsOf_append]
    have : sleepsOf extc = [] :=
      (patching_only extc (fun c hc => Or.inl (c2 c hc))).2.1
    rw [this]; simp [sleepsOf]

/-- The specification's scenario for C4: the desired object is the live one. -/
theorem Patch_empty_patch_witness :
    ((newPatcher "gvk").Patch plainLib twoConflictsCluster { handle := "live" } "live" "ns" "n"
        []).1 = { patch := some "\x7b\x7d", object := some { handle := "live" }, err := none }
    ∧ ∃ ext, ((newPatcher "gvk").Patch plainLib twoConflictsCluster { handle := "live" } "live"
        "ns" "n" []).2.2 = [] ++ ext
      ∧ (∀ c ∈ ext, c.isHelperCall = false) ∧ sleepsOf ext = [] :=
  Patch_empty_patch (newPatcher "gvk") plainLib twoConflictsCluster { handle := "live" } "live"
    "ns" "n" [] "live" "live" .MergePatchType rfl rfl (by decide)

/-- C5. In `deleteAndCreate`, when the deletion and the poll for absence
succeed, the desired text decodes, and creating the desired object fails with
`e`: the trace goes on with exactly one more call, the creation of the
original object. If that call fails with `e2`, the error returned has a
message made of text, the message of `e`, text, and the message of `e2`. If it
succeeds, the error returned is `e` itself and the object returned is the one
the second creation answered with. -/
theorem deleteAndCreate_rollback (p : Patcher) (lib : Lib) (env : Cluster) (original : Object)
    (modified ns name : String) (tr tr1 tr2 : List Call) (desired : Object) (e : Err)
    (hdel : p.delete env ns name tr = (none, tr1))
    (hpoll : pollAbsent env ns name (env.pollsWithin p.Timeout + 1) tr1 = (none, tr2))
    (hdec : lib.decode modified = .ok desired)
    (hcreate : (env.create tr2 ns true desired).2 = some e) :
    (p.deleteAndCreate lib env original modified ns name tr).2
      = tr2 ++ [.create ns true desired (env.create tr2 ns true desired),
          .create ns true original
            (env.create (tr2 ++ [.create ns true desired (env.create tr2 ns true desired)])
              ns true original)]
    ∧ (∀ e2, (env.create (tr2 ++ [.create ns true desired (env.create tr2 ns true desired)])
          ns true original).2 = some e2 →
        ∃ err, (p.deleteAndCreate lib env original modified ns name tr).1.err = some err
          ∧ ∃ before between, err.msg = before ++ e.msg ++ between ++ e2.msg)
    ∧ ((env.create (tr2 ++ [.create ns true desired (env.create tr2 ns true desired)])
          ns true original).2 = none →
        (p.deleteAndCreate lib env original modified ns name tr).1.err = some e
        ∧ (p.deleteAndCreate lib env original modified ns name tr).1.object
          = (env.create (tr2 ++ [.create ns true desired (env.create tr2 ns true desired)])
              ns true original).1) := by
  unfold Patcher.deleteAndCreate
  simp only [hdel, hpoll, hdec, hcreate]
  cases hre : (env.create (tr2 ++ [.create ns true desired (env.create tr2 ns true desired)])
      ns true original).2 with
  | none =>
    refine ⟨by simp, ?_, ?_⟩
    · intro e2 h2; cases h2
    · intro _; exact ⟨rfl, rfl⟩
  | some e2 =>
    refine ⟨by simp, ?_, ?_⟩
    · intro e3 h3
      cases h3
      exact ⟨bothFailed e e2, rfl, _, _, rfl⟩
    · intro h; cases h

/-- A forced patch on a cluster where every patch conflicts and nothing can
be created: both creations fail. -/
theorem deleteAndCreate_rollback_witness :
    ∃ err, ((newPatcher "gvk").deleteAndCreate plainLib stubbornCluster { handle := "live" }
        "desired" "ns" "n" []).1.err = some err
      ∧ ∃ before between,
          err.msg = before ++ "cannot create desired" ++ between ++ "cannot create live" :=
  (deleteAndCreate_rollback (newPatcher "gvk") plainLib stubbornCluster { handle := "live" }
    "desired" "ns" "n" []
    [.deleteWithOptions "ns" "n" (asDeleteOptions true (-1)) none]
    [.deleteWithOptions "ns" "n" (asDeleteOptions true (-1)) none,
     .get "ns" "n" (.error { reason := .notFound, msg := "not found" })]
    { handle := "desired" } { reason := .other, msg := "cannot create desired" }
    rfl rfl rfl rfl).2.1 { reason := .other, msg := "cannot create live" } rfl

/-- The first attempt and the retry loop together. -/
theorem attempts_spec (p : Patcher) (lib : Lib) (env : Cluster) (current : Object)
    (modified ns name : String) (tr : List Call) :
    (∀ st, p.attempts lib env current modified ns name tr = .ok st →
      ∃ ext es, st.trace = tr ++ ext
        ∧ attemptsOf ext = (p.patchSimple lib env current modified ns name tr).1.err :: es
        ∧ sleepsOf ext = List.replicate (es.length - 1) backOffPeriod
        ∧ (∀ c ∈ ext, c.isDeleteOrCreate = false)
        ∧ ((p.patchSimple lib env current modified ns name tr).1.err :: es).getLast?
            = some st.err
        ∧ (∀ e ∈ ((p.patchSimple lib env current modified ns name tr).1.err :: es).dropLast,
            IsConflict e = true))
    ∧ (∀ e tr2, p.attempts lib env current modified ns name tr = .error (e, tr2) →
      ∃ ext es, tr2 = tr ++ ext
        ∧ attemptsOf ext = (p.patchSimple lib env current modified ns name tr).1.err :: es
        ∧ (∀ c ∈ ext, c.isDeleteOrCreate = false)
        ∧ ∀ x ∈ (p.patchSimple lib env current modified ns name tr).1.err :: es,
            IsConflict x = true) := by
  obtain ⟨extp, p1, p2, p3, p4⟩ := patchSimple_trace p lib env current modified ns name tr
  obtain ⟨hok, herr⟩ := retryLoop_spec p.withDefaultRetries lib env modified ns name
    p.withDefaultRetries.Retries.toNat 1
    { patchBytes := (p.patchSimple lib env current modified ns name tr).1.patch,
      patchObject := (p.patchSimple lib env current modified ns name tr).1.object,
      err := (p.patchSimple lib env current modified ns name tr).1.err,
      current := current,
      trace := (p.patchSimple lib env current modified ns name tr).2 } (le_refl 1)
  constructor
  · intro st hst
    obtain ⟨ext, e1, e2, e3, e4, e5⟩ := hok st hst
    simp only at e1 e4 e5
    refine ⟨extp ++ ext, attemptsOf ext, ?_, ?_, ?_, ?_, e4, e5⟩
    · rw [e1, p1, List.append_assoc]
    · rw [attemptsOf_append, p2]; rfl
    · rw [sleepsOf_append, p3, e2]; simp
    · intro c hc
      rcases List.mem_append.1 hc with hc | hc
      · exact p4 c hc
      · exact e3 c hc
  · intro e tr2 hst
    obtain ⟨ext, e1, e2, e3⟩ := herr e tr2 hst
    simp only at e1 e3
    refine ⟨extp ++ ext, attemptsOf ext, ?_, ?_, ?_, e3⟩
    · rw [e1, p1, List.append_assoc]
    · rw [attemptsOf_append, p2]; rfl
    · intro c hc
      rcases List.mem_append.1 hc with hc | hc
      · exact p4 c hc
      · exact e2 c hc

theorem invalid_not_conflict (e : Option Err) (h : IsInvalid e = true) : IsConflict e = false := by
  cases e with
  | none => rfl
  | some err =>
    cases hr : err.reason <;> simp [IsInvalid, IsConflict, hr] at h ⊢

theorem conflict_isSome (e : Option Err) (h : IsConflict e = true) : e.isSome = true := by
  cases e with
  | none => simp [IsConflict] at h
  | some err => rfl

theorem invalid_isSome (e : Option Err) (h : IsInvalid e = true) : e.isSome = true := by
  cases e with
  | none => simp [IsInvalid] at h
  | some err => rfl

/-- The two ways `Patch` ends once the attempts are through. -/
theorem Patch_after_attempts (p : Patcher) (lib : Lib) (env : Cluster) (current : Object)
    (modified ns name : String) (tr : List Call) (st : Attempt)
    (hst : p.attempts lib env current modified ns name tr = .ok st) :
    (p.Force = true ∧ (IsConflict st.err = true ∨ IsInvalid st.err = true) →
      p.Patch lib env current modified ns name tr
        = ((p.withDefaultRetries.deleteAndCreate lib env st.current modified ns name st.trace).1,
            p.withDefaultRetries,
            (p.withDefaultRetries.deleteAndCreate lib env st.current modified ns name
              st.trace).2))
    ∧ (¬ (p.Force = true ∧ (IsConflict st.err = true ∨ IsInvalid st.err = true)) →
      p.Patch lib env current modified ns name tr
        = ({ patch := st.patchBytes, object := st.patchObject, err := st.err },
            p.withDefaultRetries, st.trace)) := by
  have hforce : p.withDefaultRetries.Force = p.Force := by
    unfold Patcher.withDefaultRetries; split <;> rfl
  constructor
  · rintro ⟨hf, hc⟩
    have hsome : st.err.isSome = true := by
      rcases hc with hc | hc
      · exact conflict_isSome _ hc
      · exact invalid_isSome _ hc
    have hor : (IsConflict st.err || IsInvalid st.err) = true := by
      rcases hc with hc | hc <;> simp [hc]
    simp [Patcher.Patch, hst, hforce, hf, hsome, hor]
  · intro hn
    have hcond : (st.err.isSome && (IsConflict st.err || IsInvalid st.err)
        && p.withDefaultRetries.Force) = false := by
      rw [hforce]
      cases hf : p.Force with
      | false => simp
      | true =>
        have : ¬ (IsConflict st.err = true ∨ IsInvalid st.err = true) := fun h => hn ⟨hf, h⟩
        have h1 : IsConflict st.err = false := by
          cases h : IsConflict st.err
          · rfl
          · exact absurd (Or.inl h) this
        have h2 : IsInvalid st.err = false := by
          cases h : IsInvalid st.err
          · rfl
          · exact absurd (Or.inr h) this
        simp [h1, h2]
    simp [Patcher.Patch, hst, hcond]

/-- C6. Take a call of `Patch` whose attempts run through (no `Get` of the
retry loop fails) and end in the state `st`. Then `st.err` is the error of the
last attempt; what `Patch` adds to the trace holds a deletion or a creation
exactly when `Force` is set and `st.err` is a conflict or an invalid error,
and in that case `Patch` is `deleteAndCreate` run from `st`; otherwise `Patch`
adds nothing after the attempts and returns the patch, the object and the
error of the last attempt unchanged. An invalid error on the first attempt
ends the attempts there: no `Get`, no second attempt. -/
theorem Patch_force_gate (p : Patcher) (lib : Lib) (env : Cluster) (current : Object)
    (modified ns name : String) (tr : List Call) (st : Attempt)
    (hst : p.attempts lib env current modified ns name tr = .ok st) :
    (∃ es, attemptsOf st.trace = attemptsOf tr ++ es ∧ es.getLast? = some st.err)
    ∧ (∃ ext, (p.Patch lib env current modified ns name tr).2.2 = tr ++ ext
        ∧ ((∃ c ∈ ext, c.isDeleteOrCreate = true)
            ↔ (p.Force = true ∧ (IsConflict st.err = true ∨ IsInvalid st.err = true))))
    ∧ (p.Force = true ∧ (IsConflict st.err = true ∨ IsInvalid st.err = true) →
        ((p.Patch lib env current modified ns name tr).1,
          (p.Patch lib env current modified ns name tr).2.2)
          = p.withDefaultRetries.deleteAndCreate lib env st.current modified ns name st.trace)
    ∧ (¬ (p.Force = true ∧ (IsConflict st.err = true ∨ IsInvalid st.err = true)) →
        (p.Patch lib env current modified ns name tr).1
          = { patch := st.patchBytes, object := st.patchObject, err := st.err }
        ∧ (p.Patch lib env current modified ns name tr).2.2 = st.trace)
    ∧ (IsInvalid (p.patchSimple lib env current modified ns name tr).1.err = true →
        st.trace = (p.patchSimple lib env current modified ns name tr).2
        ∧ st.err = (p.patchSimple lib env current modified ns name tr).1.err) := by
  obtain ⟨ext, es, a1, a2, _, a4, a5, _⟩ :=
    (attempts_spec p lib env current modified ns name tr).1 st hst
  obtain ⟨hyes, hno⟩ := Patch_after_attempts p lib env current modified ns name tr st hst
  refine ⟨⟨_, by rw [a1, attemptsOf_append, a2], a5⟩, ?_, ?_, ?_, ?_⟩
  · by_cases hc : p.Force = true ∧ (IsConflict st.err = true ∨ IsInvalid st.err = true)
    · obtain ⟨extd, d1, _⟩ := deleteAndCreate_trace p.withDefaultRetries lib env st.current
        modified ns name st.trace
      refine ⟨ext ++ .deleteWithOptions ns name
          (asDeleteOptions p.withDefaultRetries.Cascade p.withDefaultRetries.GracePeriod)
          (env.deleteWithOptions st.trace ns name
            (asDeleteOptions p.withDefaultRetries.Cascade p.withDefaultRetries.GracePeriod))
          :: extd, ?_, ?_⟩
      · rw [hyes hc]
        simp only
        rw [d1, a1, List.append_assoc]
      · constructor
        · intro _; exact hc
        · intro _
          exact ⟨_, List.mem_append_right _ (List.mem_cons_self _ _), rfl⟩
    · refine ⟨ext, ?_, ?_⟩
      · rw [hno hc]; exact a1
      · constructor
        · rintro ⟨c, hmem, hdc⟩
          rw [a4 c hmem] at hdc
          cases hdc
        · intro h; exact absurd h hc
  · intro hc
    rw [hyes hc]
  · intro hc
    rw [hno hc]
    exact ⟨rfl, rfl⟩
  · intro hinv
    have hnc := invalid_not_conflict _ hinv
    have := retryLoop_no_conflict p.withDefaultRetries lib env modified ns name
      p.withDefaultRetries.Retries.toNat 1
      { patchBytes := (p.patchSimple lib env current modified ns name tr).1.patch,
        patchObject := (p.patchSimple lib env current modified ns name tr).1.object,
        err := (p.patchSimple lib env current modified ns name tr).1.err,
        current := current,
        trace := (p.patchSimple lib env current modified ns name tr).2 } hnc
    unfold Patcher.attempts at hst
    simp only at hst
    rw [this] at hst
    cases hst
    exact ⟨rfl, rfl⟩

/-- A patcher without `Force` on a cluster that calls the patch invalid: one
attempt, no deletion, no creation, the invalid error handed back. -/
theorem Patch_force_gate_witness :
    ((newPatcher "gvk").Patch plainLib invalidCluster { handle := "live" } "desired" "ns" "n"
        []).1
      = { patch := some "desired", object := none,
          err := some { reason := .invalid, msg := "field is immutable" } }
    ∧ ((newPatcher "gvk").Patch plainLib invalidCluster { handle := "live" } "desired" "ns" "n"
        []).2.2
      = [.patch "ns" "n" .MergePatchType "desired"
            (none, some { reason := .invalid, msg := "field is immutable" }),
         .attempt (some { reason := .invalid, msg := "field is immutable" })] :=
  (Patch_force_gate (newPatcher "gvk") plainLib invalidCluster { handle := "live" } "desired"
    "ns" "n" [] invalidOutcome (by decide)).2.2.2.1 (by decide)

/-- C7. Take a call of `Patch` whose attempts returned, in order, the
errors `confs` and then an error (or `nil`) `e` that is no conflict. Then the
errors `confs` are conflicts, and the back-off clock was asked to sleep
`confs.length - 1` times, each time for one second: none before the first
retry, one before every later retry, and none at all when the first attempt
did not conflict. -/
theorem Patch_sleeps (p : Patcher) (lib : Lib) (env : Cluster) (current : Object)
    (modified ns name : String) (tr : List Call) (confs : List (Option Err)) (e : Option Err)
    (hatt : attemptsOf (p.Patch lib env current modified ns name tr).2.2
      = attemptsOf tr ++ (confs ++ [e]))
    (he : IsConflict e = false) :
    sleepsOf (p.Patch lib env current modified ns name tr).2.2
      = sleepsOf tr ++ List.replicate (confs.length - 1) 1000000000
    ∧ ∀ c ∈ confs, IsConflict c = true := by
  obtain ⟨hok, herr⟩ := attempts_spec p lib env current modified ns name tr
  cases hst : p.attempts lib env current modified ns name tr with
  | error x =>
    obtain ⟨getErr, tr2⟩ := x
    obtain ⟨ext, es, b1, b2, _, b4⟩ := herr getErr tr2 hst
    have hP : (p.Patch lib env current modified ns name tr).2.2 = tr2 := by
      simp [Patcher.Patch, hst]
    rw [hP, b1, attemptsOf_append, b2] at hatt
    have heq := List.append_cancel_left hatt
    have hmem : e ∈ (p.patchSimple lib env current modified ns name tr).1.err :: es := by
      rw [heq]; simp
    rw [b4 e hmem] at he
    cases he
  | ok st =>
    obtain ⟨ext, es, a1, a2, a3, _, _, a6⟩ := hok st hst
    obtain ⟨hyes, hno⟩ := Patch_after_attempts p lib env current modified ns name tr st hst
    have hboth : attemptsOf (p.Patch lib env current modified ns name tr).2.2
          = attemptsOf st.trace
        ∧ sleepsOf (p.Patch lib env current modified ns name tr).2.2 = sleepsOf st.trace := by
      by_cases hc : p.Force = true ∧ (IsConflict st.err = true ∨ IsInvalid st.err = true)
      · rw [hyes hc]
        exact deleteAndCreate_quiet p.withDefaultRetries lib env st.current modified ns name
          st.trace
      · rw [hno hc]
        exact ⟨rfl, rfl⟩
    rw [hboth.1, a1, attemptsOf_append, a2] at hatt
    have heq := List.append_cancel_left hatt
    have hlen : es.length = confs.length := by
      have := congrArg List.length heq
      simp at this
      exact this
    constructor
    · rw [hboth.2, a1, sleepsOf_append, a3, hlen]
      rfl
    · rw [heq, List.dropLast_concat] at a6
      exact a6

/-- The specification's scenario: conflicts on the first and on the second
attempt, success on the third, one sleep of one second. -/
theorem Patch_sleeps_witness :
    sleepsOf ((newPatcher "gvk").Patch plainLib twoConflictsCluster { handle := "live" }
        "desired" "ns" "n" []).2.2 = [1000000000] :=
  (Patch_sleeps (newPatcher "gvk") plainLib twoConflictsCluster { handle := "live" } "desired"
    "ns" "n" [] [some conflictErr, some conflictErr] none (by decide) (by decide)).1

/-! ### The retry loop with Go's wrapping counter -/

theorem wrapInt64_of_range (x : Int) (h1 : -9223372036854775808 ≤ x)
    (h2 : x ≤ 9223372036854775807) : wrapInt64 x = x := by
  unfold wrapInt64
  omega

theorem wrapInt64_range (x : Int) :
    -9223372036854775808 ≤ wrapInt64 x ∧ wrapInt64 x ≤ 9223372036854775807 := by
  unfold wrapInt64
  omega

/-- Below the largest `int` the two embeddings of the loop agree: the
wrapping loop, granted one evaluation of its condition more than the
iterations the other one may make, stops with the same outcome. -/
theorem retryLoopInt64_eq (p : Patcher) (lib : Lib) (env : Cluster) (modified ns name : String)
    (hmax : p.Retries < maxInt64) (fuel : Nat) :
    ∀ (i : Int) (st : Attempt), -9223372036854775808 ≤ i → p.Retries + 1 ≤ i + fuel →
    p.retryLoopInt64 lib env modified ns name (fuel + 1) i st
      = some (p.retryLoop lib env modified ns name fuel i st) := by
  unfold maxInt64 at hmax
  induction fuel with
  | zero =>
    intro i st _ hi
    have : ¬ i ≤ p.Retries := by omega
    simp [Patcher.retryLoopInt64, Patcher.retryLoop, this]
  | succ fuel ih =>
    intro i st hlo hi
    simp only [Patcher.retryLoop]
    rw [Patcher.retryLoopInt64]
    by_cases hcond : i ≤ p.Retries ∧ IsConflict st.err = true
    · cases hg : env.get (if i > triesBeforeBackOff then st.trace ++ [Call.sleep backOffPeriod]
          else st.trace) ns name with
      | error getErr => simp only [hcond, and_self, if_true, hg]
      | ok current =>
        simp only [hcond, and_self, if_true, hg]
        rw [wrapInt64_of_range (i + 1) (by omega) (by omega)]
        exact ih (i + 1) _ (by omega) (by push_cast at hi ⊢; omega)
    · simp only [hcond, if_false]

/-- Below the largest `int`, `Patch` as embedded with a mathematical counter
is `Patch` with Go's counter. -/
theorem PatchInt64_eq (p : Patcher) (lib : Lib) (env : Cluster) (current : Object)
    (modified ns name : String) (tr : List Call) (hmax : p.Retries < maxInt64) :
    p.PatchInt64 lib env current modified ns name tr (p.withDefaultRetries.Retries.toNat + 1)
      = some (p.Patch lib env current modified ns name tr) := by
  have hmax1 : p.withDefaultRetries.Retries < maxInt64 := by
    unfold Patcher.withDefaultRetries
    split
    · simp [maxPatchRetry, maxInt64]
    · exact hmax
  have hloop := retryLoopInt64_eq p.withDefaultRetries lib env modified ns name hmax1
    p.withDefaultRetries.Retries.toNat 1
    { patchBytes := (p.patchSimple lib env current modified ns name tr).1.patch,
      patchObject := (p.patchSimple lib env current modified ns name tr).1.object,
      err := (p.patchSimple lib env current modified ns name tr).1.err,
      current := current,
      trace := (p.patchSimple lib env current modified ns name tr).2 }
    (by omega) (by omega)
  unfold Patcher.PatchInt64 Patcher.Patch Patcher.attempts
  simp only [hloop]
  cases p.withDefaultRetries.retryLoop lib env modified ns name
      p.withDefaultRetries.Retries.toNat 1
      { patchBytes := (p.patchSimple lib env current modified ns name tr).1.patch,
        patchObject := (p.patchSimple lib env current modified ns name tr).1.object,
        err := (p.patchSimple lib env current modified ns name tr).1.err,
        current := current,
        trace := (p.patchSimple lib env current modified ns name tr).2 } with
  | error x => rfl
  | ok st => simp only; split <;> rfl

/-- With `Retries` the largest `int`, every attempt in conflict and every
`Get` answered, the loop with Go's counter is still running after any number
of evaluations of its condition: no value of the counter exceeds `Retries`. -/
theorem retryLoopInt64_never_ends (p : Patcher) (lib : Lib) (env : Cluster)
    (modified ns name : String) (hmax : p.Retries = maxInt64)
    (hconf : ∀ obj tr, IsConflict (p.patchSimple lib env obj modified ns name tr).1.err = true)
    (hget : ∀ tr, ∃ obj, env.get tr ns name = .ok obj) (steps : Nat) :
    ∀ (i : Int) (st : Attempt), i ≤ 9223372036854775807 → IsConflict st.err = true →
    p.retryLoopInt64 lib env modified ns name steps i st = none := by
  unfold maxInt64 at hmax
  induction steps with
  | zero => intro i st _ _; rfl
  | succ steps ih =>
    intro i st hi hc
    have hle : i ≤ p.Retries := by omega
    obtain ⟨obj, hobj⟩ := hget
      (if i > triesBeforeBackOff then st.trace ++ [Call.sleep backOffPeriod] else st.trace)
    simp only [Patcher.retryLoopInt64, hle, hc, and_self, if_true, hobj]
    exact ih _ _ (wrapInt64_range (i + 1)).2 (hconf _ _)

/-- C3, refuted as stated. A patcher with `Retries` set to the largest
`int`, on a cluster where every patch attempt conflicts and every `Get`
succeeds: however many times the condition of the retry loop is evaluated,
`Patch` has not left the loop, so it neither stops after `1 + Retries`
attempts nor returns a conflict error. -/
theorem Patch_retries_overflow_counterexample :
    0 ≤ maxIntPatcher.Retries
    ∧ (∀ obj tr, IsConflict
        (maxIntPatcher.patchSimple echoLib conflictCluster obj "desired" "ns" "n" tr).1.err = true)
    ∧ (∀ tr, ∃ obj, conflictCluster.get tr "ns" "n" = .ok obj)
    ∧ ∀ steps, maxIntPatcher.PatchInt64 echoLib conflictCluster { handle := "live" } "desired"
        "ns" "n" [] steps = none := by
  refine ⟨by decide, fun _ _ => rfl, fun _ => ⟨_, rfl⟩, ?_⟩
  intro steps
  have hp : maxIntPatcher.withDefaultRetries = maxIntPatcher := by decide
  have := retryLoopInt64_never_ends maxIntPatcher echoLib conflictCluster "desired" "ns" "n"
    rfl (fun _ _ => rfl) (fun _ => ⟨_, rfl⟩) steps 1
    { patchBytes := (maxIntPatcher.patchSimple echoLib conflictCluster { handle := "live" }
        "desired" "ns" "n" []).1.patch,
      patchObject := (maxIntPatcher.patchSimple echoLib conflictCluster { handle := "live" }
        "desired" "ns" "n" []).1.object,
      err := (maxIntPatcher.patchSimple echoLib conflictCluster { handle := "live" }
        "desired" "ns" "n" []).1.err,
      current := { handle := "live" },
      trace := (maxIntPatcher.patchSimple echoLib conflictCluster { handle := "live" }
        "desired" "ns" "n" []).2 } (by decide) rfl
  unfold Patcher.PatchInt64
  simp only [hp, this]

/-! ### Conflicts on every attempt -/

theorem isDelete_of_not_isDeleteOrCreate (c : Call) (h : c.isDeleteOrCreate = false) :
    c.isDelete = false := by
  cases c <;> simp [Call.isDeleteOrCreate, Call.isDelete] at h ⊢

theorem withDefaultRetries_fields (p : Patcher) :
    p.withDefaultRetries.Cascade = p.Cascade
    ∧ p.withDefaultRetries.GracePeriod = p.GracePeriod
    ∧ p.withDefaultRetries.Timeout = p.Timeout
    ∧ p.withDefaultRetries.Force = p.Force := by
  unfold Patcher.withDefaultRetries
  split
  · exact ⟨rfl, rfl, rfl, rfl⟩
  · exact ⟨rfl, rfl, rfl, rfl⟩

/-- The loop on a cluster where every attempt conflicts and `Get` succeeds as
long as nothing was deleted or created since the trace `tr`: it makes one
attempt for every value of the counter up to `Retries`, deletes and creates
nothing, and ends on a conflict. -/
theorem retryLoop_all_conflict (p : Patcher) (lib : Lib) (env : Cluster)
    (modified ns name : String) (tr : List Call)
    (hconf : ∀ obj tr2, IsConflict (p.patchSimple lib env obj modified ns name tr2).1.err = true)
    (hget : ∀ ext, (∀ c ∈ ext, c.isDeleteOrCreate = false) →
      ∃ obj, env.get (tr ++ ext) ns name = .ok obj) (fuel : Nat) :
    ∀ (i : Int) (st : Attempt) (ext0 : List Call), st.trace = tr ++ ext0 →
    (∀ c ∈ ext0, c.isDeleteOrCreate = false) →
    IsConflict st.err = true → i + fuel = p.Retries + 1 →
    ∃ st2, p.retryLoop lib env modified ns name fuel i st = .ok st2
      ∧ (attemptsOf st2.trace).length = (attemptsOf st.trace).length + fuel
      ∧ IsConflict st2.err = true := by
  induction fuel with
  | zero => intro i st _ _ _ hc _; exact ⟨st, rfl, rfl, hc⟩
  | succ fuel ih =>
    intro i st ext0 htr hext0 hc hi
    have hle : i ≤ p.Retries := by push_cast at hi; omega
    have htr1 : (if i > triesBeforeBackOff then st.trace ++ [Call.sleep backOffPeriod]
        else st.trace)
        = tr ++ (ext0 ++ (if i > 1 then [Call.sleep backOffPeriod] else [])) := by
      unfold triesBeforeBackOff
      rw [htr]
      split <;> simp
    have hext1 : ∀ c ∈ ext0 ++ (if i > 1 then [Call.sleep backOffPeriod] else []),
        c.isDeleteOrCreate = false := by
      intro c hmem
      rcases List.mem_append.1 hmem with hmem | hmem
      · exact hext0 c hmem
      · split at hmem
        · simp at hmem; subst hmem; rfl
        · simp at hmem
    obtain ⟨obj, hobj⟩ := hget _ hext1
    rw [← htr1] at hobj
    obtain ⟨extp, p1, p2, _, p4⟩ := patchSimple_trace p lib env obj modified ns name
      ((if i > triesBeforeBackOff then st.trace ++ [Call.sleep backOffPeriod] else st.trace)
        ++ [.get ns name (.ok obj)])
    obtain ⟨st2, h1, h2, h3⟩ := ih (i + 1)
      { patchBytes := (p.patchSimple lib env obj modified ns name
          ((if i > triesBeforeBackOff then st.trace ++ [Call.sleep backOffPeriod] else st.trace)
            ++ [.get ns name (.ok obj)])).1.patch,
        patchObject := (p.patchSimple lib env obj modified ns name
          ((if i > triesBeforeBackOff then st.trace ++ [Call.sleep backOffPeriod] else st.trace)
            ++ [.get ns name (.ok obj)])).1.object,
        err := (p.patchSimple lib env obj modified ns name
          ((if i > triesBeforeBackOff then st.trace ++ [Call.sleep backOffPeriod] else st.trace)
            ++ [.get ns name (.ok obj)])).1.err,
        current := obj,
        trace := (p.patchSimple lib env obj modified ns name
          ((if i > triesBeforeBackOff then st.trace ++ [Call.sleep backOffPeriod] else st.trace)
            ++ [.get ns name (.ok obj)])).2 }
      ((ext0 ++ (if i > 1 then [Call.sleep backOffPeriod] else []))
        ++ [.get ns name (.ok obj)] ++ extp)
      (by simp only; rw [p1, htr1]; simp)
      (by
        intro c hmem
        rcases List.mem_append.1 hmem with hmem | hmem
        · rcases List.mem_append.1 hmem with hmem | hmem
          · exact hext1 c hmem
          · simp at hmem; subst hmem; rfl
        · exact p4 c hmem)
      (hconf _ _) (by push_cast at hi ⊢; omega)
    refine ⟨st2, ?_, ?_, h3⟩
    · simp only [Patcher.retryLoop, hle, hc, and_self, if_true, hobj]
      exact h1
    · rw [h2]
      simp only
      rw [p1, attemptsOf_append, attemptsOf_append, p2]
      have : attemptsOf (if i > triesBeforeBackOff then st.trace ++ [Call.sleep backOffPeriod]
          else st.trace) = attemptsOf st.trace := by
        split <;> simp [attemptsOf]
      rw [this]
      simp [attemptsOf]
      omega

/-- The way `deleteAndCreate` goes on after the deletion: an error of the
deletion is handed back and nothing more is done; once the deletion went
through, the poll saw the object gone and the desired text decodes, the
decoded object is created, and a creation that succeeds is the end. -/
theorem deleteAndCreate_steps (p : Patcher) (lib : Lib) (env : Cluster) (original : Object)
    (modified ns name : String) (tr : List Call) :
    (∀ err, env.deleteWithOptions tr ns name (asDeleteOptions p.Cascade p.GracePeriod)
        = some err →
      p.deleteAndCreate lib env original modified ns name tr
        = (⟨some modified, none, some err⟩,
            tr ++ [.deleteWithOptions ns name (asDeleteOptions p.Cascade p.GracePeriod)
              (some err)]))
    ∧ (∀ tr2 desired,
      env.deleteWithOptions tr ns name (asDeleteOptions p.Cascade p.GracePeriod) = none →
      pollAbsent env ns name (env.pollsWithin p.Timeout + 1)
        (tr ++ [.deleteWithOptions ns name (asDeleteOptions p.Cascade p.GracePeriod) none])
        = (none, tr2) →
      lib.decode modified = .ok desired →
      (∃ ext2, (p.deleteAndCreate lib env original modified ns name tr).2
        = tr2 ++ .create ns true desired (env.create tr2 ns true desired) :: ext2)
      ∧ ((env.create tr2 ns true desired).2 = none →
        p.deleteAndCreate lib env original modified ns name tr
          = (⟨some modified, (env.create tr2 ns true desired).1, none⟩,
              tr2 ++ [.create ns true desired (env.create tr2 ns true desired)]))) := by
  constructor
  · intro err hd
    unfold Patcher.deleteAndCreate
    rw [delete_eq, hd]
  · intro tr2 desired hd hp hdec
    unfold Patcher.deleteAndCreate
    rw [delete_eq, hd]
    simp only [hp, hdec]
    cases hc : (env.create tr2 ns true desired).2 with
    | none => exact ⟨⟨[], rfl⟩, fun _ => rfl⟩
    | some err =>
      simp only
      constructor
      · cases (env.create (tr2 ++ [Call.create ns true desired (env.create tr2 ns true desired)])
          ns true original).2 with
        | none =>
          exact ⟨[.create ns true original (env.create (tr2 ++ [Call.create ns true desired
            (env.create tr2 ns true desired)]) ns true original)], by simp⟩
        | some err2 =>
          exact ⟨[.create ns true original (env.create (tr2 ++ [Call.create ns true desired
            (env.create tr2 ns true desired)]) ns true original)], by simp⟩
      · intro h; cases h

/-- C3, amended. Take a patcher with `0 ≤ Retries` below the largest `int`,
on a cluster where every call of `patchSimple` returns a conflict and `Get`
succeeds as long as nothing was deleted or created since the call began. Let
`R` be 5 for `Retries = 0` and `Retries` otherwise. Then `Patch` with Go's
wrapping counter leaves its loop after `R + 1` evaluations of the loop
condition and returns what `Patch` returns here; the attempts run through,
`1 + R` of them, and end on a conflict, and the whole call makes just these
attempts. Without `Force`, `Patch` returns that conflict and does nothing
more. With `Force`, the call that follows the last attempt is the deletion
with the options of the patcher; an error of the deletion is returned and
ends the call; and when the deletion went through, the poll saw the object
gone and the desired text decodes, the decoded object is created, and a
creation that succeeds ends the call, which returns the created object and
no error. -/
theorem Patch_conflicts_exhaust_retries (p : Patcher) (lib : Lib) (env : Cluster)
    (current : Object) (modified ns name : String) (tr : List Call)
    (h0 : 0 ≤ p.Retries) (hmax : p.Retries < maxInt64)
    (hconf : ∀ obj tr2, IsConflict (p.patchSimple lib env obj modified ns name tr2).1.err = true)
    (hget : ∀ ext, (∀ c ∈ ext, c.isDeleteOrCreate = false) →
      ∃ obj, env.get (tr ++ ext) ns name = .ok obj) :
    p.PatchInt64 lib env current modified ns name tr
        ((if p.Retries = 0 then 5 else p.Retries.toNat) + 1)
      = some (p.Patch lib env current modified ns name tr)
    ∧ ∃ st, p.attempts lib env current modified ns name tr = .ok st
      ∧ IsConflict st.err = true
      ∧ (attemptsOf st.trace).length
          = (attemptsOf tr).length + 1 + (if p.Retries = 0 then 5 else p.Retries.toNat)
      ∧ (attemptsOf (p.Patch lib env current modified ns name tr).2.2).length
          = (attemptsOf tr).length + 1 + (if p.Retries = 0 then 5 else p.Retries.toNat)
      ∧ (p.Force = false →
          (p.Patch lib env current modified ns name tr).1.err = st.err
          ∧ (p.Patch lib env current modified ns name tr).2.2 = st.trace)
      ∧ (p.Force = true →
          (∃ ext, (p.Patch lib env current modified ns name tr).2.2
              = st.trace ++ .deleteWithOptions ns name (asDeleteOptions p.Cascade p.GracePeriod)
                  (env.deleteWithOptions st.trace ns name
                    (asDeleteOptions p.Cascade p.GracePeriod)) :: ext
            ∧ ∀ c ∈ ext, (∃ r, c = .get ns name r) ∨ ∃ o r, c = .create ns true o r)
          ∧ (∀ err, env.deleteWithOptions st.trace ns name
                (asDeleteOptions p.Cascade p.GracePeriod) = some err →
              (p.Patch lib env current modified ns name tr).1
                = { patch := some modified, object := none, err := some err }
              ∧ (p.Patch lib env current modified ns name tr).2.2
                = st.trace ++ [.deleteWithOptions ns name
                    (asDeleteOptions p.Cascade p.GracePeriod) (some err)])
          ∧ (∀ tr2 desired,
              env.deleteWithOptions st.trace ns name
                (asDeleteOptions p.Cascade p.GracePeriod) = none →
              pollAbsent env ns name (env.pollsWithin p.Timeout + 1)
                (st.trace ++ [.deleteWithOptions ns name
                  (asDeleteOptions p.Cascade p.GracePeriod) none]) = (none, tr2) →
              lib.decode modified = .ok desired →
              (∃ ext2, (p.Patch lib env current modified ns name tr).2.2
                = tr2 ++ .create ns true desired (env.create tr2 ns true desired) :: ext2)
              ∧ ((env.create tr2 ns true desired).2 = none →
                (p.Patch lib env current modified ns name tr).1
                  = { patch := some modified, object := (env.create tr2 ns true desired).1,
                      err := none }
                ∧ (p.Patch lib env current modified ns name tr).2.2
                  = tr2 ++ [.create ns true desired (env.create tr2 ns true desired)]))) := by
  have hconf1 : ∀ obj tr2,
      IsConflict (p.withDefaultRetries.patchSimple lib env obj modified ns name tr2).1.err
        = true := by
    intro obj tr2
    rw [patchSimple_withDefaultRetries]
    exact hconf obj tr2
  have hR : p.withDefaultRetries.Retries.toNat = (if p.Retries = 0 then 5 else p.Retries.toNat)
      ∧ 0 ≤ p.withDefaultRetries.Retries := by
    unfold Patcher.withDefaultRetries
    by_cases hz : p.Retries = 0
    · simp [hz, maxPatchRetry]
    · simp [hz, h0]
  obtain ⟨f1, f2, f3, _⟩ := withDefaultRetries_fields p
  obtain ⟨extp, p1, p2, _, p4⟩ := patchSimple_trace p lib env current modified ns name tr
  obtain ⟨st, h1, h2, h3⟩ := retryLoop_all_conflict p.withDefaultRetries lib env modified ns
    name tr hconf1 hget p.withDefaultRetries.Retries.toNat 1
    { patchBytes := (p.patchSimple lib env current modified ns name tr).1.patch,
      patchObject := (p.patchSimple lib env current modified ns name tr).1.object,
      err := (p.patchSimple lib env current modified ns name tr).1.err,
      current := current,
      trace := (p.patchSimple lib env current modified ns name tr).2 }
    extp p1 p4 (hconf current tr) (by rw [Int.toNat_of_nonneg hR.2]; omega)
  have hst : p.attempts lib env current modified ns name tr = .ok st := h1
  have hlen : (attemptsOf st.trace).length
      = (attemptsOf tr).length + 1 + (if p.Retries = 0 then 5 else p.Retries.toNat) := by
    rw [h2, hR.1]
    simp only
    rw [p1, attemptsOf_append, p2]
    simp
  obtain ⟨hyes, hno⟩ := Patch_after_attempts p lib env current modified ns name tr st hst
  refine ⟨?_, st, hst, h3, hlen, ?_, ?_, ?_⟩
  · rw [← hR.1]
    exact PatchInt64_eq p lib env current modified ns name tr hmax
  · by_cases hf : p.Force = true
    · rw [hyes ⟨hf, Or.inl h3⟩]
      simp only
      rw [(deleteAndCreate_quiet p.withDefaultRetries lib env st.current modified ns name
        st.trace).1]
      exact hlen
    · rw [hno (fun h => hf h.1)]
      exact hlen
  · intro hf
    rw [hno (fun h => by rw [hf] at h; cases h.1)]
    exact ⟨rfl, rfl⟩
  · intro hf
    rw [hyes ⟨hf, Or.inl h3⟩]
    simp only
    have htrace := deleteAndCreate_trace p.withDefaultRetries lib env st.current modified ns
      name st.trace
    obtain ⟨s1, s2⟩ := deleteAndCreate_steps p.withDefaultRetries lib env st.current modified
      ns name st.trace
    rw [f1, f2] at htrace s1
    rw [f1, f2, f3] at s2
    refine ⟨htrace, ?_, ?_⟩
    · intro err hd
      rw [s1 err hd]
      exact ⟨rfl, rfl⟩
    · intro tr2 desired hd hp hdec
      obtain ⟨c1, c2⟩ := s2 tr2 desired hd hp hdec
      refine ⟨c1, ?_⟩
      intro hc
      rw [c2 hc]
      exact ⟨rfl, rfl⟩

/-- A forcing patcher with two retries on a cluster where every patch
conflicts and the object is there until it is deleted: three attempts, then
the deletion, the poll and the creation, and `Patch` returns the created
object without an error. -/
theorem Patch_conflicts_exhaust_retries_witness :
    (attemptsOf (forcingPatcher.Patch echoLib replaceCluster { handle := "live" } "desired"
        "ns" "n" []).2.2).length = 3
    ∧ (forcingPatcher.Patch echoLib replaceCluster { handle := "live" } "desired" "ns" "n"
        []).1 = { patch := some "desired", object := some { handle := "desired" }, err := none }
    ∧ (forcingPatcher.Patch echoLib replaceCluster { handle := "live" } "desired" "ns" "n"
        []).2.2
      = conflictsOutcome.trace
        ++ [.deleteWithOptions "ns" "n" (asDeleteOptions true (-1)) none,
            .get "ns" "n" (.error { reason := .notFound, msg := "not found" }),
            .create "ns" true { handle := "desired" } (some { handle := "desired" }, none)] := by
  obtain ⟨_, st, hst, _, _, hn, _, hforce⟩ := Patch_conflicts_exhaust_retries forcingPatcher
    echoLib replaceCluster { handle := "live" } "desired" "ns" "n" [] (by decide) (by decide)
    (fun _ _ => rfl)
    (by
      intro ext hext
      have hnone : ∀ c ∈ ext, c.isDelete = false :=
        fun c hc => isDelete_of_not_isDeleteOrCreate c (hext c hc)
      exact ⟨{ handle := "live" }, by simpa [replaceCluster] using hnone⟩)
  have hconc : forcingPatcher.attempts echoLib replaceCluster { handle := "live" } "desired"
      "ns" "n" [] = .ok conflictsOutcome := by decide
  rw [hconc] at hst
  cases hst
  obtain ⟨_, hres⟩ := ((hforce rfl).2.2
    (conflictsOutcome.trace
      ++ [.deleteWithOptions "ns" "n" (asDeleteOptions true (-1)) none,
          .get "ns" "n" (.error { reason := .notFound, msg := "not found" })])
    { handle := "desired" } rfl (by decide) rfl)
  exact ⟨by simpa [attemptsOf] using hn, (hres rfl).1, (hres rfl).2⟩

/-- The patcher `Patch` leaves behind. -/
theorem Patch_patcher (p : Patcher) (lib : Lib) (env : Cluster) (current : Object)
    (modified ns name : String) (tr : List Call) :
    (p.Patch lib env current modified ns name tr).2.1 = p.withDefaultRetries := by
  unfold Patcher.Patch
  cases p.attempts lib env current modified ns name tr with
  | error x => rfl
  | ok st => simp only; split <;> rfl

/-- C12, refuted as stated. A patcher built by `newPatcher` has
`Retries = 0` when `Patch` is called and `Retries = 5` when `Patch` has
returned, here after a call that had nothing to patch. -/
theorem Patch_retries_counterexample :
    (newPatcher "gvk").Retries = 0
    ∧ ((newPatcher "gvk").Patch plainLib twoConflictsCluster { handle := "live" } "live" "ns"
        "n" []).2.1.Retries = 5 := by
  decide

/-- C12, amended. Whatever the patcher, the library, the cluster and the
arguments, `Patch` leaves `Overwrite`, `Force`, `Cascade`, `Timeout`,
`GracePeriod`, `ResourceVersion`, `Mapping` and `OpenapiSchema` as they were;
it leaves `Retries` as it was when that was not 0, and sets it to 5 when it
was 0. -/
theorem Patch_configuration (p : Patcher) (lib : Lib) (env : Cluster) (current : Object)
    (modified ns name : String) (tr : List Call) :
    (p.Patch lib env current modified ns name tr).2.1.Overwrite = p.Overwrite
    ∧ (p.Patch lib env current modified ns name tr).2.1.Force = p.Force
    ∧ (p.Patch lib env current modified ns name tr).2.1.Cascade = p.Cascade
    ∧ (p.Patch lib env current modified ns name tr).2.1.Timeout = p.Timeout
    ∧ (p.Patch lib env current modified ns name tr).2.1.GracePeriod = p.GracePeriod
    ∧ (p.Patch lib env current modified ns name tr).2.1.ResourceVersion = p.ResourceVersion
    ∧ (p.Patch lib env current modified ns name tr).2.1.Mapping = p.Mapping
    ∧ (p.Patch lib env current modified ns name tr).2.1.OpenapiSchema = p.OpenapiSchema
    ∧ (p.Patch lib env current modified ns name tr).2.1.Retries
        = (if p.Retries = 0 then 5 else p.Retries) := by
  rw [Patch_patcher]
  unfold Patcher.withDefaultRetries
  by_cases h : p.Retries = 0
  · simp [h, maxPatchRetry]
  · simp [h]

end Kubeclient

end Reconciler
